import Mathlib

/-!
# Progress, achievements, analytics, path generation, export and sign-in of the
learning-path app

A shallow embedding of

* the aggregation code of `src/components/ProgressTracker.jsx` (`calculateProgress`,
  `calculateProgressWithData`, the per-module percentage of the render loop,
  `toggleStepCompletion`, `checkAchievements`),
* `calculateProgress` of `src/components/SavedPaths.jsx`,
* `calculateAnalytics` and `calculateLearningStreak` of
  `src/components/LearningAnalytics.jsx`,
* `generateLearningPath` of `src/services/aiService.js`,
* the file names and `exportToCalendar` of `src/components/ExportUtils.jsx`,
* `validateForm` and `handleSubmit` of `src/components/AuthForm.jsx`,
* `savePath` and the snapshot listener of `src/hooks/useLearningPaths.js`, and the props
  that `src/components/SavedPaths.jsx` hands to the export dialog.

Conventions:

* Arrays are lists, `forEach` loops are recursive functions that pass the loop
  counters along, React state is an explicit record, and what the surroundings decide
  (whether a write succeeds, what the clock shows, what `fetch` and `JSON.parse` and the
  local calendar do) is an argument.
* The counters `totalSteps`, `completedSteps` are natural numbers: they are incremented
  one by one from zero and stay far below `2 ^ 53`, where doubles count exactly.
* `completedSteps / totalSteps`, `... * 100` and the division of a time difference by the
  milliseconds of a day are IEEE-754 binary64 operations: each is the exact quotient or
  product rounded to the nearest double, ties to even.  A finite double is kept as an
  exact fraction of two natural numbers.
* `Math.round` rounds to the nearest integer, ties towards `+∞`; `Math.floor` rounds
  down.
* A `Date` is its time value in milliseconds; every `new Date()` is a clock reading of
  its own.
* A string is a list of Unicode characters; where the code counts or matches UTF-16
  code units, a character outside the basic plane counts as two.
-/

namespace LearningPath

/-! ## JavaScript values -/

/-- A JavaScript value as it can sit under a key of the `progress` object. -/
inductive JsVal where
  | undefined
  | null
  | bool (b : Bool)
  | num (n : Int)
  | str (s : String)
  deriving DecidableEq, Repr

/-- JavaScript truthiness (`ToBoolean`). -/
def JsVal.truthy : JsVal → Bool
  | .undefined => false
  | .null => false
  | .bool b => b
  | .num n => n != 0
  | .str s => s != ""

/-- The `progress` object: a lookup `progress[key]`; an absent key reads `undefined`. -/
abbrev Progress := String → JsVal

/-- The empty object `{}`. -/
def emptyProgress : Progress := fun _ => JsVal.undefined

/-- The template string that joins `moduleIndex`, a dash and `topicIndex`. -/
def stepKey (moduleIndex topicIndex : Nat) : String :=
  toString moduleIndex ++ "-" ++ toString topicIndex

/-! ## Binary64 arithmetic on counters -/

/-- Round the fraction `n / d` to the nearest integer, ties to the even one. -/
def roundHalfEven (n d : Nat) : Nat :=
  let q := (2 * n + d) / (2 * d)
  if (2 * n + d) % (2 * d) = 0 ∧ q % 2 = 1 then q - 1 else q

/-- Number of doublings of `n` needed to reach `2 ^ 52 * d`. -/
def scaleUp : Nat → Nat → Nat → Nat
  | 0, _, _ => 0
  | fuel + 1, n, d => if n < 2 ^ 52 * d then scaleUp fuel (2 * n) d + 1 else 0

/-- Number of doublings of `d` needed before `n` is below `2 ^ 53 * d`. -/
def scaleDown : Nat → Nat → Nat → Nat
  | 0, _, _ => 0
  | fuel + 1, n, d => if 2 ^ 53 * d ≤ n then scaleDown fuel n (2 * d) + 1 else 0

/-- The double nearest to the positive fraction `n / d` (round to nearest, ties to
even, 53-bit significand), as a fraction `(numerator, denominator)`.  The fraction is
scaled by a power of two into `[2 ^ 52, 2 ^ 53)`, rounded to an integer there and
scaled back. -/
def roundToDouble (n d : Nat) : Nat × Nat :=
  if n = 0 then (0, 1)
  else
    let up := scaleUp (d + 52) n d
    let down := scaleDown n n d
    (roundHalfEven (n * 2 ^ up) (d * 2 ^ down) * 2 ^ down, 2 ^ up)

/-- The JavaScript numbers that the percentage code can produce: `NaN`, `Infinity`
and the non-negative finite double of exact value `num / den`. -/
inductive JsNumber where
  | nan
  | posInf
  | fin (num den : Nat)
  deriving DecidableEq, Repr

namespace JsNumber

/-- A counter value as a number. -/
def ofNat (n : Nat) : JsNumber := fin n 1

/-- The quotient `a / b` of two counters. -/
def divNat (a b : Nat) : JsNumber :=
  if b = 0 then (if a = 0 then nan else posInf)
  else fin (roundToDouble a b).1 (roundToDouble a b).2

/-- The product `x * k` of a number and a positive integer literal. -/
def mulNat (x : JsNumber) (k : Nat) : JsNumber :=
  match x with
  | nan => nan
  | posInf => if k = 0 then nan else posInf
  | fin n d => fin (roundToDouble (n * k) d).1 (roundToDouble (n * k) d).2

/-- `Math.round`: nearest integer, ties towards `+∞`; `NaN` and `Infinity` stay. -/
def mathRound : JsNumber → JsNumber
  | nan => nan
  | posInf => posInf
  | fin n d => fin ((2 * n + d) / (2 * d)) 1

/-- The comparison `x >= k`. -/
def geNat (x : JsNumber) (k : Nat) : Bool :=
  match x with
  | nan => false
  | posInf => true
  | fin n d => decide (k * d ≤ n)

/-- The comparison `x > k`. -/
def gtNat (x : JsNumber) (k : Nat) : Bool :=
  match x with
  | nan => false
  | posInf => true
  | fin n d => decide (k * d < n)

/-- The comparison `x === k`. -/
def eqNat (x : JsNumber) (k : Nat) : Bool :=
  match x with
  | nan => false
  | posInf => false
  | fin n d => decide (n = k * d)

end JsNumber

/-- The expression `Math.round((completed / total) * 100)`. -/
def roundedPercent (completed total : Nat) : JsNumber :=
  JsNumber.mathRound ((JsNumber.divNat completed total).mulNat 100)

/-! ## Modules and the step counters -/

/-- A module of a learning path; `subTopics` is its array of subtopic names, a
required field of the generated module (the array may be empty). -/
structure Module where
  moduleTitle : String
  description : String
  subTopics : List String
  deriving DecidableEq, Repr

/-- The inner loop `module.subTopics.forEach((_, topicIndex) => ...)`: the rest of the
array, the index of its first element, and the counters `(totalSteps, completedSteps)`. -/
def subTopicsLoop (progress : Progress) (moduleIndex : Nat) :
    List String → Nat → Nat × Nat → Nat × Nat
  | [], _, counters => counters
  | _ :: rest, topicIndex, counters =>
    subTopicsLoop progress moduleIndex rest (topicIndex + 1)
      (counters.1 + 1,
        if (progress (stepKey moduleIndex topicIndex)).truthy then counters.2 + 1
        else counters.2)

/-- The outer loop `learningPath.forEach((module, moduleIndex) => ...)`. -/
def modulesLoop (progress : Progress) : List Module → Nat → Nat × Nat → Nat × Nat
  | [], _, counters => counters
  | module :: rest, moduleIndex, counters =>
    modulesLoop progress rest (moduleIndex + 1)
      (subTopicsLoop progress moduleIndex module.subTopics 0 counters)

/-- The function `calculateProgress` of `ProgressTracker`: the overall percentage of
the component's `progress` state.  `learningPath` is `none` for a missing prop. -/
def calculateProgress (learningPath : Option (List Module)) (progress : Progress) :
    JsNumber :=
  match learningPath with
  | none => JsNumber.ofNat 0
  | some modules =>
    if modules.length = 0 then JsNumber.ofNat 0
    else
      let counters := modulesLoop progress modules 0 (0, 0)
      if counters.1 > 0 then roundedPercent counters.2 counters.1 else JsNumber.ofNat 0

/-- The function `calculateProgressWithData` of `ProgressTracker`: the same
computation on a progress object passed as argument. -/
def calculateProgressWithData (learningPath : Option (List Module))
    (progressData : Progress) : JsNumber :=
  match learningPath with
  | none => JsNumber.ofNat 0
  | some modules =>
    if modules.length = 0 then JsNumber.ofNat 0
    else
      let counters := modulesLoop progressData modules 0 (0, 0)
      if counters.1 > 0 then roundedPercent counters.2 counters.1 else JsNumber.ofNat 0

/-- The callback form of `filter`: keep the elements whose `(element, index)` passes. -/
def filterFrom (keep : Nat → Bool) : List String → Nat → List String
  | [], _ => []
  | topic :: rest, topicIndex =>
    if keep topicIndex then topic :: filterFrom keep rest (topicIndex + 1)
    else filterFrom keep rest (topicIndex + 1)

/-- The value `moduleProgress` of the render loop: how many subtopics of the module
have a truthy step key. -/
def moduleProgress (progress : Progress) (moduleIndex : Nat) (module : Module) : Nat :=
  (filterFrom (fun topicIndex => (progress (stepKey moduleIndex topicIndex)).truthy)
    module.subTopics 0).length

/-- The value `modulePercentage` of the render loop. -/
def modulePercentage (progress : Progress) (moduleIndex : Nat) (module : Module) :
    JsNumber :=
  roundedPercent (moduleProgress progress moduleIndex module) module.subTopics.length

/-! ## Achievements -/

/-- An entry of the milestone catalog of `checkAchievements`. -/
structure Milestone where
  id : String
  name : String
  description : String
  threshold : Nat
  icon : String
  deriving DecidableEq, Repr

/-- An unlocked achievement: the milestone's fields and the time it was earned (a
`Date`, as milliseconds). -/
structure Achievement where
  id : String
  name : String
  description : String
  threshold : Nat
  icon : String
  earnedAt : Nat
  deriving DecidableEq, Repr

/-- The array `milestones` of `checkAchievements`. -/
def milestones : List Milestone :=
  [ ⟨"first_step", "First Step", "Complete your first learning step", 1, "🎯"⟩,
    ⟨"quarter_way", "Quarter Master", "Complete 25% of your learning path", 25, "🌟"⟩,
    ⟨"halfway_hero", "Halfway Hero", "Complete 50% of your learning path", 50, "🚀"⟩,
    ⟨"three_quarters", "Almost There", "Complete 75% of your learning path", 75, "💪"⟩,
    ⟨"completion_champion", "Completion Champion",
      "Complete 100% of your learning path", 100, "🏆"⟩ ]

/-- The pushed object: the milestone spread, with `earnedAt` set. -/
def Milestone.earn (milestone : Milestone) (earnedAt : Nat) : Achievement :=
  ⟨milestone.id, milestone.name, milestone.description, milestone.threshold,
    milestone.icon, earnedAt⟩

/-- The milestone part of an achievement. -/
def Achievement.milestone (a : Achievement) : Milestone :=
  ⟨a.id, a.name, a.description, a.threshold, a.icon⟩

/-- The condition of the `if` in the milestone loop: the percentage reaches the
threshold and `achievements.find` meets no entry with the milestone's id. -/
def unlocks (progressPercentage : JsNumber) (achievements : List Achievement)
    (milestone : Milestone) : Bool :=
  progressPercentage.geNat milestone.threshold &&
    (achievements.find? (fun a => a.id == milestone.id)).isNone

/-- The loop `milestones.forEach(...)`.  The state is the array `newAchievements` and
the number of `new Date()` values taken so far; `clock i` is the value of the `i`-th
one. -/
def milestoneLoop (progressPercentage : JsNumber) (achievements : List Achievement)
    (clock : Nat → Nat) : List Milestone → List Achievement × Nat → List Achievement × Nat
  | [], state => state
  | milestone :: rest, state =>
    if unlocks progressPercentage achievements milestone then
      milestoneLoop progressPercentage achievements clock rest
        (state.1 ++ [milestone.earn (clock state.2)], state.2 + 1)
    else milestoneLoop progressPercentage achievements clock rest state

/-- The array `newAchievements` at the end of `checkAchievements`. -/
def newAchievements (learningPath : Option (List Module)) (achievements : List Achievement)
    (currentProgress : Progress) (clock : Nat → Nat) : List Achievement :=
  (milestoneLoop (calculateProgressWithData learningPath currentProgress) achievements
    clock milestones (achievements, 0)).1

/-- The function `checkAchievements`: the `achievements` state it leaves.  The state is
replaced by `newAchievements` only when that array is longer. -/
def checkAchievements (learningPath : Option (List Module))
    (achievements : List Achievement) (currentProgress : Progress) (clock : Nat → Nat) :
    List Achievement :=
  let grown := newAchievements learningPath achievements currentProgress clock
  if grown.length > achievements.length then grown else achievements

/-! ## Toggling a step -/

/-- The React state of `ProgressTracker`. -/
structure TrackerState where
  progress : Progress
  loading : Bool
  achievements : List Achievement

/-- The fields of the stored path document that the component writes. -/
structure PathDoc where
  progress : Progress
  lastUpdated : Nat
  achievements : List Achievement

/-- What the surroundings decide during one toggle: whether each `updateDoc` resolves,
the values of the `new Date()` calls in order, and the `onProgressUpdate` prop (absent,
or a callback that returns `true` when it returns normally and `false` when it throws). -/
structure ToggleEnv where
  progressWriteOk : Bool
  achievementsWriteOk : Bool
  clock : Nat → Nat
  onProgressUpdate : Option (JsNumber → Bool)

/-- The result of one toggle: the state after it, the stored document after it, and
the value handed to `onProgressUpdate`, if it was called. -/
structure ToggleOutcome where
  state : TrackerState
  doc : PathDoc
  reported : Option JsNumber

/-- The object `newProgress` of `toggleStepCompletion`: the spread of `progress` with
the step key overwritten by the negation of its old value. -/
def toggledProgress (progress : Progress) (moduleIndex topicIndex : Nat) : Progress :=
  fun key =>
    if key = stepKey moduleIndex topicIndex then
      JsVal.bool (!(progress (stepKey moduleIndex topicIndex)).truthy)
    else progress key

/-- The function `toggleStepCompletion`, from the state of the render it was created
in.  When the first `updateDoc` rejects, the `catch` puts the old `progress` back and
nothing else has happened.  Otherwise the document holds `newProgress` and the time,
`checkAchievements(newProgress)` has run, and the callback, if present, has received
`calculateProgress()`, computed from the `progress` of this render; a callback that
throws lands in the same `catch`.  `finally` clears `loading`. -/
def toggleStepCompletion (learningPath : Option (List Module)) (s : TrackerState)
    (doc : PathDoc) (moduleIndex topicIndex : Nat) (env : ToggleEnv) : ToggleOutcome :=
  let newProgress := toggledProgress s.progress moduleIndex topicIndex
  if env.progressWriteOk then
    let laterClock := fun i => env.clock (i + 1)
    let grown := newAchievements learningPath s.achievements newProgress laterClock
    let checked := checkAchievements learningPath s.achievements newProgress laterClock
    let storedAchievements :=
      if grown.length > s.achievements.length ∧ env.achievementsWriteOk = true then grown
      else doc.achievements
    let written : PathDoc := ⟨newProgress, env.clock 0, storedAchievements⟩
    match env.onProgressUpdate with
    | none => ⟨⟨newProgress, false, checked⟩, written, none⟩
    | some callback =>
      let value := calculateProgress learningPath s.progress
      if callback value then ⟨⟨newProgress, false, checked⟩, written, some value⟩
      else ⟨⟨s.progress, false, checked⟩, written, some value⟩
  else ⟨⟨s.progress, false, s.achievements⟩, doc, none⟩

/-- One step toggle of a session: the step and what the surroundings decide. -/
structure Toggle where
  moduleIndex : Nat
  topicIndex : Nat
  env : ToggleEnv

/-- A session: the toggles applied one after the other, each from the state and the
document the previous one left. -/
def runToggles (learningPath : Option (List Module)) :
    List Toggle → TrackerState × PathDoc → TrackerState × PathDoc
  | [], current => current
  | toggle :: rest, current =>
    let outcome := toggleStepCompletion learningPath current.1 current.2
      toggle.moduleIndex toggle.topicIndex toggle.env
    runToggles learningPath rest (outcome.state, outcome.doc)

/-! ## The step counters of the analytics -/

/-- A path record of the snapshot, as `calculateAnalytics` reads it: every field may
be absent. -/
structure PathRecord where
  skill : Option String
  path : Option (List Module)
  progress : Option Progress
  achievements : Option (List Achievement)
  lastUpdated : Option Nat

/-- The counters of `calculateAnalytics` that do not depend on dates. -/
structure Counters where
  completedPaths : Nat
  inProgressPaths : Nat
  totalSteps : Nat
  completedSteps : Nat
  totalAchievements : Nat
  skillsLearned : List String

/-- The test `path.progress && path.progress[stepKey]`. -/
def recordStepDone (progress : Option Progress) (moduleIndex topicIndex : Nat) : Bool :=
  match progress with
  | none => false
  | some p => (p (stepKey moduleIndex topicIndex)).truthy

/-- The inner loop of `calculateAnalytics` over the subtopics of one module.  The
state is `(pathTotalSteps, pathCompletedSteps, totalSteps, completedSteps)`. -/
def analyticsSubTopicsLoop (progress : Option Progress) (moduleIndex : Nat) :
    List String → Nat → Nat × Nat × Nat × Nat → Nat × Nat × Nat × Nat
  | [], _, state => state
  | _ :: rest, topicIndex, state =>
    analyticsSubTopicsLoop progress moduleIndex rest (topicIndex + 1)
      (if recordStepDone progress moduleIndex topicIndex then
        (state.1 + 1, state.2.1 + 1, state.2.2.1 + 1, state.2.2.2 + 1)
      else (state.1 + 1, state.2.1, state.2.2.1 + 1, state.2.2.2))

/-- The loop of `calculateAnalytics` over the modules of one path.  A module of this
embedding always has its `subTopics` array, so the guard on it is passed. -/
def analyticsModulesLoop (progress : Option Progress) :
    List Module → Nat → Nat × Nat × Nat × Nat → Nat × Nat × Nat × Nat
  | [], _, state => state
  | module :: rest, moduleIndex, state =>
    analyticsModulesLoop progress rest (moduleIndex + 1)
      (analyticsSubTopicsLoop progress moduleIndex module.subTopics 0 state)

/-- The value `pathProgress`: the percentage of one path, not rounded. -/
def pathProgress (pathCompletedSteps pathTotalSteps : Nat) : JsNumber :=
  if pathTotalSteps > 0 then (JsNumber.divNat pathCompletedSteps pathTotalSteps).mulNat 100
  else JsNumber.ofNat 0

/-- The body of `paths.forEach(path => ...)` on the counters. -/
def analyticsPathStep (acc : Counters) (path : PathRecord) : Counters :=
  let skills :=
    match path.skill with
    | none => acc.skillsLearned
    | some skill =>
      if skill = "" ∨ skill ∈ acc.skillsLearned then acc.skillsLearned
      else acc.skillsLearned ++ [skill]
  let achieved :=
    match path.achievements with
    | none => acc.totalAchievements
    | some list => acc.totalAchievements + list.length
  match path.path with
  | none => ⟨acc.completedPaths, acc.inProgressPaths, acc.totalSteps, acc.completedSteps,
      achieved, skills⟩
  | some modules =>
    let state := analyticsModulesLoop path.progress modules 0
      (0, 0, acc.totalSteps, acc.completedSteps)
    let percent := pathProgress state.2.1 state.1
    if percent.eqNat 100 then
      ⟨acc.completedPaths + 1, acc.inProgressPaths, state.2.2.1, state.2.2.2, achieved, skills⟩
    else if percent.gtNat 0 then
      ⟨acc.completedPaths, acc.inProgressPaths + 1, state.2.2.1, state.2.2.2, achieved, skills⟩
    else
      ⟨acc.completedPaths, acc.inProgressPaths, state.2.2.1, state.2.2.2, achieved, skills⟩

/-- The counters of `calculateAnalytics` after the loop over `paths`. -/
def analyticsCounters (paths : List PathRecord) : Counters :=
  paths.foldl analyticsPathStep ⟨0, 0, 0, 0, 0, []⟩

/-- The value `averageProgress` of `calculateAnalytics`. -/
def averageProgress (paths : List PathRecord) : JsNumber :=
  let counters := analyticsCounters paths
  if counters.totalSteps > 0 then roundedPercent counters.completedSteps counters.totalSteps
  else JsNumber.ofNat 0

/-! ## Reference quantities

The quantities in which the percentages are described: the steps of a module list, how
many there are, how many are completed, and the exact rounded percentage. -/

/-- The steps `(moduleIndex, topicIndex)` of a module list whose first module has index
`moduleIndex`. -/
def stepsFrom : List Module → Nat → List (Nat × Nat)
  | [], _ => []
  | module :: rest, moduleIndex =>
    (List.range module.subTopics.length).map (fun topicIndex => (moduleIndex, topicIndex))
      ++ stepsFrom rest (moduleIndex + 1)

/-- The valid steps of a module list: the pairs `(moduleIndex, topicIndex)` that name a
subtopic of a module. -/
def validSteps (modules : List Module) : List (Nat × Nat) := stepsFrom modules 0

/-- Whether a step is completed in a progress map: its key holds a truthy value. -/
def stepDone (progress : Progress) (step : Nat × Nat) : Bool :=
  (progress (stepKey step.1 step.2)).truthy

/-- The total number of subtopics over all modules. -/
def totalSubtopics (modules : List Module) : Nat :=
  (modules.map (fun module => module.subTopics.length)).sum

/-- The number of valid steps that are completed. -/
def completedSubtopics (modules : List Module) (progress : Progress) : Nat :=
  (validSteps modules).countP (stepDone progress)

/-- The integer `round(100 * c / t)` with halves rounded up, for `t > 0`. -/
def exactPercent (c t : Nat) : Nat := (200 * c + t) / (2 * t)

/-! ## Example inputs -/

/-- A module with 40 subtopics. -/
def fortyTopics : Module := ⟨"Module", "forty subtopics", List.replicate 40 "topic"⟩

/-- A progress map in which the first `count` steps of module 0 are completed. -/
def firstDone (count : Nat) : Progress := fun key =>
  if (List.range count).any (fun topicIndex => key == stepKey 0 topicIndex) then
    JsVal.bool true
  else JsVal.undefined

/-- A module with three subtopics. -/
def threeTopics : Module := ⟨"Module", "three subtopics", ["a", "b", "c"]⟩

/-- Two steps done in module 0 and one in module 1. -/
def twoAndOne : Progress := fun key =>
  if key = "0-0" ∨ key = "0-1" ∨ key = "1-0" then JsVal.bool true else JsVal.undefined

/-- The map `twoAndOne` with three more keys set that name no step of a list of two
modules of three subtopics. -/
def twoAndOneStray : Progress := fun key =>
  if key = "7-0" ∨ key = "0-9" ∨ key = "draft" then JsVal.bool true else twoAndOne key

/-- A module with a single subtopic. -/
def oneTopic : Module := ⟨"Module", "one subtopic", ["a"]⟩

/-- The state of a freshly mounted tracker: nothing completed, nothing earned. -/
def freshState : TrackerState := ⟨emptyProgress, false, []⟩

/-- The stored document of a path that was never touched. -/
def freshDoc : PathDoc := ⟨emptyProgress, 0, []⟩

/-- Surroundings in which both writes succeed, the clock shows `time` and then counts
up, and no callback is passed. -/
def writesSucceed (time : Nat) : ToggleEnv := ⟨true, true, fun i => time + i, none⟩

/-- Surroundings in which the write of the progress is rejected. -/
def writeFails (time : Nat) : ToggleEnv := ⟨false, true, fun i => time + i, none⟩

/-- A session on a path with one step: the step is checked, then un-checked. -/
def checkThenUncheck : List Toggle :=
  [⟨0, 0, writesSucceed 1000⟩, ⟨0, 0, writesSucceed 2000⟩]

/-- Surroundings in which both writes succeed and the clock shows `time` at every
reading. -/
def clockStands (time : Nat) : ToggleEnv := ⟨true, true, fun _ => time, none⟩

/-- Surroundings in which both writes succeed and the clock moves on by one millisecond
once, between its third and its fourth reading. -/
def clockTicksOnce (time : Nat) : ToggleEnv :=
  ⟨true, true, fun i => if i < 3 then time else time + 1, none⟩

/-! ## The percentage shown by the list of saved paths -/

/-- The inner loop of `calculateProgress` in `SavedPaths` over the subtopics of one
module; the counters are `(totalSteps, completedSteps)`. -/
def savedSubTopicsLoop (progress : Option Progress) (moduleIndex : Nat) :
    List String → Nat → Nat × Nat → Nat × Nat
  | [], _, counters => counters
  | _ :: rest, topicIndex, counters =>
    savedSubTopicsLoop progress moduleIndex rest (topicIndex + 1)
      (counters.1 + 1,
        if recordStepDone progress moduleIndex topicIndex then counters.2 + 1
        else counters.2)

/-- The outer loop of `calculateProgress` in `SavedPaths` over `path.path`.  A module of
this embedding always has its `subTopics` array, so the guard on it is passed. -/
def savedModulesLoop (progress : Option Progress) :
    List Module → Nat → Nat × Nat → Nat × Nat
  | [], _, counters => counters
  | module :: rest, moduleIndex, counters =>
    savedModulesLoop progress rest (moduleIndex + 1)
      (savedSubTopicsLoop progress moduleIndex module.subTopics 0 counters)

/-- The function `calculateProgress` of `SavedPaths`: the rounded percentage of a saved
path record, 0 for a record without a `path` array. -/
def SavedPaths.calculateProgress (path : PathRecord) : JsNumber :=
  match path.path with
  | none => JsNumber.ofNat 0
  | some modules =>
    let counters := savedModulesLoop path.progress modules 0 (0, 0)
    if counters.1 > 0 then roundedPercent counters.2 counters.1 else JsNumber.ofNat 0

/-- The value `totalPaths` of `calculateAnalytics`. -/
def totalPaths (paths : List PathRecord) : Nat := paths.length

/-- The number shown as "Not Started": `totalPaths - completedPaths - inProgressPaths`. -/
def notStarted (paths : List PathRecord) : Nat :=
  totalPaths paths - (analyticsCounters paths).completedPaths -
    (analyticsCounters paths).inProgressPaths

/-- The number of subtopics of a path record; 0 without a `path` array. -/
def pathTotal (path : PathRecord) : Nat :=
  match path.path with
  | none => 0
  | some modules => totalSubtopics modules

/-- The number of completed steps of a path record; 0 without a `path` array or without
a `progress` object. -/
def pathCompleted (path : PathRecord) : Nat :=
  match path.path with
  | none => 0
  | some modules =>
    (validSteps modules).countP (fun step => recordStepDone path.progress step.1 step.2)

/-- A path with at least one step and every step completed. -/
def fullyCompleted (path : PathRecord) : Bool :=
  decide (0 < pathTotal path ∧ pathCompleted path = pathTotal path)

/-- A path with some steps completed, but not all. -/
def partlyCompleted (path : PathRecord) : Bool :=
  decide (0 < pathCompleted path ∧ pathCompleted path < pathTotal path)

/-- A path with no step completed. -/
def untouched (path : PathRecord) : Bool := decide (pathCompleted path = 0)

/-- The percentage of a saved path is 100. -/
def shownCompleted (path : PathRecord) : Bool :=
  (SavedPaths.calculateProgress path).eqNat 100

/-- The percentage of a saved path is strictly between 0 and 100. -/
def shownInProgress (path : PathRecord) : Bool :=
  (SavedPaths.calculateProgress path).gtNat 0 && !(SavedPaths.calculateProgress path).geNat 100

/-- The percentage of a saved path is 0. -/
def shownNotStarted (path : PathRecord) : Bool :=
  (SavedPaths.calculateProgress path).eqNat 0

/-- A progress map in which every key but one is `true`. -/
def allBut (key : String) : Progress := fun k =>
  if k = key then JsVal.undefined else JsVal.bool true

/-- A progress map in which one key is `true`. -/
def only (key : String) : Progress := fun k =>
  if k = key then JsVal.bool true else JsVal.undefined

/-- A module with `count` subtopics. -/
def manyTopics (count : Nat) : Module := ⟨"Module", "many subtopics", List.replicate count "topic"⟩

/-- A saved path of one module with 200 subtopics, all completed but the last. -/
def nearlyDone : PathRecord :=
  ⟨some "Lean", some [manyTopics 200], some (allBut "0-199"), none, none⟩

/-- A saved path of one module with 201 subtopics, only the first completed. -/
def barelyStarted : PathRecord :=
  ⟨some "Lean", some [manyTopics 201], some (only "0-0"), none, none⟩

/-- A saved path of one module with 40 subtopics, the first 23 completed. -/
def fortyWith23 : PathRecord := ⟨some "Lean", some [fortyTopics], some (firstDone 23), none, none⟩

/-- A saved path with a single step, completed. -/
def oneStepDone : PathRecord := ⟨some "Lean", some [oneTopic], some (only "0-0"), none, none⟩

/-- A saved path with nine steps, none completed. -/
def nineUntouched : PathRecord := ⟨some "Coq", some [manyTopics 9], none, none, none⟩

/-! ## Dates, the learning streak and the recent activity

A `Date` is its time value, the milliseconds since the epoch.  What the runtime's local
calendar decides is an argument: the text `toDateString` gives for a time, and the time
that `setDate(getDate() - days)` leaves in a `Date`. -/

/-- The divisor `1000 * 60 * 60 * 24`: the milliseconds of a day. -/
def msPerDay : Nat := 1000 * 60 * 60 * 24

/-- The local calendar of the runtime. -/
structure LocalCalendar where
  /-- What `toDateString()` returns for a `Date` with this time value: the local
  calendar day as text. -/
  toDateString : Nat → String
  /-- The time value of a `Date` after `setDate(getDate() - days)`: the same local time
  of day, `days` calendar days earlier. -/
  minusDays : Nat → Nat → Int

/-- The calendar of a runtime whose time zone is UTC: a day is `msPerDay` milliseconds
and starts at a multiple of it.  The number of the day stands for the text of the date. -/
def utcCalendar : LocalCalendar :=
  ⟨fun time => toString (time / msPerDay),
    fun time days => (time : Int) - (days : Int) * (msPerDay : Int)⟩

/-- The method `add` of a `Set` of strings, kept as the list of its values in insertion
order. -/
def setAdd (set : List String) (value : String) : List String :=
  if value ∈ set then set else set ++ [value]

/-- The loop `paths.forEach(...)` of `calculateLearningStreak` on the set `activeDays`.
A stored `lastUpdated` is a timestamp object, which is truthy. -/
def streakLoop (calendar : LocalCalendar) (thirtyDaysAgo : Int) :
    List PathRecord → List String → List String
  | [], activeDays => activeDays
  | path :: rest, activeDays =>
    match path.lastUpdated with
    | none => streakLoop calendar thirtyDaysAgo rest activeDays
    | some updateDate =>
      if thirtyDaysAgo ≤ (updateDate : Int) then
        streakLoop calendar thirtyDaysAgo rest
          (setAdd activeDays (calendar.toDateString updateDate))
      else streakLoop calendar thirtyDaysAgo rest activeDays

/-- The function `calculateLearningStreak`; `now` is the value of its `new Date()`, and
`thirtyDaysAgo` is that date after `setDate(getDate() - 30)`. -/
def calculateLearningStreak (calendar : LocalCalendar) (now : Nat) (paths : List PathRecord) :
    Nat :=
  let thirtyDaysAgo := calendar.minusDays now 30
  (streakLoop calendar thirtyDaysAgo paths []).length

/-- An entry of `recentActivity`. -/
structure Activity where
  skill : Option String
  date : Nat
  daysAgo : Int
  deriving DecidableEq, Repr

/-- The value `daysSinceUpdate`: `Math.floor((now - lastUpdate) / (1000 * 60 * 60 * 24))`.
The difference of two time values is exact; the quotient is the double nearest to the
exact one, with the sign of the difference. -/
def daysSinceUpdate (now lastUpdate : Nat) : Int :=
  if lastUpdate ≤ now then
    ((roundToDouble (now - lastUpdate) msPerDay).1 /
      (roundToDouble (now - lastUpdate) msPerDay).2 : Nat)
  else
    -(((roundToDouble (lastUpdate - now) msPerDay).1 +
        (roundToDouble (lastUpdate - now) msPerDay).2 - 1) /
      (roundToDouble (lastUpdate - now) msPerDay).2 : Nat)

/-- The part of the loop `paths.forEach(...)` of `calculateAnalytics` that fills
`recentActivity`; `nowAt index` is the value of `new Date()` taken while the loop is at
`paths[index]`. -/
def activityLoop (nowAt : Nat → Nat) : List PathRecord → Nat → List Activity → List Activity
  | [], _, recentActivity => recentActivity
  | path :: rest, index, recentActivity =>
    match path.lastUpdated with
    | none => activityLoop nowAt rest (index + 1) recentActivity
    | some lastUpdate =>
      if daysSinceUpdate (nowAt index) lastUpdate ≤ 7 then
        activityLoop nowAt rest (index + 1)
          (recentActivity ++
            [⟨path.skill, lastUpdate, daysSinceUpdate (nowAt index) lastUpdate⟩])
      else activityLoop nowAt rest (index + 1) recentActivity

/-- One insertion of the stable sort by `b.date - a.date`: the entry goes in front of
the first entry that is not later than it. -/
def insertByDate (entry : Activity) : List Activity → List Activity
  | [] => [entry]
  | first :: rest =>
    if first.date ≤ entry.date then entry :: first :: rest
    else first :: insertByDate entry rest

/-- The call `recentActivity.sort((a, b) => b.date - a.date)`: latest first, entries of
equal date in their old order. -/
def sortByDate : List Activity → List Activity
  | [] => []
  | entry :: rest => insertByDate entry (sortByDate rest)

/-- The array `recentActivity` of `calculateAnalytics`: the pushed entries, sorted, cut
to the first five by `slice(0, 5)`. -/
def recentActivity (nowAt : Nat → Nat) (paths : List PathRecord) : List Activity :=
  (sortByDate (activityLoop nowAt paths 0 [])).take 5

/-- The object that `calculateAnalytics` passes to `setAnalytics`. -/
structure Analytics where
  totalPaths : Nat
  completedPaths : Nat
  inProgressPaths : Nat
  totalSteps : Nat
  completedSteps : Nat
  averageProgress : JsNumber
  totalAchievements : Nat
  learningStreak : Nat
  skillsLearned : List String
  recentActivity : List Activity

/-- The function `calculateAnalytics`.  `nowAt` gives the clock readings of the loop and
`streakNow` the one of `calculateLearningStreak`. -/
def calculateAnalytics (calendar : LocalCalendar) (nowAt : Nat → Nat) (streakNow : Nat)
    (paths : List PathRecord) : Analytics :=
  ⟨totalPaths paths, (analyticsCounters paths).completedPaths,
    (analyticsCounters paths).inProgressPaths, (analyticsCounters paths).totalSteps,
    (analyticsCounters paths).completedSteps, averageProgress paths,
    (analyticsCounters paths).totalAchievements,
    calculateLearningStreak calendar streakNow paths,
    (analyticsCounters paths).skillsLearned, recentActivity nowAt paths⟩

/-- The local calendar days, as texts, of the updates that are not earlier than
`thirtyDaysAgo`, one for every such path. -/
def activeDayKeys (calendar : LocalCalendar) (thirtyDaysAgo : Int) (paths : List PathRecord) :
    List String :=
  ((paths.filterMap (fun path => path.lastUpdated)).filter
    (fun (updateDate : Nat) => decide (thirtyDaysAgo ≤ (updateDate : Int)))).map
    calendar.toDateString

/-- The entries of the paths that were updated less than eight days before the clock
reading of their turn, in the order of the paths. -/
def recentEntries (nowAt : Nat → Nat) : List PathRecord → Nat → List Activity
  | [], _ => []
  | path :: rest, index =>
    match path.lastUpdated with
    | none => recentEntries nowAt rest (index + 1)
    | some lastUpdate =>
      if nowAt index < lastUpdate + 8 * msPerDay then
        ⟨path.skill, lastUpdate, daysSinceUpdate (nowAt index) lastUpdate⟩ ::
          recentEntries nowAt rest (index + 1)
      else recentEntries nowAt rest (index + 1)

/-- A path record that has only a skill and a time of last update. -/
def updatedAt (skill : String) (time : Nat) : PathRecord :=
  ⟨some skill, none, none, none, some time⟩

/-- The local calendar days, as texts, of the updates inside the trailing window of the
specification: not earlier than `thirtyDaysAgo` and not later than `now`. -/
def trailingWindowDayKeys (calendar : LocalCalendar) (now : Nat) (paths : List PathRecord) :
    List String :=
  ((paths.filterMap (fun path => path.lastUpdated)).filter
    (fun (updateDate : Nat) =>
      decide (calendar.minusDays now 30 ≤ (updateDate : Int) ∧ updateDate ≤ now))).map
    calendar.toDateString

/-- Day 100 after the epoch, at midnight UTC. -/
def day100 : Nat := 100 * msPerDay

/-! ## Generating a learning path -/

/-- The fixed part of the prompt of `generateLearningPath`, line by line: all that
follows the user profile. -/
def promptInstructions : List String :=
  [
    "    ",
    "    Provide the output as a JSON array of objects. Each object should " ++
      "represent a module and have the following properties:",
    "    - \"moduleTitle\": (string) The title of the learning module.",
    "    - \"description\": (string) A brief description of what the module " ++
      "covers.",
    "    - \"subTopics\": (array of strings) A list of key sub-topics within " ++
      "this module.",
    "    - \"suggestedResourceType\": (string) The type of resource best " ++
      "suited for this module.",
    "    - \"recommendedBooks\": (array of objects) 2-3 specific book " ++
      "recommendations with title and author.",
    "    - \"recommendedCourses\": (array of objects) 2-3 online course " ++
      "recommendations with title and platform.",
    "    - \"recommendedYouTubeVideos\": (array of objects) 2-3 YouTube " ++
      "video recommendations with title, channel name, and brief description.",
    "    - \"estimatedHours\": (number) Estimated hours needed to complete " ++
      "this module.",
    "    - \"weeklySchedule\": (string) Suggested weekly study schedule for " ++
      "this module.",
    "    - \"difficultyRating\": (number) Difficulty rating from 1-5 based " ++
      "on user's proficiency and chosen difficulty level.",
    "    - \"learningTips\": (array of strings) 2-3 specific tips tailored " ++
      "to the user's learning preference.",
    "    ",
    "    For book recommendations, provide objects with:",
    "    - \"title\": (string) The book title",
    "    - \"author\": (string) The author name",
    "    ",
    "    For course recommendations, provide objects with:",
    "    - \"title\": (string) The course title",
    "    - \"platform\": (string) The platform (e.g., \"Coursera\", \"Udemy\", " ++
      "\"edX\", \"YouTube\", \"Khan Academy\")",
    "    ",
    "    For YouTube video recommendations, provide objects with:",
    "    - \"title\": (string) The video title or type of content",
    "    - \"channel\": (string) The channel name",
    "    - \"description\": (string) Brief description of the video content",
    "    ",
    "    Focus on real educational content creators, tutorials, and " ++
      "explanatory videos that would be helpful for learning this skill at " ++
      "the specified level.",
    "    ",
    "    Tailor the content complexity, pacing, and resource " ++
      "recommendations based on:",
    "    - The user's proficiency level and chosen difficulty setting",
    "    - Their available time and target completion timeline",
    "    - Their learning preference (emphasize visual aids, audio " ++
      "content, hands-on practice, or reading materials)",
    "    ",
    "    Ensure the path is comprehensive, progressive, and realistic for " ++
      "the given timeframe. Aim for 5-8 modules." ]

/-- The template string `prompt`.  The parameters are the texts that the template
inserts; `learningStyle` is an array of strings. -/
def prompt (skill proficiency : String) (learningStyle : List String)
    (timePerWeek targetCompletion difficultyLevel learningPreference : String) : String :=
  String.intercalate "\n"
    ([ "Generate a personalized learning path for someone who wants to learn \"" ++ skill ++
        "\".",
      "    ",
      "    User Profile:",
      "    - Current proficiency: \"" ++ proficiency ++ "\"",
      "    - Preferred learning style: " ++
        (if learningStyle.length > 0 then String.intercalate ", " learningStyle else "any"),
      "    - Learning preference: \"" ++ learningPreference ++
        "\" (visual, auditory, hands-on, or reading)",
      "    - Available time per week: \"" ++ timePerWeek ++ "\" hours",
      "    - Target completion: \"" ++ targetCompletion ++ "\"",
      "    - Difficulty level: \"" ++ difficultyLevel ++
        "\" (gentle, moderate, or intensive)" ] ++ promptInstructions)

/-- A JSON value, as `JSON.parse` returns it. -/
inductive Json where
  | null
  | bool (b : Bool)
  | num (n : Int)
  | str (s : String)
  | arr (items : List Json)
  | obj (fields : List (String × Json))

/-- The properties that the response schema requires of a module. -/
def requiredModuleFields : List String :=
  ["moduleTitle", "description", "subTopics", "suggestedResourceType", "recommendedBooks",
    "recommendedCourses", "recommendedYouTubeVideos", "estimatedHours", "weeklySchedule",
    "difficultyRating", "learningTips"]

/-- Whether a JSON value is an object that carries every required property of a module. -/
def Json.isModule : Json → Bool
  | Json.obj fields =>
    requiredModuleFields.all (fun name => fields.any (fun field => field.1 == name))
  | _ => false

/-- Whether a JSON value has the shape of a module list: an array of module objects. -/
def Json.isModuleList : Json → Bool
  | Json.arr items => items.all Json.isModule
  | _ => false

/-- The request that `generateLearningPath` passes to `fetch`.  The body is the payload:
the prompt as the only content, and the fixed generation configuration with the
response schema. -/
structure Request where
  url : String
  method : String
  prompt : String
  deriving DecidableEq, Repr

/-- A part of a candidate; `text` may be missing. -/
structure Part where
  text : Option String

/-- The content of a candidate; `parts` may be missing. -/
structure Content where
  parts : Option (List Part)

/-- A candidate of the result; `content` may be missing. -/
structure Candidate where
  content : Option Content

/-- The object that `response.json()` resolves to: for an error response the text of
`error.message` when there is one, for a result the array `candidates` when there is
one. -/
structure ResponseBody where
  errorMessage : Option String
  candidates : Option (List Candidate)

/-- What `fetch` does with a request: it rejects, or it resolves to a response with its
`ok` flag, its `status`, and the value of `response.json()`, `none` when that rejects
because the body is not JSON. -/
inductive FetchOutcome where
  | rejected
  | response (ok : Bool) (status : Nat) (body : Option ResponseBody)

/-- The errors that `generateLearningPath` rejects with: an `Error` made by the function
itself, with its message; the `SyntaxError` of `JSON.parse` or `response.json()`; the
rejection of `fetch`. -/
inductive GenerationError where
  | error (message : String)
  | syntaxError
  | fetchFailed
  deriving DecidableEq, Repr

/-- The message of the error for a missing API key. -/
def configMessage : String :=
  "Google AI API key is not configured. Please add VITE_GOOGLE_AI_API_KEY to your " ++
    ".env.local file."

/-- The message of the error for a result without content. -/
def emptyMessage : String := "No valid learning path was generated. Please try again."

/-- The message of the error for a response that is not `ok`. -/
def apiMessage (status : Nat) (errorMessage : Option String) : String :=
  "API error: " ++ toString status ++ " - " ++
    (match errorMessage with
      | some message => if message = "" then "Unknown error" else message
      | none => "Unknown error")

/-- One call of `generateLearningPath`: what the promise settles with, and the requests
that were passed to `fetch`. -/
structure GenerationRun where
  result : Except GenerationError Json
  requests : List Request

/-- The function `generateLearningPath`.  `apiKey` is the value of the environment
variable, `none` when it is not defined; `fetch` and `jsonParse` are what the runtime's
`fetch` and `JSON.parse` do (`jsonParse` gives `none` for a text that is not JSON).  The
key is tested after the prompt and the payload are built and before `fetch` is called. -/
def generateLearningPath (skill proficiency : String) (learningStyle : List String)
    (timePerWeek targetCompletion difficultyLevel learningPreference : String)
    (apiKey : Option String) (fetch : Request → FetchOutcome)
    (jsonParse : String → Option Json) : GenerationRun :=
  let text := prompt skill proficiency learningStyle timePerWeek targetCompletion
    difficultyLevel learningPreference
  match apiKey with
  | none => ⟨Except.error (GenerationError.error configMessage), []⟩
  | some key =>
    if key = "" then ⟨Except.error (GenerationError.error configMessage), []⟩
    else
      let request : Request :=
        ⟨"https://generativelanguage.googleapis.com/v1beta/models/" ++
          "gemini-2.0-flash:generateContent?key=" ++ key, "POST", text⟩
      match fetch request with
      | FetchOutcome.rejected => ⟨Except.error GenerationError.fetchFailed, [request]⟩
      | FetchOutcome.response _ _ none =>
        ⟨Except.error GenerationError.syntaxError, [request]⟩
      | FetchOutcome.response false status (some body) =>
        ⟨Except.error (GenerationError.error (apiMessage status body.errorMessage)), [request]⟩
      | FetchOutcome.response true _ (some body) =>
        match body.candidates with
        | some (candidate :: _) =>
          match candidate.content with
          | some content =>
            match content.parts with
            | some (part :: _) =>
              match part.text with
              | some jsonText =>
                match jsonParse jsonText with
                | some value => ⟨Except.ok value, [request]⟩
                | none => ⟨Except.error GenerationError.syntaxError, [request]⟩
              | none => ⟨Except.error GenerationError.syntaxError, [request]⟩
            | _ => ⟨Except.error (GenerationError.error emptyMessage), [request]⟩
          | none => ⟨Except.error (GenerationError.error emptyMessage), [request]⟩
        | _ => ⟨Except.error (GenerationError.error emptyMessage), [request]⟩

/-- The values of `JSON.parse` at the texts `null`, `true`, `false`, `42`, `[]` and `{}`,
and its failure at the text `not json`; this stand-in treats every other text as a
failure, so it is used at these seven texts only. -/
def jsonParseSample (text : String) : Option Json :=
  if text = "null" then some Json.null
  else if text = "true" then some (Json.bool true)
  else if text = "false" then some (Json.bool false)
  else if text = "42" then some (Json.num 42)
  else if text = "[]" then some (Json.arr [])
  else if text = "{}" then some (Json.obj [])
  else none

/-- A `fetch` that resolves to an `ok` response whose first candidate has one part with
the given text. -/
def fetchAnswers (jsonText : String) : Request → FetchOutcome :=
  fun _ => FetchOutcome.response true 200
    (some ⟨none, some [⟨some ⟨some [⟨some jsonText⟩]⟩⟩]⟩)

/-- A `fetch` that must not be called: it rejects. -/
def fetchUnreachable : Request → FetchOutcome := fun _ => FetchOutcome.rejected

/-- Surroundings in which both writes succeed, the clock shows `time` and then counts
up, and a callback is passed that returns normally. -/
def reportsBack (time : Nat) : ToggleEnv := ⟨true, true, fun i => time + i, some (fun _ => true)⟩

/-! ## Exporting a path: file names

`exportToPDF` and `exportToCalendar` of `src/components/ExportUtils.jsx` name the
downloaded file after the skill. -/

/-- The number of UTF-16 code units of a character: what it adds to `length`, and how
many matches it gives to a pattern without the `u` flag that matches one code unit. -/
def utf16Units (c : Char) : Nat := if c.toNat < 65536 then 1 else 2

/-- The property `length` of a string: its number of UTF-16 code units. -/
def jsLength (text : String) : Nat := (text.data.map utf16Units).sum

/-- The class `[a-z0-9]` under the flag `i` (and without the flag `u`): the ASCII
letters of both cases and the digits, and nothing else. -/
def isAlphanumeric (c : Char) : Bool :=
  decide ((97 ≤ c.toNat ∧ c.toNat ≤ 122) ∨ (65 ≤ c.toNat ∧ c.toNat ≤ 90) ∨
    (48 ≤ c.toNat ∧ c.toNat ≤ 57))

/-- The call `text.replace(/[^a-z0-9]/gi, '_')`: every code unit outside the class is
replaced by an underscore, so a character outside the basic plane gives two. -/
def replaceNonAlphanumeric (text : String) : String :=
  String.mk (text.data.flatMap (fun c =>
    if isAlphanumeric c then [c] else List.replicate (utf16Units c) '_'))

/-- The call `toLowerCase()` on a text of ASCII letters, digits and underscores, the
only texts it receives here. -/
def toLowerCase (text : String) : String := String.mk (text.data.map Char.toLower)

/-- The value `fileName` of `exportToPDF`, handed to `pdf.save`. -/
def pdfFileName (skill : String) : String :=
  toLowerCase (replaceNonAlphanumeric skill) ++ "_learning_path.pdf"

/-- The value of `link.download` in `exportToCalendar`. -/
def calendarFileName (skill : String) : String :=
  toLowerCase (replaceNonAlphanumeric skill) ++ "_learning_schedule.ics"

/-! ## The sign-in form

`validateForm` and `handleSubmit` of `src/components/AuthForm.jsx`.  The four fields of
`formData` are strings: they start empty and are only set from the value of an input. -/

/-- The state `formData`. -/
structure FormData where
  email : String
  password : String
  displayName : String
  confirmPassword : String
  deriving DecidableEq, Repr

/-- A call of one of the two functions of the `useAuth` hook. -/
inductive AuthCall where
  | signIn (email password : String)
  | signUp (email password displayName : String)
  deriving DecidableEq, Repr

/-- The function `validateForm`: the value it returns and the message it hands to
`setFormError`, if any. -/
def validateForm (isLogin : Bool) (formData : FormData) : Bool × Option String :=
  if formData.email = "" ∨ formData.password = "" then
    (false, some "Email and password are required")
  else if !isLogin then
    if formData.displayName = "" then (false, some "Display name is required")
    else if formData.password ≠ formData.confirmPassword then
      (false, some "Passwords do not match")
    else if jsLength formData.password < 6 then
      (false, some "Password must be at least 6 characters")
    else (true, none)
  else (true, none)

/-- The function `handleSubmit`: the calls of `signIn` and `signUp` it makes. -/
def handleSubmit (isLogin : Bool) (formData : FormData) : List AuthCall :=
  if !(validateForm isLogin formData).1 then []
  else if isLogin then [AuthCall.signIn formData.email formData.password]
  else [AuthCall.signUp formData.email formData.password formData.displayName]

/-! ## Exporting a path: the calendar

`exportToCalendar` of `src/components/ExportUtils.jsx`.  A `Date` is its time value, or
nothing for an `Invalid Date`; what the time zone of the runtime decides is an argument,
and so is `toISOString`. -/

/-- An entry of `recommendedBooks`. -/
structure Book where
  title : String
  author : String
  deriving DecidableEq, Repr

/-- An entry of `recommendedCourses`. -/
structure Course where
  title : String
  platform : String
  deriving DecidableEq, Repr

/-- An entry of `recommendedYouTubeVideos`, as far as the calendar reads it. -/
structure Video where
  title : String
  channel : String
  deriving DecidableEq, Repr

/-- A module as the calendar export reads it.  `subTopics` and `estimatedHours` may be
absent; an absent recommendation array and an empty one are treated alike by the
code, so these are plain lists. -/
structure ExportModule where
  moduleTitle : String
  description : String
  subTopics : Option (List String)
  suggestedResourceType : String
  recommendedBooks : List Book
  recommendedCourses : List Course
  recommendedYouTubeVideos : List Video
  estimatedHours : Option JsNumber
  deriving DecidableEq, Repr

/-- Truthiness of a number: `NaN` and zero are falsy. -/
def JsNumber.truthy : JsNumber → Bool
  | .nan => false
  | .posInf => true
  | .fin n _ => n != 0

/-- The sum `k + x` of an integer and a number, rounded to a double. -/
def JsNumber.natAdd (k : Nat) : JsNumber → JsNumber
  | .nan => .nan
  | .posInf => .posInf
  | .fin n d => .fin (roundToDouble (k * d + n) d).1 (roundToDouble (k * d + n) d).2

/-- The integer that a date setter makes of its argument: the number truncated, nothing
for `NaN` and `Infinity`. -/
def JsNumber.toInteger : JsNumber → Option Nat
  | .nan => none
  | .posInf => none
  | .fin n d => some (n / d)

/-- The milliseconds of an hour. -/
def msPerHour : Nat := 1000 * 60 * 60

/-- The largest time value of a `Date`. -/
def maxTime : Nat := 8640000000000000

/-- The time value that a setter leaves: nothing beyond the range of `Date`. -/
def timeClip (time : Nat) : Option Nat := if time ≤ maxTime then some time else none

/-- The local time of the runtime, as far as the calendar export uses it. -/
structure LocalTime where
  /-- The time value after `date.setDate(date.getDate() + days)`: the same local time of
  day, `days` calendar days later. -/
  plusDays : Nat → Nat → Option Nat
  /-- The value of `date.getHours()`. -/
  getHours : Nat → Nat
  /-- The time value after `date.setHours(hours)` for a whole number of hours. -/
  setHours : Nat → Nat → Option Nat

/-- The local time of a runtime whose time zone is UTC. -/
def utcTime : LocalTime :=
  ⟨fun time days => timeClip (time + days * msPerDay),
    fun time => time / msPerHour % 24,
    fun time hours => timeClip (time / msPerDay * msPerDay + hours * msPerHour + time % msPerHour)⟩

/-- The function `getWeeklyDate`: a copy of `startDate` moved on by
`weekOffset * 7 + dayOfWeek` days. -/
def getWeeklyDate (time : LocalTime) (startDate weekOffset dayOfWeek : Nat) : Option Nat :=
  time.plusDays startDate (weekOffset * 7 + dayOfWeek)

/-- The function `formatDate`: the ISO text without dashes and colons, cut at the first
dot, with `Z` appended. -/
def formatDate (toISOString : Nat → String) (date : Nat) : String :=
  String.mk (((toISOString date).data.filter (fun c => c ≠ '-' ∧ c ≠ ':')).takeWhile
    (fun c => c ≠ '.')) ++ "Z"

/-- The value `module.estimatedHours || 2`. -/
def hoursOrTwo (module : ExportModule) : JsNumber :=
  match module.estimatedHours with
  | none => JsNumber.ofNat 2
  | some hours => if hours.truthy then hours else JsNumber.ofNat 2

/-- The text `description` of an event. -/
def eventDescription (module : ExportModule) : String :=
  let description := module.description ++ "\n\nTopics: " ++
    (match module.subTopics with
      | some subTopics => ", ".intercalate subTopics
      | none => "N/A") ++
    "\n\nResource: " ++ module.suggestedResourceType
  let description :=
    if module.recommendedBooks.length > 0 then
      description ++ "\n\nRecommended Books:\n" ++ "\n".intercalate
        (module.recommendedBooks.map (fun book => "• " ++ book.title ++ " by " ++ book.author))
    else description
  let description :=
    if module.recommendedCourses.length > 0 then
      description ++ "\n\nRecommended Courses:\n" ++ "\n".intercalate
        (module.recommendedCourses.map
          (fun course => "• " ++ course.title ++ " on " ++ course.platform))
    else description
  if module.recommendedYouTubeVideos.length > 0 then
    description ++ "\n\nRecommended YouTube Videos:\n" ++ "\n".intercalate
      (module.recommendedYouTubeVideos.map
        (fun video => "• " ++ video.title ++ " by " ++ video.channel))
  else description

/-- The values that one round of the loop puts into the lines of an event; the two
dates are the time values that `formatDate` receives. -/
structure CalendarEvent where
  uid : String
  dtStart : Nat
  dtEnd : Nat
  summary : String
  description : String
  deriving DecidableEq, Repr

/-- One round of `learningPath.forEach((module, index) => ...)`: the event of a module,
or nothing when one of its dates is invalid and `toISOString` throws.  `uidTime` is the
value of `Date.now()`. -/
def moduleEvent (time : LocalTime) (startDate uidTime : Nat) (skill : String)
    (module : ExportModule) (index : Nat) : Option CalendarEvent :=
  match getWeeklyDate time startDate index 1 with
  | none => none
  | some moduleStartDate =>
    match (JsNumber.natAdd (time.getHours moduleStartDate) (hoursOrTwo module)).toInteger with
    | none => none
    | some hours =>
      match time.setHours moduleStartDate hours with
      | none => none
      | some moduleEndDate =>
        some ⟨toString uidTime ++ "-" ++ toString index ++ "@learningpath.com",
          moduleStartDate, moduleEndDate, module.moduleTitle ++ " - " ++ skill,
          eventDescription module⟩

/-- The loop `learningPath.forEach((module, index) => ...)`: the rest of the array, the
index of its first element and the events pushed so far.  `clock 0` is the value of the
`new Date()` before the loop, `clock (index + 1)` that of the `Date.now()` of round
`index`.  A round that throws ends the export. -/
def eventsLoop (time : LocalTime) (clock : Nat → Nat) (skill : String) :
    List ExportModule → Nat → List CalendarEvent → Option (List CalendarEvent)
  | [], _, events => some events
  | module :: rest, index, events =>
    match moduleEvent time (clock 0) (clock (index + 1)) skill module index with
    | none => none
    | some event => eventsLoop time clock skill rest (index + 1) (events ++ [event])

/-- The events of an export, in the order in which their lines are pushed. -/
def calendarEvents (time : LocalTime) (clock : Nat → Nat) (skill : String)
    (learningPath : List ExportModule) : Option (List CalendarEvent) :=
  eventsLoop time clock skill learningPath 0 []

/-- The nine lines pushed for an event. -/
def eventLines (toISOString : Nat → String) (event : CalendarEvent) : List String :=
  [ "BEGIN:VEVENT",
    "UID:" ++ event.uid,
    "DTSTART:" ++ formatDate toISOString event.dtStart,
    "DTEND:" ++ formatDate toISOString event.dtEnd,
    "SUMMARY:" ++ event.summary,
    "DESCRIPTION:" ++ event.description,
    "LOCATION:Online Learning",
    "STATUS:CONFIRMED",
    "END:VEVENT" ]

/-- The array `icsContent` at the end of `exportToCalendar`. -/
def icsContent (toISOString : Nat → String) (events : List CalendarEvent) : List String :=
  [ "BEGIN:VCALENDAR",
    "VERSION:2.0",
    "PRODID:-//Personal Learning Path Generator//EN",
    "CALSCALE:GREGORIAN",
    "METHOD:PUBLISH" ] ++
  events.flatMap (eventLines toISOString) ++ ["END:VCALENDAR"]

/-- A value stored under a key of a path document. -/
inductive FieldValue where
  | text (value : String)
  | tags (values : List String)
  | modules (values : List ExportModule)
  | timestamp (time : Nat)
  deriving DecidableEq, Repr

/-- An object with string keys, such as a path document: its own properties in order;
the value of the property `key` is `lookup key`, and an absent property reads
`undefined`. -/
abbrev Document := List (String × FieldValue)

/-- The prop `pathData` of `ExportUtils`. -/
structure PathData where
  skill : Option FieldValue
  proficiency : Option FieldValue
  learningStyle : Option FieldValue
  timePerWeek : Option FieldValue
  targetCompletion : Option FieldValue
  difficultyLevel : Option FieldValue
  learningPreference : Option FieldValue
  deriving DecidableEq, Repr

/-- What the loop reads from an array element that is a string: every property it asks
for is `undefined`. -/
def undefinedModule : ExportModule :=
  ⟨"undefined", "undefined", none, "undefined", [], [], [], none⟩

/-- The download that `exportToCalendar` starts: the name of the file and its text. -/
structure CalendarFile where
  download : String
  content : String
  deriving DecidableEq, Repr

/-- The function `exportToCalendar`: the file it offers for download, or nothing when
the `try` block throws and the `catch` shows the alert "Failed to generate calendar.
Please try again.".  The block throws when `learningPath` is not an array (it has no
`forEach`), when a date is invalid, and when `pathData.skill` is not a string (it has no
`replace`). -/
def exportToCalendar (time : LocalTime) (toISOString : Nat → String) (clock : Nat → Nat)
    (learningPath : Option FieldValue) (pathData : PathData) : Option CalendarFile :=
  let elements : Option (List ExportModule) :=
    match learningPath with
    | some (FieldValue.modules modules) => some modules
    | some (FieldValue.tags values) => some (values.map (fun _ => undefinedModule))
    | _ => none
  match elements, pathData.skill with
  | some modules, some (FieldValue.text skill) =>
    match calendarEvents time clock skill modules with
    | none => none
    | some events =>
      some ⟨calendarFileName skill, "\r\n".intercalate (icsContent toISOString events)⟩
  | _, _ => none

/-! ## Saving a path and opening its export dialog

`savePath` of `src/hooks/useLearningPaths.js`, the snapshot listener of the same hook
and the export dialog of `src/components/SavedPaths.jsx`. -/

/-- What the surroundings decide during `savePath`: whether the Firestore handle `db`
is set, the `userId` of the hook, whether `addDoc` resolves, and the time that
`serverTimestamp()` becomes. -/
structure SaveEnv where
  db : Bool
  userId : Option String
  addDocOk : Bool
  serverTime : Nat

/-- The result of `savePath`: the document handed to `addDoc` when it was stored, the
state `pathError` and the returned value. -/
structure SaveOutcome where
  written : Option Document
  pathError : String
  result : Bool
  deriving DecidableEq, Repr

/-- The function `savePath`.  `generatedPath` is `null` or an array of modules; the
test `!generatedPath` passes for `null` only, an array is truthy whatever its length.
`!userId` passes for `null` and for the empty string. -/
def savePath (skill proficiency : String) (learningStyle : List String)
    (timePerWeek targetCompletion difficultyLevel : String) (learningPreference : List String)
    (generatedPath : Option (List ExportModule)) (env : SaveEnv) : SaveOutcome :=
  match generatedPath with
  | none =>
    ⟨none, "Cannot save an empty or invalid path, or user not authenticated.", false⟩
  | some modules =>
    if env.db = false ∨ env.userId = none ∨ env.userId = some "" then
      ⟨none, "Cannot save an empty or invalid path, or user not authenticated.", false⟩
    else if env.addDocOk then
      ⟨some [ ("skill", FieldValue.text skill),
          ("proficiency", FieldValue.text proficiency),
          ("learningStyle", FieldValue.tags learningStyle),
          ("timePerWeek", FieldValue.text timePerWeek),
          ("targetCompletion", FieldValue.text targetCompletion),
          ("difficultyLevel", FieldValue.text difficultyLevel),
          ("learningPreference", FieldValue.tags learningPreference),
          ("path", FieldValue.modules modules),
          ("createdAt", FieldValue.timestamp env.serverTime),
          ("lastUpdated", FieldValue.timestamp env.serverTime) ], "", true⟩
    else ⟨none, "Failed to save learning path.", false⟩

/-- An element of `savedPaths`: the object made of `id: doc.id` and the spread of
`doc.data()`.  A property of the data wins over `id`, so the data come first in the
lookup. -/
def snapshotEntry (id : String) (data : Document) : Document :=
  data ++ [("id", FieldValue.text id)]

/-- The props of `ExportUtils`. -/
structure ExportProps where
  learningPath : Option FieldValue
  pathData : PathData
  deriving DecidableEq, Repr

/-- The props that `SavedPaths` hands to `ExportUtils` after `handleExport(path)` has
put the path into `selectedPath`. -/
def exportDialogProps (selectedPath : Document) : ExportProps :=
  ⟨selectedPath.lookup "generatedPath",
    ⟨selectedPath.lookup "skill", selectedPath.lookup "proficiency",
      selectedPath.lookup "learningStyle", selectedPath.lookup "timePerWeek",
      selectedPath.lookup "targetCompletion", selectedPath.lookup "difficultyLevel",
      selectedPath.lookup "learningPreference"⟩⟩

/-! ## Example inputs of the export -/

/-- A module without recommendations and without `estimatedHours`. -/
def basics : ExportModule :=
  ⟨"Basics", "Terms and types", some ["terms", "types"], "Book", [], [], [], none⟩

/-- A module with a book and three estimated hours. -/
def tactics : ExportModule :=
  ⟨"Tactics", "Proving with tactics", some ["rw", "simp"], "Course",
    [⟨"Theorem Proving in Lean", "Avigad"⟩], [], [], some (JsNumber.ofNat 3)⟩

/-- The module `basics` with `estimatedHours: 0`. -/
def zeroHours : ExportModule :=
  ⟨"Basics", "Terms and types", some ["terms", "types"], "Book", [], [], [],
    some (JsNumber.ofNat 0)⟩

/-- The module `basics` with `estimatedHours: 1.5`. -/
def oneAndAHalfHours : ExportModule :=
  ⟨"Basics", "Terms and types", some ["terms", "types"], "Book", [], [], [],
    some (JsNumber.fin 3 2)⟩

/-- The module `basics` with `estimatedHours: 1.9999999999999998`, the double just below
2: `(2 ^ 53 - 1) / 2 ^ 52`. -/
def almostTwoHours : ExportModule :=
  ⟨"Basics", "Terms and types", some ["terms", "types"], "Book", [], [], [],
    some (JsNumber.fin 9007199254740991 4503599627370496)⟩

/-- A signed-in user whose writes succeed. -/
def signedIn : SaveEnv := ⟨true, some "user-1", true, day100⟩

/-- A clock that shows `time` and then counts up. -/
def countingClock (time : Nat) : Nat → Nat := fun i => time + i

/-! ## Binary64 rounding: lemmas -/

/-- An integer is at most the rounded fraction exactly when it is below the fraction
plus one half, or equal to it and even. -/
theorem le_roundHalfEven_iff (n d k : Nat) (hd : 0 < d) :
    k ≤ roundHalfEven n d ↔
      2 * d * k < 2 * n + d ∨ (2 * d * k = 2 * n + d ∧ k % 2 = 0) := by
  unfold roundHalfEven
  have h2d : 0 < 2 * d := by omega
  have hdm := Nat.div_add_mod (2 * n + d) (2 * d)
  have hml := Nat.mod_lt (2 * n + d) h2d
  generalize (2 * n + d) / (2 * d) = q at hdm ⊢
  generalize (2 * n + d) % (2 * d) = r at hdm hml ⊢
  simp only []
  rcases Nat.lt_trichotomy k q with hk | hk | hk
  · have h1 : k + 1 ≤ q := hk
    have h2 : 2 * d * (k + 1) ≤ 2 * d * q := Nat.mul_le_mul_left _ h1
    have h3 : 2 * d * k < 2 * n + d := by nlinarith
    split_ifs with hc
    · constructor
      · intro _; exact Or.inl h3
      · intro _; omega
    · constructor
      · intro _; exact Or.inl h3
      · intro _; omega
  · subst hk
    split_ifs with hc
    · obtain ⟨hc1, hc2⟩ := hc
      constructor
      · intro h; omega
      · rintro (h | ⟨h, h'⟩)
        · rw [hc1] at hdm; omega
        · omega
    · constructor
      · intro _
        by_cases hr0 : r = 0
        · right
          refine ⟨by rw [hr0] at hdm; omega, ?_⟩
          by_contra hodd
          exact hc ⟨hr0, by omega⟩
        · left; omega
      · intro _; exact le_rfl
  · have h1 : q + 1 ≤ k := hk
    have h2 : 2 * d * (q + 1) ≤ 2 * d * k := Nat.mul_le_mul_left _ h1
    have h3 : 2 * n + d < 2 * d * k := by nlinarith
    split_ifs with hc
    · constructor
      · intro _; omega
      · rintro (h | ⟨h, _⟩) <;> omega
    · constructor
      · intro _; omega
      · rintro (h | ⟨h, _⟩) <;> omega

/-- Rounding to the nearest integer is monotone in the fraction. -/
theorem roundHalfEven_mono (n₁ d₁ n₂ d₂ : Nat) (h₁ : 0 < d₁) (h₂ : 0 < d₂)
    (h : n₁ * d₂ ≤ n₂ * d₁) : roundHalfEven n₁ d₁ ≤ roundHalfEven n₂ d₂ := by
  rw [le_roundHalfEven_iff n₂ d₂ _ h₂]
  have hk := (le_roundHalfEven_iff n₁ d₁ (roundHalfEven n₁ d₁) h₁).1 le_rfl
  set k := roundHalfEven n₁ d₁
  rcases hk with hk | ⟨hk, hev⟩
  · left
    by_contra hcon
    push_neg at hcon
    have e1 : 2 * d₁ * k * d₂ < (2 * n₁ + d₁) * d₂ := Nat.mul_lt_mul_of_pos_right hk h₂
    have e2 : (2 * n₂ + d₂) * d₁ ≤ 2 * d₂ * k * d₁ := Nat.mul_le_mul_right _ hcon
    nlinarith
  · by_cases hlt : 2 * d₂ * k < 2 * n₂ + d₂
    · exact Or.inl hlt
    · right
      refine ⟨?_, hev⟩
      push_neg at hlt
      have e1 : 2 * d₁ * k * d₂ = (2 * n₁ + d₁) * d₂ := by rw [hk]
      have e2 : (2 * n₂ + d₂) * d₁ ≤ 2 * d₂ * k * d₁ := Nat.mul_le_mul_right _ hlt
      have e3 : (2 * n₂ + d₂) * d₁ = 2 * d₂ * k * d₁ := by nlinarith
      exact (Nat.eq_of_mul_eq_mul_right h₁ e3).symm

/-- A whole multiple rounds to its quotient. -/
theorem roundHalfEven_mul (k d : Nat) (hd : 0 < d) : roundHalfEven (k * d) d = k := by
  apply le_antisymm
  · by_contra hcon
    push_neg at hcon
    have h := (le_roundHalfEven_iff (k * d) d (k + 1) hd).1 hcon
    rcases h with h | ⟨h, _⟩ <;> nlinarith
  · rw [le_roundHalfEven_iff _ _ _ hd]
    left; nlinarith


/-- With enough fuel, the doublings counted by `scaleUp` bring `n` to `2 ^ 52 * d`,
and not beyond `2 ^ 53 * d` when `n` started below. -/
theorem scaleUp_spec (fuel n d : Nat) (hn : 0 < n) (hfuel : 2 ^ 52 * d ≤ n * 2 ^ fuel) :
    2 ^ 52 * d ≤ n * 2 ^ scaleUp fuel n d ∧
      (n < 2 ^ 52 * d → n * 2 ^ scaleUp fuel n d < 2 ^ 53 * d) ∧
      (2 ^ 52 * d ≤ n → scaleUp fuel n d = 0) := by
  induction fuel generalizing n with
  | zero =>
    simp only [scaleUp, pow_zero, mul_one] at *
    exact ⟨hfuel, fun h => by omega, fun _ => trivial⟩
  | succ fuel ih =>
    unfold scaleUp
    by_cases hlt : n < 2 ^ 52 * d
    · rw [if_pos hlt]
      have hfuel2 : 2 ^ 52 * d ≤ 2 * n * 2 ^ fuel := by
        have e : n * 2 ^ (fuel + 1) = 2 * n * 2 ^ fuel := by rw [pow_succ]; ring
        rw [e] at hfuel; exact hfuel
      obtain ⟨h1, h2, h3⟩ := ih (2 * n) (by omega) hfuel2
      have e : n * 2 ^ (scaleUp fuel (2 * n) d + 1) = 2 * n * 2 ^ scaleUp fuel (2 * n) d := by
        rw [pow_succ]; ring
      rw [e]
      refine ⟨h1, fun _ => ?_, fun h => by omega⟩
      by_cases h2n : 2 * n < 2 ^ 52 * d
      · exact h2 h2n
      · rw [h3 (by omega)]; simp only [pow_zero, mul_one]; omega
    · rw [if_neg hlt]
      simp only [pow_zero, mul_one]
      exact ⟨by omega, fun h => by omega, fun _ => trivial⟩

/-- With enough fuel, the doublings counted by `scaleDown` bring `2 ^ 53 * d` above
`n`, and `2 ^ 52 * d` not above it when `n` started at or over `2 ^ 53 * d`. -/
theorem scaleDown_spec (fuel n d : Nat) (hd : 0 < d) (hfuel : n < 2 ^ 53 * d * 2 ^ fuel) :
    n < 2 ^ 53 * (d * 2 ^ scaleDown fuel n d) ∧
      (2 ^ 53 * d ≤ n → 2 ^ 52 * (d * 2 ^ scaleDown fuel n d) ≤ n) ∧
      (n < 2 ^ 53 * d → scaleDown fuel n d = 0) := by
  induction fuel generalizing d with
  | zero =>
    simp only [scaleDown, pow_zero, mul_one] at *
    exact ⟨hfuel, fun h => by omega, fun _ => trivial⟩
  | succ fuel ih =>
    unfold scaleDown
    by_cases hge : 2 ^ 53 * d ≤ n
    · rw [if_pos hge]
      have hfuel2 : n < 2 ^ 53 * (2 * d) * 2 ^ fuel := by
        have e : 2 ^ 53 * d * 2 ^ (fuel + 1) = 2 ^ 53 * (2 * d) * 2 ^ fuel := by
          rw [pow_succ]; ring
        rw [e] at hfuel; exact hfuel
      obtain ⟨h1, h2, h3⟩ := ih (2 * d) (by omega) hfuel2
      have e : d * 2 ^ (scaleDown fuel n (2 * d) + 1) = 2 * d * 2 ^ scaleDown fuel n (2 * d) := by
        rw [pow_succ]; ring
      rw [e]
      refine ⟨h1, fun _ => ?_, fun h => by omega⟩
      by_cases h2d : 2 ^ 53 * (2 * d) ≤ n
      · exact h2 h2d
      · rw [h3 (by omega)]; simp only [pow_zero, mul_one]; omega
    · rw [if_neg hge]
      simp only [pow_zero, mul_one]
      exact ⟨by omega, fun h => by omega, fun _ => trivial⟩

/-- The scaling inside `roundToDouble` puts the fraction into `[2 ^ 52, 2 ^ 53)`. -/
theorem scale_normal (n d : Nat) (hn : 0 < n) (hd : 0 < d) :
    2 ^ 52 * (d * 2 ^ scaleDown n n d) ≤ n * 2 ^ scaleUp (d + 52) n d ∧
      n * 2 ^ scaleUp (d + 52) n d < 2 ^ 53 * (d * 2 ^ scaleDown n n d) := by
  have hfu : 2 ^ 52 * d ≤ n * 2 ^ (d + 52) := by
    have h1 : d < 2 ^ d := Nat.lt_two_pow d
    have h2 : 2 ^ 52 * d ≤ 2 ^ 52 * 2 ^ d := Nat.mul_le_mul_left _ h1.le
    have h3 : (2 : Nat) ^ (d + 52) = 2 ^ 52 * 2 ^ d := by rw [pow_add]; ring
    rw [h3]
    calc 2 ^ 52 * d ≤ 1 * (2 ^ 52 * 2 ^ d) := by omega
      _ ≤ n * (2 ^ 52 * 2 ^ d) := Nat.mul_le_mul_right _ hn
  have hfd : n < 2 ^ 53 * d * 2 ^ n := by
    have h1 : n < 2 ^ n := Nat.lt_two_pow n
    have h2 : 1 ≤ 2 ^ 53 * d := Nat.one_le_iff_ne_zero.2 (by positivity)
    calc n < 2 ^ n := h1
      _ = 1 * 2 ^ n := by ring
      _ ≤ 2 ^ 53 * d * 2 ^ n := Nat.mul_le_mul_right _ h2
  obtain ⟨u1, u2, u3⟩ := scaleUp_spec (d + 52) n d hn hfu
  obtain ⟨k1, k2, k3⟩ := scaleDown_spec n n d hd hfd
  by_cases hlow : n < 2 ^ 52 * d
  · have hk : scaleDown n n d = 0 := k3 (by omega)
    rw [hk]; simp only [pow_zero, mul_one]
    exact ⟨u1, u2 hlow⟩
  · have hu : scaleUp (d + 52) n d = 0 := u3 (by omega)
    rw [hu]; simp only [pow_zero, mul_one]
    by_cases hhigh : 2 ^ 53 * d ≤ n
    · exact ⟨k2 hhigh, k1⟩
    · have hk : scaleDown n n d = 0 := k3 (by omega)
      rw [hk]; simp only [pow_zero, mul_one]
      omega


/-- A fraction in `[2 ^ 52, 2 ^ 53)` rounds to an integer in `[2 ^ 52, 2 ^ 53]`. -/
theorem roundHalfEven_normal (n d : Nat) (hd : 0 < d) (hlo : 2 ^ 52 * d ≤ n)
    (hhi : n < 2 ^ 53 * d) :
    2 ^ 52 ≤ roundHalfEven n d ∧ roundHalfEven n d ≤ 2 ^ 53 := by
  constructor
  · have h := roundHalfEven_mono (2 ^ 52 * d) d n d hd hd (Nat.mul_le_mul_right _ hlo)
    rwa [roundHalfEven_mul _ _ hd] at h
  · have h := roundHalfEven_mono n d (2 ^ 53 * d) d hd hd (Nat.mul_le_mul_right _ hhi.le)
    rwa [roundHalfEven_mul _ _ hd] at h

/-- Two powers of two are equal or differ by a factor of at least two. -/
theorem two_pow_trichotomy (a b : Nat) :
    2 ^ a = 2 ^ b ∨ 2 * 2 ^ a ≤ 2 ^ b ∨ 2 * 2 ^ b ≤ 2 ^ a := by
  rcases Nat.lt_trichotomy a b with h | h | h
  · right; left
    calc 2 * 2 ^ a = 2 ^ (a + 1) := by rw [pow_succ]; ring
      _ ≤ 2 ^ b := Nat.pow_le_pow_right (by norm_num) h
  · left; rw [h]
  · right; right
    calc 2 * 2 ^ b = 2 ^ (b + 1) := by rw [pow_succ]; ring
      _ ≤ 2 ^ a := Nat.pow_le_pow_right (by norm_num) h

/-- The order of two scaled and rounded fractions follows the order of the fractions:
the arithmetic core of the monotonicity of `roundToDouble`. -/
theorem scaled_round_mono (n₁ d₁ n₂ d₂ U₁ K₁ U₂ K₂ m₁ m₂ : Nat)
    (hd₁ : 0 < d₁) (hK₁ : 0 < K₁)
    (h : n₁ * d₂ ≤ n₂ * d₁)
    (lo₁ : 2 ^ 52 * (d₁ * K₁) ≤ n₁ * U₁) (hi₂ : n₂ * U₂ < 2 ^ 53 * (d₂ * K₂))
    (hm₁ : m₁ ≤ 2 ^ 53) (hm₂ : 2 ^ 52 ≤ m₂)
    (hsame : K₁ * U₂ = K₂ * U₁ → m₁ ≤ m₂)
    (htri : K₁ * U₂ = K₂ * U₁ ∨ 2 * (K₁ * U₂) ≤ K₂ * U₁ ∨ 2 * (K₂ * U₁) ≤ K₁ * U₂) :
    m₁ * K₁ * U₂ ≤ m₂ * K₂ * U₁ := by
  rcases htri with he | hlt | hgt
  · have hm := hsame he
    calc m₁ * K₁ * U₂ = m₁ * (K₁ * U₂) := by ring
      _ ≤ m₂ * (K₁ * U₂) := Nat.mul_le_mul_right _ hm
      _ = m₂ * K₂ * U₁ := by rw [he]; ring
  · calc m₁ * K₁ * U₂ = m₁ * (K₁ * U₂) := by ring
      _ ≤ 2 ^ 53 * (K₁ * U₂) := Nat.mul_le_mul_right _ hm₁
      _ = 2 ^ 52 * (2 * (K₁ * U₂)) := by ring
      _ ≤ 2 ^ 52 * (K₂ * U₁) := Nat.mul_le_mul_left _ hlt
      _ ≤ m₂ * (K₂ * U₁) := Nat.mul_le_mul_right _ hm₂
      _ = m₂ * K₂ * U₁ := by ring
  · exfalso
    have e1 : 2 ^ 52 * (d₁ * K₁) * (d₂ * K₂) ≤ n₁ * U₁ * (d₂ * K₂) :=
      Nat.mul_le_mul_right _ lo₁
    have e2 : n₂ * U₂ * (d₁ * K₁) < 2 ^ 53 * (d₂ * K₂) * (d₁ * K₁) :=
      Nat.mul_lt_mul_of_pos_right hi₂ (Nat.mul_pos hd₁ hK₁)
    have e3 : n₁ * d₂ * (2 * (K₂ * U₁)) ≤ n₂ * d₁ * (K₁ * U₂) :=
      Nat.mul_le_mul h hgt
    have e4 : 2 * (n₁ * U₁ * (d₂ * K₂)) = n₁ * d₂ * (2 * (K₂ * U₁)) := by ring
    have e5 : n₂ * U₂ * (d₁ * K₁) = n₂ * d₁ * (K₁ * U₂) := by ring
    have e6 : 2 ^ 53 * (d₂ * K₂) * (d₁ * K₁) = 2 * (2 ^ 52 * (d₁ * K₁) * (d₂ * K₂)) := by
      ring
    omega

/-- Rounding to the nearest double is monotone: a smaller fraction never rounds to a
larger double. -/
theorem roundToDouble_mono (n₁ d₁ n₂ d₂ : Nat) (hd₁ : 0 < d₁) (hd₂ : 0 < d₂)
    (h : n₁ * d₂ ≤ n₂ * d₁) :
    (roundToDouble n₁ d₁).1 * (roundToDouble n₂ d₂).2 ≤
      (roundToDouble n₂ d₂).1 * (roundToDouble n₁ d₁).2 := by
  by_cases hn₁ : n₁ = 0
  · simp [roundToDouble, hn₁]
  have hn₁p : 0 < n₁ := Nat.pos_of_ne_zero hn₁
  have hn₂p : 0 < n₂ := by
    by_contra hz
    have : n₂ = 0 := by omega
    rw [this] at h
    have := Nat.mul_pos hn₁p hd₂
    omega
  have hn₂ : n₂ ≠ 0 := by omega
  obtain ⟨lo₁, hi₁⟩ := scale_normal n₁ d₁ hn₁p hd₁
  obtain ⟨lo₂, hi₂⟩ := scale_normal n₂ d₂ hn₂p hd₂
  simp only [roundToDouble, if_neg hn₁, if_neg hn₂]
  have hU₁ : 0 < 2 ^ scaleUp (d₁ + 52) n₁ d₁ := by positivity
  have hU₂ : 0 < 2 ^ scaleUp (d₂ + 52) n₂ d₂ := by positivity
  have hK₁ : 0 < 2 ^ scaleDown n₁ n₁ d₁ := by positivity
  have hK₂ : 0 < 2 ^ scaleDown n₂ n₂ d₂ := by positivity
  have htri := two_pow_trichotomy (scaleDown n₁ n₁ d₁ + scaleUp (d₂ + 52) n₂ d₂)
    (scaleDown n₂ n₂ d₂ + scaleUp (d₁ + 52) n₁ d₁)
  rw [pow_add, pow_add] at htri
  generalize 2 ^ scaleUp (d₁ + 52) n₁ d₁ = U₁ at *
  generalize 2 ^ scaleUp (d₂ + 52) n₂ d₂ = U₂ at *
  generalize 2 ^ scaleDown n₁ n₁ d₁ = K₁ at *
  generalize 2 ^ scaleDown n₂ n₂ d₂ = K₂ at *
  have b₁ := roundHalfEven_normal (n₁ * U₁) (d₁ * K₁) (Nat.mul_pos hd₁ hK₁) lo₁ hi₁
  have b₂ := roundHalfEven_normal (n₂ * U₂) (d₂ * K₂) (Nat.mul_pos hd₂ hK₂) lo₂ hi₂
  refine scaled_round_mono n₁ d₁ n₂ d₂ U₁ K₁ U₂ K₂ _ _ hd₁ hK₁ h lo₁ hi₂
    b₁.2 b₂.1 (fun he => ?_) htri
  apply roundHalfEven_mono _ _ _ _ (Nat.mul_pos hd₁ hK₁) (Nat.mul_pos hd₂ hK₂)
  calc n₁ * U₁ * (d₂ * K₂) = n₁ * d₂ * (K₂ * U₁) := by ring
    _ ≤ n₂ * d₁ * (K₂ * U₁) := Nat.mul_le_mul_right _ h
    _ = n₂ * d₁ * (K₁ * U₂) := by rw [he]
    _ = n₂ * U₂ * (d₁ * K₁) := by ring

/-- The denominator of a rounded double is positive. -/
theorem roundToDouble_den_pos (n d : Nat) : 0 < (roundToDouble n d).2 := by
  unfold roundToDouble
  split_ifs
  · exact Nat.one_pos
  · simp only []; positivity

/-! ## The rounded percentage: lemmas -/

/-- `Math.round` is monotone in the fraction it rounds. -/
theorem roundHalfUp_mono (n₁ d₁ n₂ d₂ : Nat) (h₁ : 0 < d₁) (h₂ : 0 < d₂)
    (h : n₁ * d₂ ≤ n₂ * d₁) :
    (2 * n₁ + d₁) / (2 * d₁) ≤ (2 * n₂ + d₂) / (2 * d₂) := by
  rw [Nat.le_div_iff_mul_le (by omega)]
  have hk := Nat.div_mul_le_self (2 * n₁ + d₁) (2 * d₁)
  generalize (2 * n₁ + d₁) / (2 * d₁) = k at hk ⊢
  by_contra hcon
  push_neg at hcon
  have e1 : k * (2 * d₁) * d₂ ≤ (2 * n₁ + d₁) * d₂ := Nat.mul_le_mul_right _ hk
  have e2 : (2 * n₂ + d₂) * d₁ < k * (2 * d₂) * d₁ := Nat.mul_lt_mul_of_pos_right hcon h₁
  nlinarith

/-- The number under `Math.round((c / t) * 100)` for `t > 0`, as a natural number. -/
theorem roundedPercent_eq (c t : Nat) (ht : 0 < t) :
    roundedPercent c t =
      JsNumber.fin
        ((2 * (roundToDouble ((roundToDouble c t).1 * 100) (roundToDouble c t).2).1 +
            (roundToDouble ((roundToDouble c t).1 * 100) (roundToDouble c t).2).2) /
          (2 * (roundToDouble ((roundToDouble c t).1 * 100) (roundToDouble c t).2).2)) 1 := by
  have h : t ≠ 0 := by omega
  simp [roundedPercent, JsNumber.divNat, JsNumber.mulNat, JsNumber.mathRound, h]

/-- For `c ≤ c'` and `t > 0` the rounded percentages of `c / t` and `c' / t` are
natural numbers in that order. -/
theorem roundedPercent_mono (c c' t : Nat) (ht : 0 < t) (h : c ≤ c') :
    ∃ a b, roundedPercent c t = JsNumber.fin a 1 ∧ roundedPercent c' t = JsNumber.fin b 1 ∧
      a ≤ b := by
  refine ⟨_, _, roundedPercent_eq c t ht, roundedPercent_eq c' t ht, ?_⟩
  have q := roundToDouble_mono c t c' t ht ht (Nat.mul_le_mul_right _ h)
  have hq := roundToDouble_den_pos c t
  have hq' := roundToDouble_den_pos c' t
  generalize roundToDouble c t = x at q hq ⊢
  generalize roundToDouble c' t = x' at q hq' ⊢
  have q100 : x.1 * 100 * x'.2 ≤ x'.1 * 100 * x.2 := by nlinarith
  have r := roundToDouble_mono (x.1 * 100) x.2 (x'.1 * 100) x'.2 hq hq' q100
  exact roundHalfUp_mono _ _ _ _ (roundToDouble_den_pos _ _) (roundToDouble_den_pos _ _) r

/-- For `c ≤ t` and `t > 0` the rounded percentage is a natural number up to 100. -/
theorem roundedPercent_le (c t : Nat) (ht : 0 < t) (h : c ≤ t) :
    ∃ a, roundedPercent c t = JsNumber.fin a 1 ∧ a ≤ 100 := by
  refine ⟨_, roundedPercent_eq c t ht, ?_⟩
  have one : roundToDouble 1 1 = (2 ^ 52, 2 ^ 52) := by decide
  have hundred : roundToDouble 100 1 = (100 * 2 ^ 46, 2 ^ 46) := by decide
  have q := roundToDouble_mono c t 1 1 ht Nat.one_pos (by omega)
  rw [one] at q
  have hq := roundToDouble_den_pos c t
  generalize roundToDouble c t = x at q hq ⊢
  have q1 : x.1 ≤ x.2 := by
    simp only [] at q
    rw [Nat.mul_comm (2 ^ 52)] at q
    exact Nat.le_of_mul_le_mul_right q (by positivity)
  have r := roundToDouble_mono (x.1 * 100) x.2 100 1 hq Nat.one_pos (by omega)
  rw [hundred] at r
  have hy := roundToDouble_den_pos (x.1 * 100) x.2
  generalize roundToDouble (x.1 * 100) x.2 = y at r hy ⊢
  have r1 : y.1 ≤ 100 * y.2 := by
    simp only [] at r
    have : y.1 * 2 ^ 46 ≤ 100 * y.2 * 2 ^ 46 := by
      calc y.1 * 2 ^ 46 ≤ 100 * 2 ^ 46 * y.2 := r
        _ = 100 * y.2 * 2 ^ 46 := by ring
    exact Nat.le_of_mul_le_mul_right this (by positivity)
  have : (2 * y.1 + y.2) / (2 * y.2) < 101 := by
    rw [Nat.div_lt_iff_lt_mul (by omega)]
    omega
  omega

/-! ## Accuracy of the rounded percentage -/

/-- The rounded fraction is within one half of the fraction. -/
theorem roundHalfEven_near (n d : Nat) (hd : 0 < d) :
    2 * d * roundHalfEven n d ≤ 2 * n + d ∧ 2 * n ≤ 2 * d * roundHalfEven n d + d := by
  have h1 := (le_roundHalfEven_iff n d (roundHalfEven n d) hd).1 le_rfl
  have h2 := (le_roundHalfEven_iff n d (roundHalfEven n d + 1) hd).not.1 (by omega)
  push_neg at h2
  have e : 2 * d * (roundHalfEven n d + 1) = 2 * d * roundHalfEven n d + 2 * d := by ring
  constructor
  · rcases h1 with h | ⟨h, _⟩ <;> omega
  · have := h2.1; omega

/-- The relative error of rounding to a double is at most `2 ^ (-53)`. -/
theorem roundToDouble_near (n d : Nat) (hd : 0 < d) :
    (2 ^ 53 - 1) * (n * (roundToDouble n d).2) ≤ 2 ^ 53 * ((roundToDouble n d).1 * d) ∧
      2 ^ 53 * ((roundToDouble n d).1 * d) ≤ (2 ^ 53 + 1) * (n * (roundToDouble n d).2) := by
  by_cases hn : n = 0
  · simp [roundToDouble, hn]
  obtain ⟨lo, _⟩ := scale_normal n d (Nat.pos_of_ne_zero hn) hd
  simp only [roundToDouble, if_neg hn]
  have hK : 0 < 2 ^ scaleDown n n d := by positivity
  generalize 2 ^ scaleUp (d + 52) n d = U at *
  generalize 2 ^ scaleDown n n d = K at *
  obtain ⟨r1, r2⟩ := roundHalfEven_near (n * U) (d * K) (Nat.mul_pos hd hK)
  have e : roundHalfEven (n * U) (d * K) * K * d = d * K * roundHalfEven (n * U) (d * K) := by
    ring
  rw [e]
  rw [Nat.mul_assoc 2 (d * K)] at r1 r2
  generalize d * K * roundHalfEven (n * U) (d * K) = M at *
  generalize n * U = P at *
  generalize d * K = Q at *
  constructor <;> omega

/-- The double under `Math.round` is within a relative error of about `2 ^ (-52)` of
the exact percentage `100 * c / t`. -/
theorem percent_near (c t : Nat) (ht : 0 < t) :
    (2 ^ 53 - 1) * (2 ^ 53 - 1) * (100 * (c *
        (roundToDouble ((roundToDouble c t).1 * 100) (roundToDouble c t).2).2)) ≤
      2 ^ 53 * 2 ^ 53 *
        ((roundToDouble ((roundToDouble c t).1 * 100) (roundToDouble c t).2).1 * t) ∧
    2 ^ 53 * 2 ^ 53 *
        ((roundToDouble ((roundToDouble c t).1 * 100) (roundToDouble c t).2).1 * t) ≤
      (2 ^ 53 + 1) * (2 ^ 53 + 1) * (100 * (c *
        (roundToDouble ((roundToDouble c t).1 * 100) (roundToDouble c t).2).2)) := by
  obtain ⟨q1, q2⟩ := roundToDouble_near c t ht
  have hb := roundToDouble_den_pos c t
  generalize roundToDouble c t = q at *
  obtain ⟨p1, p2⟩ := roundToDouble_near (q.1 * 100) q.2 hb
  generalize roundToDouble (q.1 * 100) q.2 = p at *
  constructor
  · apply Nat.le_of_mul_le_mul_right _ hb
    calc (2 ^ 53 - 1) * (2 ^ 53 - 1) * (100 * (c * p.2)) * q.2
        = 100 * p.2 * (2 ^ 53 - 1) * ((2 ^ 53 - 1) * (c * q.2)) := by ring
      _ ≤ 100 * p.2 * (2 ^ 53 - 1) * (2 ^ 53 * (q.1 * t)) := Nat.mul_le_mul_left _ q1
      _ = 2 ^ 53 * t * ((2 ^ 53 - 1) * (q.1 * 100 * p.2)) := by ring
      _ ≤ 2 ^ 53 * t * (2 ^ 53 * (p.1 * q.2)) := Nat.mul_le_mul_left _ p1
      _ = 2 ^ 53 * 2 ^ 53 * (p.1 * t) * q.2 := by ring
  · apply Nat.le_of_mul_le_mul_right _ hb
    calc 2 ^ 53 * 2 ^ 53 * (p.1 * t) * q.2
        = 2 ^ 53 * t * (2 ^ 53 * (p.1 * q.2)) := by ring
      _ ≤ 2 ^ 53 * t * ((2 ^ 53 + 1) * (q.1 * 100 * p.2)) := Nat.mul_le_mul_left _ p2
      _ = 100 * p.2 * (2 ^ 53 + 1) * (2 ^ 53 * (q.1 * t)) := by ring
      _ ≤ 100 * p.2 * (2 ^ 53 + 1) * ((2 ^ 53 + 1) * (c * q.2)) := Nat.mul_le_mul_left _ q2
      _ = (2 ^ 53 + 1) * (2 ^ 53 + 1) * (100 * (c * p.2)) * q.2 := by ring


/-- The arithmetic core of the accuracy of the percentage: with `X = x * t`, `C = c * y`,
`A = R * t * y`, `B = t * y` and `D = rest * y`, where `x / y` is the double under
`Math.round` and `200 * c + t = 2 * t * R + rest`, the rounded double is `R` or, when
the rest is zero, possibly `R - 1`. -/
theorem percent_core (X C A B D y : Nat) (hy : 0 < y)
    (near1 : (2 ^ 53 - 1) * (2 ^ 53 - 1) * (100 * C) ≤ 2 ^ 53 * 2 ^ 53 * X)
    (near2 : 2 ^ 53 * 2 ^ 53 * X ≤ (2 ^ 53 + 1) * (2 ^ 53 + 1) * (100 * C))
    (hCB : C ≤ B) (hBy : B ≤ 2 ^ 44 * y)
    (hdiv : 200 * C + B = 2 * A + D) (hD : D + y ≤ 2 * B) :
    2 * X + B < 2 * A + 2 * B ∧ (y ≤ D → 2 * A ≤ 2 * X + B) ∧ 2 * A ≤ 2 * X + 3 * B := by
  norm_num at near1 near2 hBy
  refine ⟨?_, ?_, ?_⟩ <;> omega


/-- Accuracy of `Math.round((c / t) * 100)` for `c ≤ t` and `t ≤ 2 ^ 44`: the result is
`round(100 * c / t)` unless `100 * c / t` lies exactly half-way between two integers,
and in that case it is that value or one less. -/
theorem roundedPercent_accurate (c t : Nat) (ht : 0 < t) (hc : c ≤ t) (hsmall : t ≤ 2 ^ 44) :
    ((200 * c + t) % (2 * t) ≠ 0 → roundedPercent c t = JsNumber.ofNat (exactPercent c t)) ∧
      (roundedPercent c t = JsNumber.ofNat (exactPercent c t) ∨
        roundedPercent c t = JsNumber.ofNat (exactPercent c t - 1)) := by
  rw [roundedPercent_eq c t ht]
  obtain ⟨near1, near2⟩ := percent_near c t ht
  have hy := roundToDouble_den_pos ((roundToDouble c t).1 * 100) (roundToDouble c t).2
  generalize roundToDouble ((roundToDouble c t).1 * 100) (roundToDouble c t).2 = p at *
  have hdm := Nat.div_add_mod (200 * c + t) (2 * t)
  have hml := Nat.mod_lt (200 * c + t) (show 0 < 2 * t by omega)
  unfold exactPercent JsNumber.ofNat
  generalize (200 * c + t) / (2 * t) = R at *
  generalize (200 * c + t) % (2 * t) = rest at *
  have hCB : c * p.2 ≤ t * p.2 := Nat.mul_le_mul_right _ hc
  have hBy : t * p.2 ≤ 2 ^ 44 * p.2 := Nat.mul_le_mul_right _ hsmall
  have hdiv : 200 * (c * p.2) + t * p.2 = 2 * (R * t * p.2) + rest * p.2 := by
    calc 200 * (c * p.2) + t * p.2 = (200 * c + t) * p.2 := by ring
      _ = (2 * t * R + rest) * p.2 := by rw [hdm]
      _ = 2 * (R * t * p.2) + rest * p.2 := by ring
  have hD : rest * p.2 + p.2 ≤ 2 * (t * p.2) := by
    calc rest * p.2 + p.2 = (rest + 1) * p.2 := by ring
      _ ≤ 2 * t * p.2 := Nat.mul_le_mul_right _ hml
      _ = 2 * (t * p.2) := by ring
  obtain ⟨up, low, low3⟩ := percent_core (p.1 * t) (c * p.2) (R * t * p.2) (t * p.2)
    (rest * p.2) p.2 hy near1 near2 hCB hBy hdiv hD
  have h2y : 0 < 2 * p.2 := by omega
  have hupper : (2 * p.1 + p.2) / (2 * p.2) < R + 1 := by
    rw [Nat.div_lt_iff_lt_mul h2y]
    apply Nat.lt_of_mul_lt_mul_right (a := t)
    calc (2 * p.1 + p.2) * t = 2 * (p.1 * t) + t * p.2 := by ring
      _ < 2 * (R * t * p.2) + 2 * (t * p.2) := up
      _ = (R + 1) * (2 * p.2) * t := by ring
  have hlower3 : R - 1 ≤ (2 * p.1 + p.2) / (2 * p.2) := by
    rw [Nat.le_div_iff_mul_le h2y]
    apply Nat.le_of_mul_le_mul_right _ ht
    by_cases hR : R = 0
    · simp [hR]
    · have hR1 : R = (R - 1) + 1 := by omega
      have e : (R - 1) * (2 * p.2) * t + 2 * (t * p.2) = 2 * (R * t * p.2) := by
        generalize R - 1 = S at *
        rw [hR1]; ring
      have e2 : (2 * p.1 + p.2) * t = 2 * (p.1 * t) + t * p.2 := by ring
      rw [e2]
      omega
  constructor
  · intro hrest
    have hlower : R ≤ (2 * p.1 + p.2) / (2 * p.2) := by
      rw [Nat.le_div_iff_mul_le h2y]
      apply Nat.le_of_mul_le_mul_right _ ht
      have hyD : p.2 ≤ rest * p.2 := Nat.le_mul_of_pos_left _ (Nat.pos_of_ne_zero hrest)
      calc R * (2 * p.2) * t = 2 * (R * t * p.2) := by ring
        _ ≤ 2 * (p.1 * t) + t * p.2 := low hyD
        _ = (2 * p.1 + p.2) * t := by ring
    have : (2 * p.1 + p.2) / (2 * p.2) = R := by omega
    rw [this]
  · have : (2 * p.1 + p.2) / (2 * p.2) = R ∨ (2 * p.1 + p.2) / (2 * p.2) = R - 1 := by omega
    rcases this with h | h
    · left; rw [h]
    · right; rw [h]

/-! ## The loop counters: lemmas -/

/-- The inner loop adds the number of subtopics to `totalSteps` and the number of
completed ones to `completedSteps`. -/
theorem subTopicsLoop_eq (progress : Progress) (moduleIndex : Nat) (topics : List String)
    (topicIndex : Nat) (counters : Nat × Nat) :
    subTopicsLoop progress moduleIndex topics topicIndex counters =
      (counters.1 + topics.length,
        counters.2 + ((List.range' topicIndex topics.length).map
          (fun j => (moduleIndex, j))).countP (stepDone progress)) := by
  induction topics generalizing topicIndex counters with
  | nil => simp [subTopicsLoop]
  | cons topic rest ih =>
    rw [subTopicsLoop, ih]
    simp only [List.length_cons, List.range'_succ, List.map_cons, List.countP_cons, stepDone]
    split_ifs <;> simp <;> omega

/-- The outer loop adds the number of steps to `totalSteps` and the number of completed
steps to `completedSteps`. -/
theorem modulesLoop_eq (progress : Progress) (modules : List Module) (moduleIndex : Nat)
    (counters : Nat × Nat) :
    modulesLoop progress modules moduleIndex counters =
      (counters.1 + totalSubtopics modules,
        counters.2 + (stepsFrom modules moduleIndex).countP (stepDone progress)) := by
  induction modules generalizing moduleIndex counters with
  | nil => simp [modulesLoop, totalSubtopics, stepsFrom]
  | cons module rest ih =>
    rw [modulesLoop, ih, subTopicsLoop_eq]
    simp only [totalSubtopics, stepsFrom, List.map_cons, List.sum_cons, List.countP_append,
      List.range_eq_range']
    ext <;> simp <;> omega

/-- The counters after both loops, started from zero. -/
theorem modulesLoop_zero (progress : Progress) (modules : List Module) :
    modulesLoop progress modules 0 (0, 0) =
      (totalSubtopics modules, completedSubtopics modules progress) := by
  rw [modulesLoop_eq]
  simp [completedSubtopics, validSteps]

/-- The number of valid steps is the total number of subtopics. -/
theorem length_stepsFrom (modules : List Module) (moduleIndex : Nat) :
    (stepsFrom modules moduleIndex).length = totalSubtopics modules := by
  induction modules generalizing moduleIndex with
  | nil => simp [stepsFrom, totalSubtopics]
  | cons module rest ih =>
    simp only [stepsFrom, List.length_append, List.length_map, List.length_range, ih]
    simp [totalSubtopics]

/-- No more steps are completed than there are. -/
theorem completedSubtopics_le (modules : List Module) (progress : Progress) :
    completedSubtopics modules progress ≤ totalSubtopics modules := by
  rw [← length_stepsFrom modules 0]
  exact List.countP_le_length _

/-- The steps counted from module index `start` are those whose module, found at
`i - start`, has a subtopic at the index. -/
theorem mem_stepsFrom (modules : List Module) (start i j : Nat) :
    (i, j) ∈ stepsFrom modules start ↔
      ∃ module, start ≤ i ∧ modules[i - start]? = some module ∧ j < module.subTopics.length := by
  induction modules generalizing start with
  | nil => simp [stepsFrom]
  | cons module rest ih =>
    simp only [stepsFrom, List.mem_append, List.mem_map, List.mem_range, Prod.mk.injEq, ih]
    constructor
    · rintro (⟨k, hk, rfl, rfl⟩ | ⟨m, hle, hm, hj⟩)
      · exact ⟨module, le_rfl, by simp, hk⟩
      · refine ⟨m, by omega, ?_, hj⟩
        have : i - start = (i - (start + 1)) + 1 := by omega
        rw [this, List.getElem?_cons_succ]
        exact hm
    · rintro ⟨m, hle, hm, hj⟩
      by_cases hi : i = start
      · subst hi
        simp only [Nat.sub_self, List.getElem?_cons_zero, Option.some.injEq] at hm
        subst hm
        exact Or.inl ⟨j, hj, rfl, rfl⟩
      · right
        refine ⟨m, by omega, ?_, hj⟩
        have : i - start = (i - (start + 1)) + 1 := by omega
        rw [this, List.getElem?_cons_succ] at hm
        exact hm

/-- A step is valid exactly when its module exists and has a subtopic at its index. -/
theorem mem_validSteps (modules : List Module) (i j : Nat) :
    (i, j) ∈ validSteps modules ↔
      ∃ module, modules[i]? = some module ∧ j < module.subTopics.length := by
  simp [validSteps, mem_stepsFrom]

/-! ## The overall percentage -/

/-- The overall percentage in terms of the reference quantities: with `T` subtopics of
which `C` are completed it is `Math.round((C / T) * 100)`, and `0` when `T = 0`. -/
theorem calculateProgressWithData_eq (modules : List Module) (progressData : Progress) :
    calculateProgressWithData (some modules) progressData =
      if 0 < totalSubtopics modules then
        roundedPercent (completedSubtopics modules progressData) (totalSubtopics modules)
      else JsNumber.ofNat 0 := by
  unfold calculateProgressWithData
  by_cases hlen : modules.length = 0
  · have hnil : modules = [] := List.length_eq_zero.1 hlen
    subst hnil
    simp [totalSubtopics]
  · simp only [hlen, if_false, modulesLoop_zero]

/-- The state version computes what the argument version computes. -/
theorem calculateProgress_eq_withData (learningPath : Option (List Module))
    (progress : Progress) :
    calculateProgress learningPath progress = calculateProgressWithData learningPath progress :=
  rfl

/-- The overall percentage is a natural number up to 100. -/
theorem calculateProgressWithData_le (learningPath : Option (List Module))
    (progressData : Progress) :
    ∃ a, calculateProgressWithData learningPath progressData = JsNumber.fin a 1 ∧ a ≤ 100 := by
  cases learningPath with
  | none => exact ⟨0, rfl, by omega⟩
  | some modules =>
    rw [calculateProgressWithData_eq]
    split_ifs with hT
    · exact roundedPercent_le _ _ hT (completedSubtopics_le _ _)
    · exact ⟨0, rfl, by omega⟩

/-- Up to `2 ^ 44` subtopics, the overall percentage is `round(100 * C / T)` whenever
`100 * C / T` is not exactly half-way between two integers. -/
theorem calculateProgressWithData_accurate (modules : List Module) (progressData : Progress)
    (hT : 0 < totalSubtopics modules) (hsmall : totalSubtopics modules ≤ 2 ^ 44)
    (hrest : (200 * completedSubtopics modules progressData + totalSubtopics modules) %
      (2 * totalSubtopics modules) ≠ 0) :
    calculateProgressWithData (some modules) progressData =
      JsNumber.ofNat
        (exactPercent (completedSubtopics modules progressData) (totalSubtopics modules)) := by
  rw [calculateProgressWithData_eq, if_pos hT]
  exact (roundedPercent_accurate _ _ hT (completedSubtopics_le _ _) hsmall).1 hrest

/-- C1: the overall percentage is not always `round(100 * C / T)`.  For one module of 40
subtopics with 23 of them completed, `T = 40`, `C = 23` and `round(100 * 23 / 40)` is
58 (57.5 rounded half up), while `calculateProgress` and `calculateProgressWithData`
return 57: the double `23 / 40` times 100 is the double just below 57.5. -/
theorem C1_overall_percentage_23_of_40 :
    totalSubtopics [fortyTopics] = 40 ∧
      completedSubtopics [fortyTopics] (firstDone 23) = 23 ∧
      exactPercent 23 40 = 58 ∧
      calculateProgress (some [fortyTopics]) (firstDone 23) = JsNumber.ofNat 57 ∧
      calculateProgressWithData (some [fortyTopics]) (firstDone 23) = JsNumber.ofNat 57 := by
  decide

/-! ## The percentage of a module -/

/-- C2: for a module without subtopics the per-module percentage is `NaN`, not 0: the
render loop divides `0` by `0` without the guard that `calculateProgress` has, which
returns 0 for the same module. -/
theorem C2_module_percentage_without_subtopics (progress : Progress) (moduleIndex : Nat)
    (moduleTitle description : String) :
    modulePercentage progress moduleIndex ⟨moduleTitle, description, []⟩ = JsNumber.nan ∧
      calculateProgress (some [⟨moduleTitle, description, []⟩]) progress = JsNumber.ofNat 0 := by
  constructor <;> rfl

/-- The number of kept elements is the number of indices that pass. -/
theorem length_filterFrom (keep : Nat → Bool) (topics : List String) (topicIndex : Nat) :
    (filterFrom keep topics topicIndex).length =
      (List.range' topicIndex topics.length).countP keep := by
  induction topics generalizing topicIndex with
  | nil => simp [filterFrom]
  | cons topic rest ih =>
    simp only [filterFrom, List.length_cons, List.range'_succ, List.countP_cons]
    split_ifs <;> simp [ih]

/-- The count `moduleProgress` is the number of completed steps of the module. -/
theorem moduleProgress_eq (progress : Progress) (moduleIndex : Nat) (module : Module) :
    moduleProgress progress moduleIndex module =
      (List.range module.subTopics.length).countP
        (fun topicIndex => stepDone progress (moduleIndex, topicIndex)) := by
  simp only [moduleProgress, length_filterFrom, List.range_eq_range', stepDone]

/-- The percentage of a module with at least one subtopic is a natural number up to
100. -/
theorem modulePercentage_le (progress : Progress) (moduleIndex : Nat) (module : Module)
    (h : 0 < module.subTopics.length) :
    ∃ a, modulePercentage progress moduleIndex module = JsNumber.fin a 1 ∧ a ≤ 100 := by
  apply roundedPercent_le _ _ h
  rw [moduleProgress_eq]
  calc (List.range module.subTopics.length).countP _ ≤ (List.range module.subTopics.length).length :=
        List.countP_le_length _
    _ = module.subTopics.length := List.length_range _

/-- C3: the per-module percentage is not always `round(100 * c / t)`.  For a module of
40 subtopics with 23 completed it is 57 while `round(100 * 23 / 40)` is 58.  The
example of the specification holds: with 2 modules of 3 subtopics, 2 steps done in
module 0 and 1 in module 1, the module percentages are 67 and 33 and the overall
percentage is 50. -/
theorem C3_module_percentage_23_of_40 :
    moduleProgress (firstDone 23) 0 fortyTopics = 23 ∧
      modulePercentage (firstDone 23) 0 fortyTopics = JsNumber.ofNat 57 ∧
      exactPercent 23 40 = 58 ∧
      modulePercentage twoAndOne 0 threeTopics = JsNumber.ofNat 67 ∧
      modulePercentage twoAndOne 1 threeTopics = JsNumber.ofNat 33 ∧
      calculateProgress (some [threeTopics, threeTopics]) twoAndOne = JsNumber.ofNat 50 := by
  decide

/-! ## Monotonicity and range -/

/-- Steps that stay completed keep the count of completed steps from falling. -/
theorem completedSubtopics_mono (modules : List Module) (p q : Progress)
    (h : ∀ moduleIndex topicIndex, (p (stepKey moduleIndex topicIndex)).truthy = true →
      (q (stepKey moduleIndex topicIndex)).truthy = true) :
    completedSubtopics modules p ≤ completedSubtopics modules q := by
  unfold completedSubtopics
  apply List.countP_mono_left
  intro step _ hp
  exact h step.1 step.2 hp

/-- C4: when every step key that is truthy in `p` is truthy in `q`, the overall
percentage under `p` is at most the one under `q`, and both are integers between 0 and
100. -/
theorem C4_overall_percentage_monotone (learningPath : Option (List Module))
    (p q : Progress)
    (h : ∀ moduleIndex topicIndex, (p (stepKey moduleIndex topicIndex)).truthy = true →
      (q (stepKey moduleIndex topicIndex)).truthy = true) :
    ∃ a b, calculateProgressWithData learningPath p = JsNumber.ofNat a ∧
      calculateProgressWithData learningPath q = JsNumber.ofNat b ∧
      calculateProgress learningPath p = JsNumber.ofNat a ∧
      calculateProgress learningPath q = JsNumber.ofNat b ∧ a ≤ b ∧ b ≤ 100 := by
  obtain ⟨b, hb, hb100⟩ := calculateProgressWithData_le learningPath q
  simp only [calculateProgress_eq_withData, JsNumber.ofNat]
  cases learningPath with
  | none => exact ⟨0, 0, rfl, rfl, rfl, rfl, le_rfl, by omega⟩
  | some modules =>
    rw [calculateProgressWithData_eq] at hb ⊢
    rw [calculateProgressWithData_eq]
    by_cases hT : 0 < totalSubtopics modules
    · simp only [hT, if_true] at hb ⊢
      obtain ⟨a, b', ha, hb', hab⟩ := roundedPercent_mono _ _ _ hT
        (completedSubtopics_mono modules p q h)
      have : b' = b := by
        rw [hb'] at hb
        exact (JsNumber.fin.inj hb).1
      subst this
      exact ⟨a, b', ha, hb', ha, hb', hab, hb100⟩
    · simp only [hT, if_false]
      exact ⟨0, 0, rfl, rfl, rfl, rfl, le_rfl, by omega⟩

/-- C4 at a concrete input: one module of 40 subtopics, no step completed against the
first 23 completed. -/
theorem C4_overall_percentage_monotone_witness :
    (∀ moduleIndex topicIndex,
        (emptyProgress (stepKey moduleIndex topicIndex)).truthy = true →
          ((firstDone 23) (stepKey moduleIndex topicIndex)).truthy = true) ∧
      ∃ a b, calculateProgressWithData (some [fortyTopics]) emptyProgress = JsNumber.ofNat a ∧
        calculateProgressWithData (some [fortyTopics]) (firstDone 23) = JsNumber.ofNat b ∧
        calculateProgress (some [fortyTopics]) emptyProgress = JsNumber.ofNat a ∧
        calculateProgress (some [fortyTopics]) (firstDone 23) = JsNumber.ofNat b ∧
        a ≤ b ∧ b ≤ 100 :=
  ⟨fun _ _ h => by simp [emptyProgress, JsVal.truthy] at h,
    C4_overall_percentage_monotone (some [fortyTopics]) emptyProgress (firstDone 23)
      (fun _ _ h => by simp [emptyProgress, JsVal.truthy] at h)⟩

/-! ## Keys outside the module list -/

/-- The inner loop of the analytics adds the number of subtopics to both totals and the
number of completed ones to both completed counters. -/
theorem analyticsSubTopicsLoop_eq (progress : Option Progress) (moduleIndex : Nat)
    (topics : List String) (topicIndex : Nat) (state : Nat × Nat × Nat × Nat) :
    analyticsSubTopicsLoop progress moduleIndex topics topicIndex state =
      (state.1 + topics.length,
        state.2.1 + (List.range' topicIndex topics.length).countP
          (fun j => recordStepDone progress moduleIndex j),
        state.2.2.1 + topics.length,
        state.2.2.2 + (List.range' topicIndex topics.length).countP
          (fun j => recordStepDone progress moduleIndex j)) := by
  induction topics generalizing topicIndex state with
  | nil => simp [analyticsSubTopicsLoop]
  | cons topic rest ih =>
    rw [analyticsSubTopicsLoop, ih]
    simp only [List.length_cons, List.range'_succ, List.countP_cons]
    split_ifs <;> simp <;> omega

/-- The loop of the analytics over the modules of a path adds the number of steps to
both totals and the number of completed steps to both completed counters. -/
theorem analyticsModulesLoop_eq (progress : Option Progress) (modules : List Module)
    (moduleIndex : Nat) (state : Nat × Nat × Nat × Nat) :
    analyticsModulesLoop progress modules moduleIndex state =
      (state.1 + totalSubtopics modules,
        state.2.1 + (stepsFrom modules moduleIndex).countP
          (fun step => recordStepDone progress step.1 step.2),
        state.2.2.1 + totalSubtopics modules,
        state.2.2.2 + (stepsFrom modules moduleIndex).countP
          (fun step => recordStepDone progress step.1 step.2)) := by
  induction modules generalizing moduleIndex state with
  | nil => simp [analyticsModulesLoop, totalSubtopics, stepsFrom]
  | cons module rest ih =>
    rw [analyticsModulesLoop, ih, analyticsSubTopicsLoop_eq]
    simp only [totalSubtopics, stepsFrom, List.map_cons, List.sum_cons, List.countP_append,
      List.range_eq_range', List.countP_map]
    ext <;> simp [Function.comp_def] <;> omega

/-- Two progress maps that agree on the valid steps complete the same number of them. -/
theorem completedSubtopics_congr (modules : List Module) (p q : Progress)
    (h : ∀ step ∈ validSteps modules, p (stepKey step.1 step.2) = q (stepKey step.1 step.2)) :
    completedSubtopics modules p = completedSubtopics modules q := by
  unfold completedSubtopics
  apply List.countP_congr
  intro step hstep
  simp only [stepDone, h step hstep]

/-- C5: keys that name no valid step are inert.  When two progress maps agree on the
keys of all valid steps of a module list, the overall percentage (both functions), the
percentage of every module of the list, and the counters of the analytics for any
snapshot that contains the path (among them `totalSteps` and `completedSteps`) are the
same for both maps. -/
theorem C5_keys_outside_modules_inert (modules : List Module) (p q : Progress)
    (h : ∀ step ∈ validSteps modules, p (stepKey step.1 step.2) = q (stepKey step.1 step.2)) :
    calculateProgress (some modules) p = calculateProgress (some modules) q ∧
      calculateProgressWithData (some modules) p = calculateProgressWithData (some modules) q ∧
      (∀ moduleIndex module, modules[moduleIndex]? = some module →
        modulePercentage p moduleIndex module = modulePercentage q moduleIndex module) ∧
      (∀ (earlier later : List PathRecord) (skill : Option String)
        (achievements : Option (List Achievement)) (lastUpdated : Option Nat),
        analyticsCounters
            (earlier ++ ⟨skill, some modules, some p, achievements, lastUpdated⟩ :: later) =
          analyticsCounters
            (earlier ++ ⟨skill, some modules, some q, achievements, lastUpdated⟩ :: later)) := by
  have hoverall : calculateProgressWithData (some modules) p =
      calculateProgressWithData (some modules) q := by
    rw [calculateProgressWithData_eq, calculateProgressWithData_eq,
      completedSubtopics_congr modules p q h]
  refine ⟨hoverall, hoverall, ?_, ?_⟩
  · intro moduleIndex module hmodule
    have hcount : moduleProgress p moduleIndex module = moduleProgress q moduleIndex module := by
      rw [moduleProgress_eq, moduleProgress_eq]
      apply List.countP_congr
      intro topicIndex htopic
      have hvalid : (moduleIndex, topicIndex) ∈ validSteps modules :=
        (mem_validSteps modules moduleIndex topicIndex).2
          ⟨module, hmodule, List.mem_range.1 htopic⟩
      simp only [stepDone, h _ hvalid]
    simp only [modulePercentage, hcount]
  · intro earlier later skill achievements lastUpdated
    have hstep : ∀ acc : Counters,
        analyticsPathStep acc ⟨skill, some modules, some p, achievements, lastUpdated⟩ =
          analyticsPathStep acc ⟨skill, some modules, some q, achievements, lastUpdated⟩ := by
      intro acc
      have hloop : ∀ state, analyticsModulesLoop (some p) modules 0 state =
          analyticsModulesLoop (some q) modules 0 state := by
        intro state
        rw [analyticsModulesLoop_eq, analyticsModulesLoop_eq]
        have hc : (stepsFrom modules 0).countP (fun step => recordStepDone (some p) step.1 step.2) =
            (stepsFrom modules 0).countP (fun step => recordStepDone (some q) step.1 step.2) := by
          apply List.countP_congr
          intro step hstep
          simp only [recordStepDone, h step hstep]
        rw [hc]
      simp only [analyticsPathStep, hloop]
    simp only [analyticsCounters, List.foldl_append, List.foldl_cons, hstep]

/-- C5 at a concrete input: two modules of three subtopics, and two progress maps that
differ only at the keys `7-0`, `0-9` and `draft`. -/
theorem C5_keys_outside_modules_inert_witness :
    (∀ step ∈ validSteps [threeTopics, threeTopics],
        twoAndOne (stepKey step.1 step.2) = twoAndOneStray (stepKey step.1 step.2)) ∧
      twoAndOne "7-0" ≠ twoAndOneStray "7-0" ∧
      calculateProgress (some [threeTopics, threeTopics]) twoAndOne =
        calculateProgress (some [threeTopics, threeTopics]) twoAndOneStray ∧
      modulePercentage twoAndOne 0 threeTopics = modulePercentage twoAndOneStray 0 threeTopics ∧
      Counters.completedSteps (analyticsCounters
          [⟨none, some [threeTopics, threeTopics], some twoAndOne, none, none⟩]) =
        Counters.completedSteps (analyticsCounters
          [⟨none, some [threeTopics, threeTopics], some twoAndOneStray, none, none⟩]) :=
  have h := C5_keys_outside_modules_inert [threeTopics, threeTopics] twoAndOne twoAndOneStray
    (by decide)
  ⟨by decide, by decide, h.1, h.2.2.1 0 threeTopics rfl,
    congrArg Counters.completedSteps (h.2.2.2 [] [] none none none)⟩

/-! ## Toggling a step -/

/-- After a successful write the stored document holds the object `newProgress`. -/
theorem toggle_doc_progress (learningPath : Option (List Module)) (s : TrackerState)
    (doc : PathDoc) (moduleIndex topicIndex : Nat) (env : ToggleEnv)
    (hok : env.progressWriteOk = true) :
    (toggleStepCompletion learningPath s doc moduleIndex topicIndex env).doc.progress =
      toggledProgress s.progress moduleIndex topicIndex := by
  unfold toggleStepCompletion
  simp only [hok, if_true]
  cases env.onProgressUpdate with
  | none => rfl
  | some callback => dsimp only; split_ifs <;> rfl

/-- C6: the map that `toggleStepCompletion` builds and persists is `newProgress`; at the
key of the toggled step its truthiness is the negation of the old one (an absent key
becomes `true`), and at every other key it holds the old value. -/
theorem C6_toggle_flips_one_key (learningPath : Option (List Module)) (s : TrackerState)
    (doc : PathDoc) (moduleIndex topicIndex : Nat) (env : ToggleEnv) (key : String)
    (hok : env.progressWriteOk = true) (hkey : key ≠ stepKey moduleIndex topicIndex) :
    (toggleStepCompletion learningPath s doc moduleIndex topicIndex env).doc.progress =
        toggledProgress s.progress moduleIndex topicIndex ∧
      ((toggledProgress s.progress moduleIndex topicIndex)
          (stepKey moduleIndex topicIndex)).truthy =
        !(s.progress (stepKey moduleIndex topicIndex)).truthy ∧
      (s.progress (stepKey moduleIndex topicIndex) = JsVal.undefined →
        (toggledProgress s.progress moduleIndex topicIndex) (stepKey moduleIndex topicIndex) =
          JsVal.bool true) ∧
      (toggleStepCompletion learningPath s doc moduleIndex topicIndex env).doc.progress key =
        s.progress key := by
  have hdoc := toggle_doc_progress learningPath s doc moduleIndex topicIndex env hok
  refine ⟨hdoc, ?_, ?_, ?_⟩
  · simp [toggledProgress, JsVal.truthy]
  · intro habsent
    simp [toggledProgress, habsent, JsVal.truthy]
  · rw [hdoc]
    simp [toggledProgress, hkey]

/-- C6 at a concrete input: step `0-1` toggled on a fresh tracker, read back at `0-0`. -/
theorem C6_toggle_flips_one_key_witness :
    (writesSucceed 1000).progressWriteOk = true ∧ "0-0" ≠ stepKey 0 1 ∧
      (toggleStepCompletion (some [threeTopics]) freshState freshDoc 0 1
        (writesSucceed 1000)).doc.progress (stepKey 0 1) = JsVal.bool true ∧
      (toggleStepCompletion (some [threeTopics]) freshState freshDoc 0 1
        (writesSucceed 1000)).doc.progress "0-0" = freshState.progress "0-0" :=
  have h := C6_toggle_flips_one_key (some [threeTopics]) freshState freshDoc 0 1
    (writesSucceed 1000) "0-0" rfl (by decide)
  ⟨rfl, by decide, by rw [h.1]; exact h.2.2.1 rfl, h.2.2.2⟩

/-- C7: when the write of the progress fails, the state after the toggle has the
progress map and the achievements list it had before; the stored document is untouched
and the callback has not been called. -/
theorem C7_failed_write_restores_state (learningPath : Option (List Module))
    (s : TrackerState) (doc : PathDoc) (moduleIndex topicIndex : Nat) (env : ToggleEnv)
    (hfail : env.progressWriteOk = false) :
    (toggleStepCompletion learningPath s doc moduleIndex topicIndex env).state.progress =
        s.progress ∧
      (toggleStepCompletion learningPath s doc moduleIndex topicIndex env).state.achievements =
        s.achievements ∧
      (toggleStepCompletion learningPath s doc moduleIndex topicIndex env).state.loading =
        false ∧
      (toggleStepCompletion learningPath s doc moduleIndex topicIndex env).doc = doc ∧
      (toggleStepCompletion learningPath s doc moduleIndex topicIndex env).reported = none := by
  unfold toggleStepCompletion
  simp [hfail]

/-- C7 at a concrete input: the only step of a path toggled while the write fails; the
same toggle with a successful write would have earned all five milestones. -/
theorem C7_failed_write_restores_state_witness :
    (writeFails 1000).progressWriteOk = false ∧
      (toggleStepCompletion (some [oneTopic]) freshState freshDoc 0 0
        (writeFails 1000)).state.progress = freshState.progress ∧
      (toggleStepCompletion (some [oneTopic]) freshState freshDoc 0 0
        (writeFails 1000)).state.achievements = [] ∧
      (toggleStepCompletion (some [oneTopic]) freshState freshDoc 0 0
        (writesSucceed 1000)).state.achievements.length = 5 :=
  have h := C7_failed_write_restores_state (some [oneTopic]) freshState freshDoc 0 0
    (writeFails 1000) rfl
  ⟨rfl, h.1, h.2.1, by decide⟩

/-! ## Achievements -/

/-- An earned achievement carries the milestone it was made from. -/
theorem milestone_earn (milestone : Milestone) (earnedAt : Nat) :
    (milestone.earn earnedAt).milestone = milestone := rfl

/-- The milestone loop appends, in catalog order, one achievement for every milestone
that unlocks, and nothing else. -/
theorem milestoneLoop_fst (progressPercentage : JsNumber) (achievements : List Achievement)
    (clock : Nat → Nat) (catalog : List Milestone) (state : List Achievement × Nat) :
    ∃ earned, (milestoneLoop progressPercentage achievements clock catalog state).1 =
        state.1 ++ earned ∧
      earned.map Achievement.milestone =
        catalog.filter (unlocks progressPercentage achievements) := by
  induction catalog generalizing state with
  | nil => exact ⟨[], by simp [milestoneLoop], rfl⟩
  | cons milestone rest ih =>
    unfold milestoneLoop
    by_cases hun : unlocks progressPercentage achievements milestone = true
    · rw [if_pos hun]
      obtain ⟨earned, h1, h2⟩ := ih (state.1 ++ [milestone.earn (clock state.2)], state.2 + 1)
      refine ⟨milestone.earn (clock state.2) :: earned, ?_, ?_⟩
      · rw [h1]; simp
      · simp [List.filter_cons, hun, h2, milestone_earn]
    · rw [if_neg hun]
      obtain ⟨earned, h1, h2⟩ := ih state
      exact ⟨earned, h1, by simp [List.filter_cons, hun, h2]⟩

/-- The function `checkAchievements` leaves the old list followed by one achievement for
every milestone that unlocks. -/
theorem checkAchievements_eq (learningPath : Option (List Module))
    (achievements : List Achievement) (currentProgress : Progress) (clock : Nat → Nat) :
    ∃ earned, checkAchievements learningPath achievements currentProgress clock =
        achievements ++ earned ∧
      earned.map Achievement.milestone = milestones.filter
        (unlocks (calculateProgressWithData learningPath currentProgress) achievements) := by
  obtain ⟨earned, h1, h2⟩ := milestoneLoop_fst
    (calculateProgressWithData learningPath currentProgress) achievements clock milestones
    (achievements, 0)
  refine ⟨earned, ?_, h2⟩
  unfold checkAchievements newAchievements
  simp only [h1]
  split_ifs with hlen
  · rfl
  · have : earned = [] := by
      simp only [List.length_append] at hlen
      exact List.length_eq_zero.1 (by omega)
    simp [this]

/-- A milestone unlocks exactly when the percentage reaches its threshold and no
achievement of the list has its id. -/
theorem unlocks_iff (a : Nat) (achievements : List Achievement) (milestone : Milestone) :
    unlocks (JsNumber.ofNat a) achievements milestone = true ↔
      milestone.threshold ≤ a ∧ milestone.id ∉ achievements.map Achievement.id := by
  simp only [unlocks, JsNumber.ofNat, JsNumber.geNat, Bool.and_eq_true, decide_eq_true_eq,
    mul_one, Option.isNone_iff_eq_none, List.find?_eq_none, List.mem_map, not_exists, not_and,
    beq_iff_eq]

/-- C8: `checkAchievements` produces the existing list followed by exactly the catalog
milestones, in catalog order, whose threshold is at most the overall percentage `a` of
the given progress map and whose id is not in the existing list; the catalog is
first_step 1, quarter_way 25, halfway_hero 50, three_quarters 75, completion_champion
100; a percentage below 1 adds nothing. -/
theorem C8_checkAchievements_appends_reached (learningPath : Option (List Module))
    (achievements : List Achievement) (currentProgress : Progress) (clock : Nat → Nat) :
    ∃ a earned, calculateProgressWithData learningPath currentProgress = JsNumber.ofNat a ∧
      checkAchievements learningPath achievements currentProgress clock =
        achievements ++ earned ∧
      earned.map Achievement.milestone = milestones.filter (fun milestone =>
        decide (milestone.threshold ≤ a ∧
          milestone.id ∉ achievements.map Achievement.id)) ∧
      (a < 1 → checkAchievements learningPath achievements currentProgress clock =
        achievements) ∧
      milestones.map (fun milestone => (milestone.id, milestone.threshold)) =
        [("first_step", 1), ("quarter_way", 25), ("halfway_hero", 50),
          ("three_quarters", 75), ("completion_champion", 100)] := by
  obtain ⟨a, ha, _⟩ := calculateProgressWithData_le learningPath currentProgress
  obtain ⟨earned, h1, h2⟩ := checkAchievements_eq learningPath achievements currentProgress
    clock
  have hfilter : milestones.filter
      (unlocks (calculateProgressWithData learningPath currentProgress) achievements) =
      milestones.filter (fun milestone => decide (milestone.threshold ≤ a ∧
          milestone.id ∉ achievements.map Achievement.id)) := by
    apply List.filter_congr
    intro milestone _
    rw [ha]
    have := unlocks_iff a achievements milestone
    simp only [JsNumber.ofNat] at this
    by_cases hu : unlocks (JsNumber.fin a 1) achievements milestone = true
    · rw [hu]; exact (decide_eq_true (this.1 hu)).symm
    · have hn : ¬ (milestone.threshold ≤ a ∧ milestone.id ∉ achievements.map Achievement.id) :=
        fun h => hu (this.2 h)
      rw [Bool.not_eq_true] at hu
      rw [hu]; exact (decide_eq_false hn).symm
  refine ⟨a, earned, ha, h1, by rw [h2, hfilter], ?_, by decide⟩
  intro hlow
  have hnone : earned = [] := by
    have : earned.map Achievement.milestone = [] := by
      rw [h2, hfilter, List.filter_eq_nil_iff]
      intro milestone hm
      have hthr : 1 ≤ milestone.threshold := by
        revert milestone; decide
      simp only [decide_eq_true_eq, not_and]
      intro hle; omega
    exact List.map_eq_nil_iff.1 this
  rw [h1, hnone, List.append_nil]

/-- After `checkAchievements` no milestone unlocks any more for the same progress. -/
theorem unlocks_after_check (learningPath : Option (List Module))
    (achievements : List Achievement) (currentProgress : Progress) (clock : Nat → Nat)
    (milestone : Milestone) (hm : milestone ∈ milestones) :
    unlocks (calculateProgressWithData learningPath currentProgress)
      (checkAchievements learningPath achievements currentProgress clock) milestone = false := by
  obtain ⟨earned, h1, h2⟩ := checkAchievements_eq learningPath achievements currentProgress
    clock
  rw [h1]
  by_cases hu : unlocks (calculateProgressWithData learningPath currentProgress) achievements
      milestone = true
  · have hmem : milestone ∈ earned.map Achievement.milestone := by
      rw [h2]; exact List.mem_filter.2 ⟨hm, hu⟩
    obtain ⟨e, he, hem⟩ := List.mem_map.1 hmem
    have hid : e.id = milestone.id := by rw [← hem]; rfl
    have hsome : ((achievements ++ earned).find? (fun a => a.id == milestone.id)).isSome := by
      rw [List.find?_isSome]
      exact ⟨e, List.mem_append_right _ he, by simp [hid]⟩
    simp only [unlocks, Bool.and_eq_false_iff]
    right
    rw [Option.isNone_eq_false_iff]
    exact hsome
  · simp only [unlocks, Bool.and_eq_true, not_and, Bool.not_eq_true] at hu
    simp only [unlocks, Bool.and_eq_false_iff]
    by_cases hge : (calculateProgressWithData learningPath currentProgress).geNat
        milestone.threshold = true
    · right
      have hnone := hu hge
      have hsome : (achievements.find? (fun a => a.id == milestone.id)).isSome := by
        cases hf : achievements.find? (fun a => a.id == milestone.id) with
        | none => rw [hf] at hnone; simp at hnone
        | some x => rfl
      rw [List.find?_isSome] at hsome
      obtain ⟨x, hx, hxid⟩ := hsome
      rw [Option.isNone_eq_false_iff, List.find?_isSome]
      exact ⟨x, List.mem_append_left _ hx, hxid⟩
    · left
      simpa using hge

/-- C9: achievement evaluation is idempotent.  Evaluating the same progress map again on
the list that an evaluation produced, at any later clock, returns that list: nothing is
added and no entry, so no `earnedAt`, changes. -/
theorem C9_checkAchievements_idempotent (learningPath : Option (List Module))
    (achievements : List Achievement) (currentProgress : Progress)
    (clock laterClock : Nat → Nat) :
    checkAchievements learningPath
        (checkAchievements learningPath achievements currentProgress clock) currentProgress
        laterClock =
      checkAchievements learningPath achievements currentProgress clock := by
  obtain ⟨earned, h1, h2⟩ := checkAchievements_eq learningPath
    (checkAchievements learningPath achievements currentProgress clock) currentProgress
    laterClock
  have hnil : earned.map Achievement.milestone = [] := by
    rw [h2, List.filter_eq_nil_iff]
    intro milestone hm
    rw [unlocks_after_check learningPath achievements currentProgress clock milestone hm]
    simp
  rw [h1, List.map_eq_nil_iff.1 hnil, List.append_nil]

/-- The ids of the catalog are pairwise different. -/
theorem milestones_ids_nodup : (milestones.map Milestone.id).Nodup := by decide

/-- One evaluation keeps the ids of the list pairwise different. -/
theorem checkAchievements_nodup (learningPath : Option (List Module))
    (achievements : List Achievement) (currentProgress : Progress) (clock : Nat → Nat)
    (h : (achievements.map Achievement.id).Nodup) :
    ((checkAchievements learningPath achievements currentProgress clock).map
      Achievement.id).Nodup := by
  obtain ⟨earned, h1, h2⟩ := checkAchievements_eq learningPath achievements currentProgress
    clock
  have hids : earned.map Achievement.id =
      (milestones.filter (unlocks (calculateProgressWithData learningPath currentProgress)
        achievements)).map Milestone.id := by
    rw [← h2, List.map_map]
    rfl
  rw [h1, List.map_append, List.nodup_append]
  refine ⟨h, ?_, ?_⟩
  · rw [hids]
    exact milestones_ids_nodup.sublist ((List.filter_sublist _).map _)
  · intro id hold hnew
    rw [hids] at hnew
    obtain ⟨milestone, hm, hmid⟩ := List.mem_map.1 hnew
    have hun := (List.mem_filter.1 hm).2
    simp only [unlocks, Bool.and_eq_true, Option.isNone_iff_eq_none, List.find?_eq_none,
      beq_iff_eq] at hun
    obtain ⟨x, hx, hxid⟩ := List.mem_map.1 hold
    exact hun.2 x hx (by rw [hxid, hmid])

/-- A toggle leaves the achievements as they were or as `checkAchievements` leaves them. -/
theorem toggle_achievements (learningPath : Option (List Module)) (s : TrackerState)
    (doc : PathDoc) (moduleIndex topicIndex : Nat) (env : ToggleEnv) :
    (toggleStepCompletion learningPath s doc moduleIndex topicIndex env).state.achievements =
        s.achievements ∨
      (toggleStepCompletion learningPath s doc moduleIndex topicIndex env).state.achievements =
        checkAchievements learningPath s.achievements
          (toggledProgress s.progress moduleIndex topicIndex) (fun i => env.clock (i + 1)) := by
  unfold toggleStepCompletion
  by_cases hok : env.progressWriteOk = true
  · right
    simp only [hok, if_true]
    cases env.onProgressUpdate with
    | none => rfl
    | some callback => dsimp only; split_ifs <;> rfl
  · left
    simp [hok]

/-- A session keeps the achievements it started with at the front of the list and keeps
the ids pairwise different. -/
theorem runToggles_achievements (learningPath : Option (List Module)) (toggles : List Toggle)
    (current : TrackerState × PathDoc) :
    (∃ earned, (runToggles learningPath toggles current).1.achievements =
        current.1.achievements ++ earned) ∧
      ((current.1.achievements.map Achievement.id).Nodup →
        ((runToggles learningPath toggles current).1.achievements.map Achievement.id).Nodup) := by
  induction toggles generalizing current with
  | nil => exact ⟨⟨[], by simp [runToggles]⟩, fun h => h⟩
  | cons toggle rest ih =>
    unfold runToggles
    obtain ⟨⟨later, hlater⟩, hnodup⟩ := ih
      ((toggleStepCompletion learningPath current.1 current.2 toggle.moduleIndex
        toggle.topicIndex toggle.env).state,
       (toggleStepCompletion learningPath current.1 current.2 toggle.moduleIndex
        toggle.topicIndex toggle.env).doc)
    simp only [] at hlater hnodup ⊢
    rcases toggle_achievements learningPath current.1 current.2 toggle.moduleIndex
      toggle.topicIndex toggle.env with hsame | hchecked
    · rw [hsame] at hlater hnodup
      exact ⟨⟨later, hlater⟩, hnodup⟩
    · obtain ⟨earned, h1, _⟩ := checkAchievements_eq learningPath current.1.achievements
        (toggledProgress current.1.progress toggle.moduleIndex toggle.topicIndex)
        (fun i => toggle.env.clock (i + 1))
      refine ⟨⟨earned ++ later, ?_⟩, fun h => hnodup ?_⟩
      · rw [hlater, hchecked, h1, List.append_assoc]
      · rw [hchecked]
        exact checkAchievements_nodup _ _ _ _ h

/-- C10: achievements are a ratchet.  Through any sequence of toggles, checking or
un-checking, with writes that succeed or fail, the achievements list at the end is the
list at the start followed by newly earned entries: every achievement present before is
still present, the same record with the same id and `earnedAt`, whatever the overall
percentage has become; and when no id appeared twice at the start, none does at the
end. -/
theorem C10_achievements_ratchet (learningPath : Option (List Module))
    (toggles : List Toggle) (s : TrackerState) (doc : PathDoc) :
    (∃ earned, (runToggles learningPath toggles (s, doc)).1.achievements =
        s.achievements ++ earned) ∧
      (∀ a ∈ s.achievements, a ∈ (runToggles learningPath toggles (s, doc)).1.achievements) ∧
      ((s.achievements.map Achievement.id).Nodup →
        ((runToggles learningPath toggles (s, doc)).1.achievements.map
          Achievement.id).Nodup) := by
  obtain ⟨⟨earned, hearned⟩, hnodup⟩ := runToggles_achievements learningPath toggles (s, doc)
  refine ⟨⟨earned, hearned⟩, ?_, hnodup⟩
  intro a ha
  rw [hearned]
  exact List.mem_append_left _ ha

/-- C10 at a concrete input: on a path with one step, checking the step earns the five
milestones at 100 percent; un-checking it brings the percentage to 0 and the five stay,
with the `earnedAt` of the first toggle, each id once. -/
theorem C10_achievements_ratchet_witness :
    ((runToggles (some [oneTopic]) checkThenUncheck (freshState, freshDoc)).1.achievements.map
        (fun a => (a.id, a.earnedAt)) =
      [("first_step", 1001), ("quarter_way", 1002), ("halfway_hero", 1003),
        ("three_quarters", 1004), ("completion_champion", 1005)]) ∧
      calculateProgress (some [oneTopic])
        (runToggles (some [oneTopic]) checkThenUncheck (freshState, freshDoc)).1.progress =
          JsNumber.ofNat 0 ∧
      ((runToggles (some [oneTopic]) checkThenUncheck (freshState, freshDoc)).1.achievements.map
        Achievement.id).Nodup :=
  ⟨by decide, by decide,
    (C10_achievements_ratchet (some [oneTopic]) checkThenUncheck freshState freshDoc).2.2
      List.nodup_nil⟩

/-! ## Reaching 100 percent in one toggle -/

/-- After a successful write the achievements are those `checkAchievements` leaves for
`newProgress`, with the clock readings that follow the one of `lastUpdated`. -/
theorem toggle_achievements_of_write (learningPath : Option (List Module)) (s : TrackerState)
    (doc : PathDoc) (moduleIndex topicIndex : Nat) (env : ToggleEnv)
    (hok : env.progressWriteOk = true) :
    (toggleStepCompletion learningPath s doc moduleIndex topicIndex env).state.achievements =
      checkAchievements learningPath s.achievements
        (toggledProgress s.progress moduleIndex topicIndex) (fun i => env.clock (i + 1)) := by
  unfold toggleStepCompletion
  simp only [hok, if_true]
  cases env.onProgressUpdate with
  | none => rfl
  | some callback => dsimp only; split_ifs <;> rfl

/-- At 100 percent and with no achievement yet, `checkAchievements` leaves the five
milestones of the catalog, in order, the `i`-th with the `i`-th clock reading. -/
theorem checkAchievements_full (learningPath : Option (List Module))
    (currentProgress : Progress) (clock : Nat → Nat)
    (hfull : calculateProgressWithData learningPath currentProgress = JsNumber.ofNat 100) :
    checkAchievements learningPath [] currentProgress clock =
      List.zipWith Milestone.earn milestones [clock 0, clock 1, clock 2, clock 3, clock 4] := by
  unfold checkAchievements newAchievements
  rw [hfull]
  simp [milestoneLoop, milestones, unlocks, JsNumber.geNat, JsNumber.ofNat]

/-- C11 (as amended): when a toggle whose write succeeds brings the overall percentage to
100 on a path with no achievements yet, the evaluation appends all five catalog
milestones in one batch, in catalog order; each carries the clock reading taken when it
is pushed (the readings that follow the one of `lastUpdated`), so the five `earnedAt`
values are identical when the clock shows the same value at these five readings. -/
theorem C11_full_completion_unlocks_all (learningPath : Option (List Module))
    (s : TrackerState) (doc : PathDoc) (moduleIndex topicIndex : Nat) (env : ToggleEnv)
    (hok : env.progressWriteOk = true) (hnone : s.achievements = [])
    (hfull : calculateProgressWithData learningPath
      (toggledProgress s.progress moduleIndex topicIndex) = JsNumber.ofNat 100) :
    (toggleStepCompletion learningPath s doc moduleIndex topicIndex env).state.achievements =
        List.zipWith Milestone.earn milestones
          [env.clock 1, env.clock 2, env.clock 3, env.clock 4, env.clock 5] ∧
      (env.clock 2 = env.clock 1 ∧ env.clock 3 = env.clock 1 ∧ env.clock 4 = env.clock 1 ∧
          env.clock 5 = env.clock 1 →
        ∀ a ∈ (toggleStepCompletion learningPath s doc moduleIndex topicIndex
          env).state.achievements, a.earnedAt = env.clock 1) := by
  have hlist : (toggleStepCompletion learningPath s doc moduleIndex topicIndex
      env).state.achievements = List.zipWith Milestone.earn milestones
        [env.clock 1, env.clock 2, env.clock 3, env.clock 4, env.clock 5] := by
    rw [toggle_achievements_of_write learningPath s doc moduleIndex topicIndex env hok, hnone,
      checkAchievements_full learningPath _ _ hfull]
  refine ⟨hlist, ?_⟩
  rintro ⟨h2, h3, h4, h5⟩ a ha
  rw [hlist, h2, h3, h4, h5] at ha
  simp only [milestones, List.zipWith_cons_cons, List.zipWith_nil_right, List.mem_cons,
    List.mem_singleton, List.not_mem_nil, or_false] at ha
  rcases ha with h | h | h | h | h <;> rw [h] <;> rfl

/-- C11 at a concrete input: the only step of a path is checked while the clock stands
at 5000; the five milestones are earned, all at 5000. -/
theorem C11_full_completion_unlocks_all_witness :
    (clockStands 5000).progressWriteOk = true ∧ freshState.achievements = [] ∧
      calculateProgressWithData (some [oneTopic]) (toggledProgress freshState.progress 0 0) =
        JsNumber.ofNat 100 ∧
      (toggleStepCompletion (some [oneTopic]) freshState freshDoc 0 0
        (clockStands 5000)).state.achievements.map (fun a => (a.id, a.earnedAt)) =
        [("first_step", 5000), ("quarter_way", 5000), ("halfway_hero", 5000),
          ("three_quarters", 5000), ("completion_champion", 5000)] :=
  ⟨rfl, rfl, by decide, by
    rw [(C11_full_completion_unlocks_all (some [oneTopic]) freshState freshDoc 0 0
      (clockStands 5000) rfl rfl (by decide)).1]
    rfl⟩

/-- C11 as stated fails: the same toggle while the clock moves on by one millisecond
during the loop brings the percentage to 100 and earns the five milestones in one batch,
two of them at 1000 and three at 1001. -/
theorem C11_identical_earnedAt_counterexample :
    calculateProgressWithData (some [oneTopic]) (toggledProgress freshState.progress 0 0) =
        JsNumber.ofNat 100 ∧
      (toggleStepCompletion (some [oneTopic]) freshState freshDoc 0 0
        (clockTicksOnce 1000)).state.achievements.map (fun a => (a.id, a.earnedAt)) =
        [("first_step", 1000), ("quarter_way", 1000), ("halfway_hero", 1001),
          ("three_quarters", 1001), ("completion_champion", 1001)] ∧
      ¬ ∀ a ∈ (toggleStepCompletion (some [oneTopic]) freshState freshDoc 0 0
          (clockTicksOnce 1000)).state.achievements,
        ∀ b ∈ (toggleStepCompletion (some [oneTopic]) freshState freshDoc 0 0
          (clockTicksOnce 1000)).state.achievements, a.earnedAt = b.earnedAt := by
  decide

/-! ## The unrounded percentage of the analytics -/

/-- A positive fraction rounds to a positive double. -/
theorem roundToDouble_pos (n d : Nat) (hn : 0 < n) (hd : 0 < d) :
    0 < (roundToDouble n d).1 := by
  obtain ⟨lo, hi⟩ := scale_normal n d hn hd
  have hK : 0 < 2 ^ scaleDown n n d := by positivity
  have hm := (roundHalfEven_normal _ _ (Nat.mul_pos hd hK) lo hi).1
  simp only [roundToDouble, if_neg (Nat.pos_iff_ne_zero.1 hn)]
  have h52 : 0 < 2 ^ 52 := by positivity
  exact Nat.mul_pos (by omega) hK

/-- Equal fractions round to the same double. -/
theorem roundToDouble_congr (n₁ d₁ n₂ d₂ : Nat) (hd₁ : 0 < d₁) (hd₂ : 0 < d₂)
    (h : n₁ * d₂ = n₂ * d₁) :
    (roundToDouble n₁ d₁).1 * (roundToDouble n₂ d₂).2 =
      (roundToDouble n₂ d₂).1 * (roundToDouble n₁ d₁).2 :=
  le_antisymm (roundToDouble_mono n₁ d₁ n₂ d₂ hd₁ hd₂ h.le)
    (roundToDouble_mono n₂ d₂ n₁ d₁ hd₂ hd₁ h.ge)

/-- The value `pathProgress` for a path with steps: the double `(c / t) * 100`. -/
theorem pathProgress_eq (c t : Nat) (ht : 0 < t) :
    pathProgress c t =
      JsNumber.fin (roundToDouble ((roundToDouble c t).1 * 100) (roundToDouble c t).2).1
        (roundToDouble ((roundToDouble c t).1 * 100) (roundToDouble c t).2).2 := by
  have h : t ≠ 0 := by omega
  simp [pathProgress, JsNumber.divNat, JsNumber.mulNat, ht, h]

/-- A path with all of its steps completed has `pathProgress === 100`. -/
theorem pathProgress_full (t : Nat) (ht : 0 < t) : (pathProgress t t).eqNat 100 = true := by
  rw [pathProgress_eq t t ht]
  have one : roundToDouble 1 1 = (2 ^ 52, 2 ^ 52) := by decide
  have hundred : roundToDouble 100 1 = (100 * 2 ^ 46, 2 ^ 46) := by decide
  have q := roundToDouble_congr t t 1 1 ht Nat.one_pos (by ring)
  rw [one] at q
  have hq := roundToDouble_den_pos t t
  generalize roundToDouble t t = x at q hq ⊢
  have q1 : x.1 = x.2 := by
    simp only [] at q
    rw [Nat.mul_comm (2 ^ 52)] at q
    exact Nat.eq_of_mul_eq_mul_right (by positivity) q
  have r := roundToDouble_congr (x.1 * 100) x.2 100 1 hq Nat.one_pos (by rw [q1]; ring)
  rw [hundred] at r
  generalize roundToDouble (x.1 * 100) x.2 = y at r ⊢
  simp only [JsNumber.eqNat, decide_eq_true_eq]
  simp only [] at r
  have : y.1 * 2 ^ 46 = 100 * y.2 * 2 ^ 46 := by rw [r]; ring
  exact Nat.eq_of_mul_eq_mul_right (by positivity) this

/-- A path of at most `2 ^ 53` steps with a step left has a `pathProgress` below 100. -/
theorem pathProgress_lt (c t : Nat) (hc : c < t) (hsmall : t ≤ 2 ^ 53) :
    (pathProgress c t).eqNat 100 = false ∧ (pathProgress c t).geNat 100 = false := by
  have ht : 0 < t := by omega
  rw [pathProgress_eq c t ht]
  have below : roundToDouble (2 ^ 53 - 1) (2 ^ 53) = (2 ^ 53 - 1, 2 ^ 53) := by decide
  have product : roundToDouble ((2 ^ 53 - 1) * 100) (2 ^ 53) = (7036874417766399, 2 ^ 46) := by
    decide
  have hfrac : c * 2 ^ 53 ≤ (2 ^ 53 - 1) * t := by
    have h1 : c + 1 ≤ t := hc
    have h2 : (c + 1) * 2 ^ 53 ≤ t * 2 ^ 53 := Nat.mul_le_mul_right _ h1
    have h3 : (2 ^ 53 - 1) * t + t = t * 2 ^ 53 := by
      have : (2 ^ 53 - 1 + 1) * t = t * 2 ^ 53 := by norm_num; ring
      rw [← this]; ring
    have h4 : (c + 1) * 2 ^ 53 = c * 2 ^ 53 + 2 ^ 53 := by ring
    omega
  have q := roundToDouble_mono c t (2 ^ 53 - 1) (2 ^ 53) ht (by positivity) hfrac
  rw [below] at q
  have hq := roundToDouble_den_pos c t
  generalize roundToDouble c t = x at q hq ⊢
  simp only [] at q
  have r := roundToDouble_mono (x.1 * 100) x.2 ((2 ^ 53 - 1) * 100) (2 ^ 53) hq (by positivity)
    (by nlinarith)
  rw [product] at r
  have hy := roundToDouble_den_pos (x.1 * 100) x.2
  generalize roundToDouble (x.1 * 100) x.2 = y at r hy ⊢
  simp only [] at r
  have hlt : y.1 < 100 * y.2 := by
    by_contra hcon
    push_neg at hcon
    have : 100 * y.2 * 2 ^ 46 ≤ y.1 * 2 ^ 46 := Nat.mul_le_mul_right _ hcon
    have e : 100 * y.2 * 2 ^ 46 = 7036874417766400 * y.2 := by norm_num; ring
    omega
  simp only [JsNumber.eqNat, JsNumber.geNat, decide_eq_false_iff_not]
  constructor <;> omega

/-- The value `pathProgress` is positive exactly when a step is completed. -/
theorem pathProgress_gtNat (c t : Nat) (ht : 0 < t) :
    (pathProgress c t).gtNat 0 = decide (0 < c) := by
  rw [pathProgress_eq c t ht]
  by_cases hc : c = 0
  · subst hc
    simp [roundToDouble, JsNumber.gtNat]
  · have hcp : 0 < c := Nat.pos_of_ne_zero hc
    have h1 := roundToDouble_pos c t hcp ht
    have h2 := roundToDouble_pos ((roundToDouble c t).1 * 100) (roundToDouble c t).2
      (by omega) (roundToDouble_den_pos c t)
    simp [JsNumber.gtNat, h2, hcp]

/-! ## The counters of the analytics: lemmas -/

/-- The inner loop of `SavedPaths` counts the subtopics and the completed ones. -/
theorem savedSubTopicsLoop_eq (progress : Option Progress) (moduleIndex : Nat)
    (topics : List String) (topicIndex : Nat) (counters : Nat × Nat) :
    savedSubTopicsLoop progress moduleIndex topics topicIndex counters =
      (counters.1 + topics.length,
        counters.2 + (List.range' topicIndex topics.length).countP
          (fun j => recordStepDone progress moduleIndex j)) := by
  induction topics generalizing topicIndex counters with
  | nil => simp [savedSubTopicsLoop]
  | cons topic rest ih =>
    rw [savedSubTopicsLoop, ih]
    simp only [List.length_cons, List.range'_succ, List.countP_cons]
    split_ifs <;> simp <;> omega

/-- The outer loop of `SavedPaths` counts the steps and the completed ones. -/
theorem savedModulesLoop_eq (progress : Option Progress) (modules : List Module)
    (moduleIndex : Nat) (counters : Nat × Nat) :
    savedModulesLoop progress modules moduleIndex counters =
      (counters.1 + totalSubtopics modules,
        counters.2 + (stepsFrom modules moduleIndex).countP
          (fun step => recordStepDone progress step.1 step.2)) := by
  induction modules generalizing moduleIndex counters with
  | nil => simp [savedModulesLoop, totalSubtopics, stepsFrom]
  | cons module rest ih =>
    rw [savedModulesLoop, ih, savedSubTopicsLoop_eq]
    simp only [totalSubtopics, stepsFrom, List.map_cons, List.sum_cons, List.countP_append,
      List.range_eq_range', List.countP_map]
    ext <;> simp [Function.comp_def] <;> omega

/-- No more steps of a path are completed than it has. -/
theorem pathCompleted_le (path : PathRecord) : pathCompleted path ≤ pathTotal path := by
  unfold pathCompleted pathTotal
  cases path.path with
  | none => exact le_rfl
  | some modules =>
    simp only []
    rw [← length_stepsFrom modules 0]
    exact List.countP_le_length _

/-- The percentage of `SavedPaths` in terms of the steps of the record. -/
theorem SavedPaths.calculateProgress_eq (path : PathRecord) :
    SavedPaths.calculateProgress path =
      if 0 < pathTotal path then roundedPercent (pathCompleted path) (pathTotal path)
      else JsNumber.ofNat 0 := by
  unfold SavedPaths.calculateProgress pathTotal pathCompleted
  cases path.path with
  | none => rfl
  | some modules =>
    simp only [savedModulesLoop_eq, validSteps, Nat.zero_add, gt_iff_lt]

/-- One round of the loop over `paths`: the step counters grow by the steps of the path,
`completedPaths` by one when `pathProgress === 100`, `inProgressPaths` by one when it is
not but `pathProgress > 0`. -/
theorem analyticsPathStep_eq (acc : Counters) (path : PathRecord) :
    (analyticsPathStep acc path).totalSteps = acc.totalSteps + pathTotal path ∧
      (analyticsPathStep acc path).completedSteps = acc.completedSteps + pathCompleted path ∧
      (analyticsPathStep acc path).completedPaths = acc.completedPaths +
        (if (pathProgress (pathCompleted path) (pathTotal path)).eqNat 100 then 1 else 0) ∧
      (analyticsPathStep acc path).inProgressPaths = acc.inProgressPaths +
        (if (pathProgress (pathCompleted path) (pathTotal path)).eqNat 100 then 0
          else if (pathProgress (pathCompleted path) (pathTotal path)).gtNat 0 then 1
          else 0) := by
  unfold analyticsPathStep pathTotal pathCompleted
  cases path.path with
  | none => simp [pathProgress, JsNumber.ofNat, JsNumber.eqNat, JsNumber.gtNat]
  | some modules =>
    simp only [analyticsModulesLoop_eq, validSteps, Nat.zero_add]
    split_ifs <;> simp_all

/-- The counters after the loop over `paths`, started from any values. -/
theorem foldl_analyticsPathStep (paths : List PathRecord) (acc : Counters) :
    (paths.foldl analyticsPathStep acc).totalSteps =
        acc.totalSteps + (paths.map pathTotal).sum ∧
      (paths.foldl analyticsPathStep acc).completedSteps =
        acc.completedSteps + (paths.map pathCompleted).sum ∧
      (paths.foldl analyticsPathStep acc).completedPaths =
        acc.completedPaths + paths.countP
          (fun path => (pathProgress (pathCompleted path) (pathTotal path)).eqNat 100) ∧
      (paths.foldl analyticsPathStep acc).inProgressPaths =
        acc.inProgressPaths + paths.countP
          (fun path => !(pathProgress (pathCompleted path) (pathTotal path)).eqNat 100 &&
            (pathProgress (pathCompleted path) (pathTotal path)).gtNat 0) := by
  induction paths generalizing acc with
  | nil => simp
  | cons path rest ih =>
    obtain ⟨h1, h2, h3, h4⟩ := analyticsPathStep_eq acc path
    obtain ⟨i1, i2, i3, i4⟩ := ih (analyticsPathStep acc path)
    simp only [List.foldl_cons, List.map_cons, List.sum_cons, List.countP_cons]
    refine ⟨by omega, by omega, ?_, ?_⟩
    · rw [i3, h3]
      split_ifs <;> simp_all
      omega
    · rw [i4, h4]
      split_ifs <;> simp_all
      omega
/-- The step counters of the analytics are the sums over the paths. -/
theorem analyticsCounters_steps (paths : List PathRecord) :
    (analyticsCounters paths).totalSteps = (paths.map pathTotal).sum ∧
      (analyticsCounters paths).completedSteps = (paths.map pathCompleted).sum := by
  obtain ⟨h1, h2, _, _⟩ := foldl_analyticsPathStep paths ⟨0, 0, 0, 0, 0, []⟩
  exact ⟨by simpa [analyticsCounters] using h1, by simpa [analyticsCounters] using h2⟩

/-- With all steps completed the rounded percentage is 100. -/
theorem roundedPercent_full (t : Nat) (ht : 0 < t) : roundedPercent t t = JsNumber.ofNat 100 := by
  have h := pathProgress_full t ht
  rw [pathProgress_eq t t ht] at h
  rw [roundedPercent_eq t t ht]
  have hy := roundToDouble_den_pos ((roundToDouble t t).1 * 100) (roundToDouble t t).2
  generalize roundToDouble ((roundToDouble t t).1 * 100) (roundToDouble t t).2 = y at h hy ⊢
  simp only [JsNumber.eqNat, decide_eq_true_eq] at h
  have : (2 * y.1 + y.2) / (2 * y.2) = 100 := by
    apply Nat.div_eq_of_lt_le <;> omega
  rw [this]; rfl

/-- With no step completed the rounded percentage is 0. -/
theorem roundedPercent_zero (t : Nat) (ht : 0 < t) : roundedPercent 0 t = JsNumber.ofNat 0 := by
  rw [roundedPercent_eq 0 t ht]
  simp [roundToDouble, JsNumber.ofNat]

/-- With some but not all of fewer than 200 steps completed the rounded percentage lies
between 1 and 99. -/
theorem roundedPercent_partial (c t : Nat) (hc : 0 < c) (hct : c < t) (ht : t < 200) :
    ∃ a, roundedPercent c t = JsNumber.ofNat a ∧ 1 ≤ a ∧ a ≤ 99 := by
  obtain ⟨hexact, hnear⟩ := roundedPercent_accurate c t (by omega) hct.le
    (by have : (200 : Nat) ≤ 2 ^ 44 := by norm_num
        omega)
  have hdm := Nat.div_add_mod (200 * c + t) (2 * t)
  have hml := Nat.mod_lt (200 * c + t) (show 0 < 2 * t by omega)
  have hlow : 1 ≤ exactPercent c t := by
    unfold exactPercent
    rw [Nat.le_div_iff_mul_le (by omega)]
    omega
  have hhigh : exactPercent c t ≤ 99 := by
    have : exactPercent c t < 100 := by
      unfold exactPercent
      rw [Nat.div_lt_iff_lt_mul (by omega)]
      omega
    omega
  unfold exactPercent at hexact hnear hlow hhigh
  generalize (200 * c + t) / (2 * t) = R at *
  by_cases hrest : (200 * c + t) % (2 * t) = 0
  · have hR : 2 ≤ R := by
      by_contra hcon
      have hR1 : R = 1 := by omega
      subst hR1
      omega
    rcases hnear with h | h
    · exact ⟨R, h, by omega, hhigh⟩
    · exact ⟨R - 1, h, by omega, by omega⟩
  · exact ⟨R, hexact hrest, hlow, hhigh⟩

/-- Two tests of which the second excludes the first pass for no more elements than the
list has. -/
theorem countP_add_countP_le (paths : List PathRecord) (p q : PathRecord → Bool) :
    paths.countP p + paths.countP (fun path => !p path && q path) ≤ paths.length := by
  induction paths with
  | nil => simp
  | cons path rest ih =>
    simp only [List.countP_cons, List.length_cons]
    cases p path <;> cases q path <;> simp <;> omega

/-- A path is counted as completed or as in progress at most once, so the number shown
as "Not Started" is never cut off at zero. -/
theorem completed_add_inProgress_le (paths : List PathRecord) :
    (analyticsCounters paths).completedPaths + (analyticsCounters paths).inProgressPaths ≤
      totalPaths paths := by
  obtain ⟨_, _, h3, h4⟩ := foldl_analyticsPathStep paths ⟨0, 0, 0, 0, 0, []⟩
  simp only [Nat.zero_add] at h3 h4
  rw [analyticsCounters, h3, h4, totalPaths]
  exact countP_add_countP_le paths _ _

/-! ## Completed, in progress, not started -/

/-- For a path of at most `2 ^ 53` steps, `pathProgress === 100` holds exactly when the
path has steps and all are completed. -/
theorem eqNat_pathProgress (path : PathRecord) (hsize : pathTotal path ≤ 2 ^ 53) :
    (pathProgress (pathCompleted path) (pathTotal path)).eqNat 100 = fullyCompleted path := by
  have hle := pathCompleted_le path
  unfold fullyCompleted
  by_cases hT : 0 < pathTotal path
  · by_cases hall : pathCompleted path = pathTotal path
    · rw [hall, pathProgress_full _ hT]
      simp [hT]
    · rw [(pathProgress_lt _ _ (by omega) hsize).1]
      simp [hall]
  · have h0 : pathTotal path = 0 := by omega
    simp [h0, pathProgress, JsNumber.ofNat, JsNumber.eqNat]

/-- The value `pathProgress` is positive and not 100 exactly when some but not all
steps are completed. -/
theorem gtNat_pathProgress (path : PathRecord) (hsize : pathTotal path ≤ 2 ^ 53) :
    (!(pathProgress (pathCompleted path) (pathTotal path)).eqNat 100 &&
      (pathProgress (pathCompleted path) (pathTotal path)).gtNat 0) = partlyCompleted path := by
  have hle := pathCompleted_le path
  rw [eqNat_pathProgress path hsize]
  unfold fullyCompleted partlyCompleted
  by_cases hT : 0 < pathTotal path
  · rw [pathProgress_gtNat _ _ hT]
    by_cases hall : pathCompleted path = pathTotal path
    · simp [hall, hT]
    · by_cases hpos : 0 < pathCompleted path
      · have : pathCompleted path < pathTotal path := by omega
        simp [hall, hpos, this]
      · simp [hall, hpos]
  · have h0 : pathTotal path = 0 := by omega
    have hc : pathCompleted path = 0 := by omega
    simp [h0, hc, pathProgress, JsNumber.ofNat, JsNumber.gtNat]

/-- For a path with fewer than 200 steps the percentage of `SavedPaths` is 100 exactly
when all steps are completed, strictly between 0 and 100 exactly when some but not all
are, and 0 exactly when none is. -/
theorem shown_eq (path : PathRecord) (hsize : pathTotal path < 200) :
    shownCompleted path = fullyCompleted path ∧ shownInProgress path = partlyCompleted path ∧
      shownNotStarted path = untouched path := by
  have hle := pathCompleted_le path
  unfold shownCompleted shownInProgress shownNotStarted fullyCompleted partlyCompleted untouched
  rw [SavedPaths.calculateProgress_eq]
  by_cases hT : 0 < pathTotal path
  · rw [if_pos hT]
    by_cases hall : pathCompleted path = pathTotal path
    · rw [hall, roundedPercent_full _ hT]
      have hne : pathTotal path ≠ 0 := by omega
      simp [JsNumber.ofNat, JsNumber.eqNat, JsNumber.gtNat, JsNumber.geNat, hT, hne]
    · by_cases hpos : 0 < pathCompleted path
      · obtain ⟨a, ha, h1, h99⟩ := roundedPercent_partial _ _ hpos (by omega) hsize
        have hlt : pathCompleted path < pathTotal path := by omega
        have hne : pathCompleted path ≠ 0 := by omega
        rw [ha]
        simp only [JsNumber.ofNat, JsNumber.eqNat, JsNumber.gtNat, JsNumber.geNat]
        simp [hall, hpos, hlt, hne]
        omega
      · have hc : pathCompleted path = 0 := by omega
        have hne : pathTotal path ≠ 0 := by omega
        rw [hc, roundedPercent_zero _ hT]
        simp [JsNumber.ofNat, JsNumber.eqNat, JsNumber.gtNat, JsNumber.geNat, hT, hne.symm]
  · have h0 : pathTotal path = 0 := by omega
    have hc : pathCompleted path = 0 := by omega
    simp [h0, hc, JsNumber.ofNat, JsNumber.eqNat, JsNumber.gtNat, JsNumber.geNat]

/-- Every path is fully completed, partly completed or untouched, and only one of these. -/
theorem length_eq_countP_status (paths : List PathRecord) :
    paths.length = paths.countP fullyCompleted + paths.countP partlyCompleted +
      paths.countP untouched := by
  induction paths with
  | nil => rfl
  | cons path rest ih =>
    have hle := pathCompleted_le path
    simp only [List.length_cons, List.countP_cons, fullyCompleted, partlyCompleted, untouched,
      decide_eq_true_eq] at ih ⊢
    split_ifs <;> omega

/-- The values `completedPaths` and `inProgressPaths` of a snapshot whose paths have at
most `2 ^ 53` steps: the numbers of fully and of partly completed paths. -/
theorem analyticsCounters_status (paths : List PathRecord)
    (hsize : ∀ path ∈ paths, pathTotal path ≤ 2 ^ 53) :
    (analyticsCounters paths).completedPaths = paths.countP fullyCompleted ∧
      (analyticsCounters paths).inProgressPaths = paths.countP partlyCompleted := by
  obtain ⟨_, _, h3, h4⟩ := foldl_analyticsPathStep paths ⟨0, 0, 0, 0, 0, []⟩
  simp only [Nat.zero_add] at h3 h4
  constructor
  · rw [analyticsCounters, h3]
    exact List.countP_congr (fun path hp => by rw [eqNat_pathProgress path (hsize path hp)])
  · rw [analyticsCounters, h4]
    exact List.countP_congr (fun path hp => by rw [gtNat_pathProgress path (hsize path hp)])

/-- C12: what `calculateAnalytics` counts.  It compares the percentage before rounding
with 100, so `completedPaths` is the number of paths that have at least one step and all
steps completed (paths of at most `2 ^ 44` steps).  This is the number of paths whose
rounded percentage, as `SavedPaths.calculateProgress` shows it, is 100 only as long as
every path has fewer than 200 subtopics. -/
theorem C12_completedPaths_counts_fully_completed (paths : List PathRecord)
    (hsize : ∀ path ∈ paths, pathTotal path ≤ 2 ^ 44) :
    (analyticsCounters paths).completedPaths = paths.countP fullyCompleted ∧
      ((∀ path ∈ paths, pathTotal path < 200) →
        (analyticsCounters paths).completedPaths = paths.countP shownCompleted) := by
  have h53 : ∀ path ∈ paths, pathTotal path ≤ 2 ^ 53 := fun path hp =>
    le_trans (hsize path hp) (by norm_num)
  have hfull := (analyticsCounters_status paths h53).1
  refine ⟨hfull, fun hsmall => ?_⟩
  rw [hfull]
  exact List.countP_congr (fun path hp => by rw [(shown_eq path (hsmall path hp)).1])

set_option maxRecDepth 100000 in
/-- C12 at a concrete input: a completed one-step path, an untouched nine-step path and
a path with 23 of 40 steps give `completedPaths = 1`, which is also the number of paths
shown at 100 percent. -/
theorem C12_completedPaths_counts_fully_completed_witness :
    (∀ path ∈ [oneStepDone, nineUntouched, fortyWith23], pathTotal path ≤ 2 ^ 44) ∧
      (analyticsCounters [oneStepDone, nineUntouched, fortyWith23]).completedPaths = 1 ∧
      [oneStepDone, nineUntouched, fortyWith23].countP fullyCompleted = 1 ∧
      [oneStepDone, nineUntouched, fortyWith23].countP shownCompleted = 1 :=
  have h := C12_completedPaths_counts_fully_completed [oneStepDone, nineUntouched, fortyWith23]
    (by decide)
  ⟨by decide, by rw [h.1]; decide, by decide, by decide⟩

set_option maxRecDepth 100000 in
/-- C12, failing input: for a snapshot of one path with 199 of 200 steps completed,
`SavedPaths.calculateProgress` gives 100 (99.5 rounded) and the list of saved paths shows
the path as completed, so one path has `overallPercentage` 100, and `completedPaths` is
0. -/
theorem C12_rounded_hundred_counterexample :
    SavedPaths.calculateProgress nearlyDone = JsNumber.ofNat 100 ∧
      [nearlyDone].countP shownCompleted = 1 ∧
      (analyticsCounters [nearlyDone]).completedPaths = 0 := by
  decide

/-- C13: what `calculateAnalytics` counts.  It tests the percentage before rounding, so
`inProgressPaths` is the number of paths with some but not all steps completed, and
`totalPaths - completedPaths - inProgressPaths` the number of paths with no step
completed (paths of at most `2 ^ 44` steps).  These are the numbers of paths whose rounded
percentage is strictly between 0 and 100, and is 0, only as long as every path has fewer
than 200 subtopics. -/
theorem C13_inProgressPaths_counts_partly_completed (paths : List PathRecord)
    (hsize : ∀ path ∈ paths, pathTotal path ≤ 2 ^ 44) :
    (analyticsCounters paths).inProgressPaths = paths.countP partlyCompleted ∧
      notStarted paths = paths.countP untouched ∧
      ((∀ path ∈ paths, pathTotal path < 200) →
        (analyticsCounters paths).inProgressPaths = paths.countP shownInProgress ∧
          notStarted paths = paths.countP shownNotStarted) := by
  have h53 : ∀ path ∈ paths, pathTotal path ≤ 2 ^ 53 := fun path hp =>
    le_trans (hsize path hp) (by norm_num)
  obtain ⟨hfull, hpart⟩ := analyticsCounters_status paths h53
  have hnot : notStarted paths = paths.countP untouched := by
    have hlen := length_eq_countP_status paths
    unfold notStarted totalPaths
    rw [hfull, hpart]
    omega
  refine ⟨hpart, hnot, fun hsmall => ⟨?_, ?_⟩⟩
  · rw [hpart]
    exact List.countP_congr (fun path hp => by rw [(shown_eq path (hsmall path hp)).2.1])
  · rw [hnot]
    exact List.countP_congr (fun path hp => by rw [(shown_eq path (hsmall path hp)).2.2])

set_option maxRecDepth 100000 in
/-- C13 at a concrete input: of a completed one-step path, an untouched nine-step path
and a path with 23 of 40 steps, one is in progress and one is not started. -/
theorem C13_inProgressPaths_counts_partly_completed_witness :
    (∀ path ∈ [oneStepDone, nineUntouched, fortyWith23], pathTotal path ≤ 2 ^ 44) ∧
      (analyticsCounters [oneStepDone, nineUntouched, fortyWith23]).inProgressPaths = 1 ∧
      notStarted [oneStepDone, nineUntouched, fortyWith23] = 1 ∧
      [oneStepDone, nineUntouched, fortyWith23].countP shownInProgress = 1 ∧
      [oneStepDone, nineUntouched, fortyWith23].countP shownNotStarted = 1 :=
  have h := C13_inProgressPaths_counts_partly_completed
    [oneStepDone, nineUntouched, fortyWith23] (by decide)
  ⟨by decide, by rw [h.1]; decide, by rw [h.2.1]; decide, by decide, by decide⟩

set_option maxRecDepth 100000 in
/-- C13, failing inputs: for a snapshot of one path with 1 of 201 steps completed,
`SavedPaths.calculateProgress` gives 0 (0.4975 rounded) and the list of saved paths shows
the path as not started, so no path has a percentage strictly between 0 and 100 and one
has 0, while `inProgressPaths` is 1 and the "Not Started" number is 0.  For a snapshot of
one path with 199 of 200 steps completed the rounded percentage is 100, so again no path
has a percentage strictly between 0 and 100, and `inProgressPaths` is 1. -/
theorem C13_rounded_zero_counterexample :
    SavedPaths.calculateProgress barelyStarted = JsNumber.ofNat 0 ∧
      [barelyStarted].countP shownInProgress = 0 ∧
      (analyticsCounters [barelyStarted]).inProgressPaths = 1 ∧
      [barelyStarted].countP shownNotStarted = 1 ∧
      notStarted [barelyStarted] = 0 ∧
      SavedPaths.calculateProgress nearlyDone = JsNumber.ofNat 100 ∧
      [nearlyDone].countP shownInProgress = 0 ∧
      (analyticsCounters [nearlyDone]).inProgressPaths = 1 := by
  decide

set_option maxRecDepth 100000 in
/-- C14: `averageProgress` is not always `round(100 * completedSteps / totalSteps)`.  For
a snapshot of one path with 23 of 40 steps completed, `totalSteps = 40`,
`completedSteps = 23` and `round(100 * 23 / 40)` is 58, while `averageProgress` is 57.
The rest of the claim holds in the example of the specification: a completed one-step
path and an untouched nine-step path give 1 of 10 steps and `averageProgress = 10`,
with path percentages 100 and 0, whose mean is 50. -/
theorem C14_averageProgress_23_of_40 :
    (analyticsCounters [fortyWith23]).totalSteps = 40 ∧
      (analyticsCounters [fortyWith23]).completedSteps = 23 ∧
      exactPercent 23 40 = 58 ∧
      averageProgress [fortyWith23] = JsNumber.ofNat 57 ∧
      (analyticsCounters [oneStepDone, nineUntouched]).totalSteps = 10 ∧
      (analyticsCounters [oneStepDone, nineUntouched]).completedSteps = 1 ∧
      averageProgress [oneStepDone, nineUntouched] = JsNumber.ofNat 10 ∧
      SavedPaths.calculateProgress oneStepDone = JsNumber.ofNat 100 ∧
      SavedPaths.calculateProgress nineUntouched = JsNumber.ofNat 0 ∧
      averageProgress [] = JsNumber.ofNat 0 := by
  decide

/-! ## The recent activity: lemmas -/

/-- The test `daysSinceUpdate <= 7` passes exactly for updates less than eight days
before the clock reading, updates after the reading included. -/
theorem daysSinceUpdate_le_seven (now lastUpdate : Nat) :
    daysSinceUpdate now lastUpdate ≤ 7 ↔ now < lastUpdate + 8 * msPerDay := by
  unfold daysSinceUpdate
  by_cases hle : lastUpdate ≤ now
  · rw [if_pos hle]
    have hD : 0 < msPerDay := by decide
    have eight : roundToDouble 8 1 = (2 ^ 52, 2 ^ 49) := by decide
    have below : roundToDouble (8 * msPerDay - 1) msPerDay =
        (9007199241709743, 1125899906842624) := by decide
    have hq := roundToDouble_den_pos (now - lastUpdate) msPerDay
    constructor
    · intro h
      by_contra hcon
      have hge : 8 * msPerDay ≤ now - lastUpdate := by omega
      have m := roundToDouble_mono 8 1 (now - lastUpdate) msPerDay Nat.one_pos hD (by omega)
      rw [eight] at m
      generalize roundToDouble (now - lastUpdate) msPerDay = q at h hq m
      simp only [] at m
      have h8 : 8 * q.2 ≤ q.1 := by
        have e : (2 : Nat) ^ 52 * q.2 = 8 * q.2 * 2 ^ 49 := by norm_num; ring
        rw [e] at m
        exact Nat.le_of_mul_le_mul_right m (by positivity)
      have : 8 ≤ q.1 / q.2 := (Nat.le_div_iff_mul_le hq).2 h8
      omega
    · intro h
      have hlt : now - lastUpdate ≤ 8 * msPerDay - 1 := by omega
      have m := roundToDouble_mono (now - lastUpdate) msPerDay (8 * msPerDay - 1) msPerDay hD hD
        (Nat.mul_le_mul_right _ hlt)
      rw [below] at m
      generalize roundToDouble (now - lastUpdate) msPerDay = q at hq m ⊢
      simp only [] at m
      have : q.1 / q.2 < 8 := by
        rw [Nat.div_lt_iff_lt_mul hq]
        omega
      omega
  · rw [if_neg hle]
    constructor
    · intro _; omega
    · intro _
      have : (0 : Int) ≤ (((roundToDouble (lastUpdate - now) msPerDay).1 +
          (roundToDouble (lastUpdate - now) msPerDay).2 - 1) /
        (roundToDouble (lastUpdate - now) msPerDay).2 : Nat) := Int.natCast_nonneg _
      omega

/-- The loop appends to `recentActivity` the entries of the paths updated less than
eight days before their clock reading. -/
theorem activityLoop_eq (nowAt : Nat → Nat) (paths : List PathRecord) (index : Nat)
    (pushed : List Activity) :
    activityLoop nowAt paths index pushed = pushed ++ recentEntries nowAt paths index := by
  induction paths generalizing index pushed with
  | nil => simp [activityLoop, recentEntries]
  | cons path rest ih =>
    unfold activityLoop recentEntries
    cases path.lastUpdated with
    | none => exact ih _ _
    | some lastUpdate =>
      simp only [daysSinceUpdate_le_seven]
      split_ifs
      · rw [ih]; simp
      · exact ih _ _

/-- Inserting an entry keeps the entries. -/
theorem insertByDate_perm (entry : Activity) (entries : List Activity) :
    (insertByDate entry entries).Perm (entry :: entries) := by
  induction entries with
  | nil => exact List.Perm.refl _
  | cons first rest ih =>
    unfold insertByDate
    split_ifs
    · exact List.Perm.refl _
    · exact (List.Perm.cons first ih).trans (List.Perm.swap entry first rest)

/-- Sorting keeps the entries. -/
theorem sortByDate_perm (entries : List Activity) : (sortByDate entries).Perm entries := by
  induction entries with
  | nil => exact List.Perm.refl _
  | cons entry rest ih =>
    exact (insertByDate_perm entry (sortByDate rest)).trans (List.Perm.cons entry ih)

/-- Inserting into a list that is latest first leaves it latest first. -/
theorem insertByDate_sorted (entry : Activity) (entries : List Activity)
    (h : entries.Pairwise (fun a b => b.date ≤ a.date)) :
    (insertByDate entry entries).Pairwise (fun a b => b.date ≤ a.date) := by
  induction entries with
  | nil => simp [insertByDate]
  | cons first rest ih =>
    unfold insertByDate
    rw [List.pairwise_cons] at h
    split_ifs with hfirst
    · refine List.pairwise_cons.2 ⟨?_, List.pairwise_cons.2 h⟩
      intro b hb
      rcases List.mem_cons.1 hb with rfl | hb
      · exact hfirst
      · exact le_trans (h.1 b hb) hfirst
    · refine List.pairwise_cons.2 ⟨?_, ih h.2⟩
      intro b hb
      rcases List.mem_cons.1 ((insertByDate_perm entry rest).subset hb) with rfl | hb
      · omega
      · exact h.1 b hb

/-- The sorted list is latest first. -/
theorem sortByDate_sorted (entries : List Activity) :
    (sortByDate entries).Pairwise (fun a b => b.date ≤ a.date) := by
  induction entries with
  | nil => exact List.Pairwise.nil
  | cons entry rest ih => exact insertByDate_sorted entry _ ih

/-- The entries pushed are no more than the paths. -/
theorem length_recentEntries_le (nowAt : Nat → Nat) (paths : List PathRecord) (index : Nat) :
    (recentEntries nowAt paths index).length ≤ paths.length := by
  induction paths generalizing index with
  | nil => simp [recentEntries]
  | cons path rest ih =>
    unfold recentEntries
    have := ih (index + 1)
    cases path.lastUpdated with
    | none => simp only [List.length_cons]; omega
    | some lastUpdate =>
      simp only []
      split_ifs <;> simp only [List.length_cons] <;> omega

/-- An entry is pushed exactly for a path that was updated less than eight days before
its clock reading. -/
theorem mem_recentEntries (nowAt : Nat → Nat) (paths : List PathRecord) (start : Nat)
    (entry : Activity) :
    entry ∈ recentEntries nowAt paths start ↔
      ∃ index path lastUpdate, paths[index]? = some path ∧
        path.lastUpdated = some lastUpdate ∧
        nowAt (start + index) < lastUpdate + 8 * msPerDay ∧
        entry = ⟨path.skill, lastUpdate, daysSinceUpdate (nowAt (start + index)) lastUpdate⟩ := by
  induction paths generalizing start with
  | nil => simp [recentEntries]
  | cons first rest ih =>
    have shift : ∀ index, start + 1 + index = start + (index + 1) := fun index => by omega
    constructor
    · intro h
      have tail : entry ∈ recentEntries nowAt rest (start + 1) →
          ∃ index path lastUpdate, (first :: rest)[index]? = some path ∧
            path.lastUpdated = some lastUpdate ∧
            nowAt (start + index) < lastUpdate + 8 * msPerDay ∧
            entry = ⟨path.skill, lastUpdate,
              daysSinceUpdate (nowAt (start + index)) lastUpdate⟩ := by
        intro hin
        obtain ⟨index, path, lastUpdate, h1, h2, h3, h4⟩ := (ih (start + 1)).1 hin
        rw [shift] at h3 h4
        exact ⟨index + 1, path, lastUpdate, by simpa using h1, h2, h3, h4⟩
      unfold recentEntries at h
      cases hlast : first.lastUpdated with
      | none => rw [hlast] at h; exact tail h
      | some lastUpdate =>
        rw [hlast] at h
        simp only [] at h
        split_ifs at h with hrecent
        · rcases List.mem_cons.1 h with rfl | h
          · exact ⟨0, first, lastUpdate, by simp, hlast, hrecent, rfl⟩
          · exact tail h
        · exact tail h
    · rintro ⟨index, path, lastUpdate, h1, h2, h3, h4⟩
      have tail : ∀ i, index = i + 1 → entry ∈ recentEntries nowAt rest (start + 1) := by
        intro i hi
        subst hi
        rw [← shift] at h3 h4
        exact (ih (start + 1)).2 ⟨i, path, lastUpdate, by simpa using h1, h2, h3, h4⟩
      unfold recentEntries
      cases index with
      | zero =>
        simp only [List.getElem?_cons_zero, Option.some.injEq] at h1
        subst h1
        rw [h2]
        simp only [Nat.add_zero] at h3 h4
        simp only [if_pos h3]
        rw [h4]
        exact List.mem_cons_self _ _
      | succ i =>
        have hin := tail i rfl
        cases first.lastUpdated with
        | none => exact hin
        | some t =>
          simp only []
          split_ifs
          · exact List.mem_cons_of_mem _ hin
          · exact hin

/-- C17 (as amended): for a snapshot with at most 5 paths, `recentActivity` holds exactly
the entries of the paths whose `lastUpdated` is less than eight days before the clock
reading of their turn: `Math.floor` of the days is at most 7.  An update between seven
and eight days old is reported; one ten days old is not. -/
theorem C17_recentActivity_within_eight_days (nowAt : Nat → Nat) (paths : List PathRecord)
    (hfew : paths.length ≤ 5) :
    (recentActivity nowAt paths).Perm (recentEntries nowAt paths 0) ∧
      ∀ index path lastUpdate, paths[index]? = some path →
        path.lastUpdated = some lastUpdate →
        ((⟨path.skill, lastUpdate, daysSinceUpdate (nowAt index) lastUpdate⟩ : Activity) ∈
            recentActivity nowAt paths ↔
          nowAt index < lastUpdate + 8 * msPerDay) := by
  have hall : recentActivity nowAt paths = sortByDate (recentEntries nowAt paths 0) := by
    unfold recentActivity
    rw [activityLoop_eq, List.nil_append]
    apply List.take_of_length_le
    rw [(sortByDate_perm _).length_eq]
    exact le_trans (length_recentEntries_le nowAt paths 0) hfew
  have hperm : (recentActivity nowAt paths).Perm (recentEntries nowAt paths 0) := by
    rw [hall]; exact sortByDate_perm _
  refine ⟨hperm, ?_⟩
  intro index path lastUpdate hpath hlast
  rw [hperm.mem_iff, mem_recentEntries]
  constructor
  · rintro ⟨j, other, otherUpdate, _, _, h3, h4⟩
    simp only [Nat.zero_add] at h3 h4
    have hdate : lastUpdate = otherUpdate := (Activity.mk.inj h4).2.1
    have hdays : daysSinceUpdate (nowAt index) lastUpdate =
        daysSinceUpdate (nowAt j) otherUpdate := (Activity.mk.inj h4).2.2
    have := (daysSinceUpdate_le_seven (nowAt j) otherUpdate).2 h3
    rw [← hdays] at this
    exact (daysSinceUpdate_le_seven (nowAt index) lastUpdate).1 this
  · intro h
    exact ⟨index, path, lastUpdate, hpath, hlast, by simpa using h, by simp⟩

/-- C17 at a concrete input: of two paths updated one hour and ten days before the clock
reading, only the first is reported. -/
theorem C17_recentActivity_within_eight_days_witness :
    [updatedAt "today" (day100 - 3600000), updatedAt "old" (day100 - 10 * msPerDay)].length ≤ 5 ∧
      (⟨some "today", day100 - 3600000, 0⟩ : Activity) ∈
        recentActivity (fun _ => day100)
          [updatedAt "today" (day100 - 3600000), updatedAt "old" (day100 - 10 * msPerDay)] ∧
      recentActivity (fun _ => day100)
          [updatedAt "today" (day100 - 3600000), updatedAt "old" (day100 - 10 * msPerDay)] =
        [⟨some "today", day100 - 3600000, 0⟩] :=
  ⟨by decide,
    ((C17_recentActivity_within_eight_days (fun _ => day100)
      [updatedAt "today" (day100 - 3600000), updatedAt "old" (day100 - 10 * msPerDay)]
      (by decide)).2 0 _ _ rfl rfl).2 (by decide),
    by decide⟩

/-- C17 as stated fails: a path updated seven and a half days before the clock reading is
reported, with `daysAgo = 7`, although the time since its update is more than 7 days. -/
theorem C17_seven_and_a_half_days_counterexample :
    recentActivity (fun _ => day100) [updatedAt "week" (day100 - 15 * msPerDay / 2)] =
        [⟨some "week", day100 - 15 * msPerDay / 2, 7⟩] ∧
      ¬ day100 - (day100 - 15 * msPerDay / 2) ≤ 7 * msPerDay := by
  decide

/-- Claim C18: `recentActivity` holds the five latest of the pushed entries, or all of
them when there are fewer: it has `min 5 n` entries for `n` pushed ones (the entries of
the paths updated less than eight days before their clock reading), is sorted latest
first, and together with the entries left out it is a rearrangement of what the loop
pushed, where no entry left out is later than a kept one. -/
theorem C18_recentActivity_five_latest (nowAt : Nat → Nat) (paths : List PathRecord) :
    (recentActivity nowAt paths).length ≤ 5 ∧
      (recentActivity nowAt paths).Pairwise (fun a b => b.date ≤ a.date) ∧
      (∃ leftOut, (recentActivity nowAt paths ++ leftOut).Perm (activityLoop nowAt paths 0 []) ∧
        ∀ out ∈ leftOut, ∀ kept ∈ recentActivity nowAt paths, out.date ≤ kept.date) ∧
      (recentActivity nowAt paths).length = min 5 (activityLoop nowAt paths 0 []).length ∧
      activityLoop nowAt paths 0 [] = recentEntries nowAt paths 0 ∧
      (∀ entry ∈ recentActivity nowAt paths, entry ∈ recentEntries nowAt paths 0) ∧
      ((recentEntries nowAt paths 0).length ≤ 5 →
        (recentActivity nowAt paths).Perm (recentEntries nowAt paths 0)) := by
  have hsorted := sortByDate_sorted (activityLoop nowAt paths 0 [])
  have hsplit := List.take_append_drop 5 (sortByDate (activityLoop nowAt paths 0 []))
  have hpushed : activityLoop nowAt paths 0 [] = recentEntries nowAt paths 0 := by
    rw [activityLoop_eq, List.nil_append]
  refine ⟨?_, ?_, ⟨(sortByDate (activityLoop nowAt paths 0 [])).drop 5, ?_, ?_⟩, ?_, hpushed,
    ?_, ?_⟩
  · unfold recentActivity
    exact List.length_take_le _ _
  · exact hsorted.sublist (List.take_sublist _ _)
  · unfold recentActivity
    rw [hsplit]
    exact sortByDate_perm _
  · intro out hout kept hkept
    rw [← hsplit, List.pairwise_append] at hsorted
    exact hsorted.2.2 kept hkept out hout
  · unfold recentActivity
    rw [List.length_take, (sortByDate_perm _).length_eq]
  · intro entry hentry
    rw [← hpushed]
    exact (sortByDate_perm _).mem_iff.1 (List.mem_of_mem_take hentry)
  · intro hfew
    unfold recentActivity
    rw [List.take_of_length_le (by rw [(sortByDate_perm _).length_eq, hpushed]; exact hfew),
      hpushed]
    exact sortByDate_perm _

/-- Claim C18 at a concrete input: of six paths updated one to six hours before the clock
reading, the five latest are reported, latest first, and the oldest is left out. -/
theorem C18_recentActivity_five_latest_witness :
    (recentActivity (fun _ => day100)
        [updatedAt "six" (day100 - 6 * 3600000), updatedAt "two" (day100 - 2 * 3600000),
          updatedAt "four" (day100 - 4 * 3600000), updatedAt "one" (day100 - 3600000),
          updatedAt "five" (day100 - 5 * 3600000), updatedAt "three" (day100 - 3 * 3600000)]).map
        Activity.skill =
      [some "one", some "two", some "three", some "four", some "five"] ∧
      (recentActivity (fun _ => day100)
        [updatedAt "six" (day100 - 6 * 3600000), updatedAt "two" (day100 - 2 * 3600000),
          updatedAt "four" (day100 - 4 * 3600000), updatedAt "one" (day100 - 3600000),
          updatedAt "five" (day100 - 5 * 3600000),
          updatedAt "three" (day100 - 3 * 3600000)]).length =
        min 5 (activityLoop (fun _ => day100)
          [updatedAt "six" (day100 - 6 * 3600000), updatedAt "two" (day100 - 2 * 3600000),
            updatedAt "four" (day100 - 4 * 3600000), updatedAt "one" (day100 - 3600000),
            updatedAt "five" (day100 - 5 * 3600000),
            updatedAt "three" (day100 - 3 * 3600000)] 0 []).length :=
  ⟨by decide,
    (C18_recentActivity_five_latest (fun _ => day100)
      [updatedAt "six" (day100 - 6 * 3600000), updatedAt "two" (day100 - 2 * 3600000),
        updatedAt "four" (day100 - 4 * 3600000), updatedAt "one" (day100 - 3600000),
        updatedAt "five" (day100 - 5 * 3600000),
        updatedAt "three" (day100 - 3 * 3600000)]).2.2.2.1⟩

/-! ## The learning streak -/

/-- Adding to a set keeps its values distinct. -/
theorem setAdd_nodup (set : List String) (value : String) (h : set.Nodup) :
    (setAdd set value).Nodup := by
  unfold setAdd
  split_ifs with hmem
  · exact h
  · rw [List.nodup_append]
    exact ⟨h, List.nodup_singleton _, by
      intro x hx hx'
      rw [List.mem_singleton] at hx'
      exact hmem (hx' ▸ hx)⟩

/-- A value is in the set after `add` when it was there or is the added one. -/
theorem mem_setAdd (set : List String) (value day : String) :
    day ∈ setAdd set value ↔ day ∈ set ∨ day = value := by
  unfold setAdd
  split_ifs with hmem
  · constructor
    · exact Or.inl
    · rintro (h | h)
      · exact h
      · rw [h]; exact hmem
  · simp

/-- The set `activeDays` after the loop: its values are distinct, and they are the values
it started with and the days of the updates not earlier than `thirtyDaysAgo`. -/
theorem streakLoop_spec (calendar : LocalCalendar) (thirtyDaysAgo : Int)
    (paths : List PathRecord) (activeDays : List String) (h : activeDays.Nodup) :
    (streakLoop calendar thirtyDaysAgo paths activeDays).Nodup ∧
      ∀ day, day ∈ streakLoop calendar thirtyDaysAgo paths activeDays ↔
        day ∈ activeDays ∨ day ∈ activeDayKeys calendar thirtyDaysAgo paths := by
  induction paths generalizing activeDays with
  | nil => simp [streakLoop, activeDayKeys, h]
  | cons path rest ih =>
    unfold streakLoop
    cases hlast : path.lastUpdated with
    | none =>
      simp only [activeDayKeys, List.filterMap_cons, hlast]
      exact ih activeDays h
    | some updateDate =>
      simp only []
      split_ifs with hwindow
      · obtain ⟨h1, h2⟩ := ih (setAdd activeDays (calendar.toDateString updateDate))
          (setAdd_nodup _ _ h)
        refine ⟨h1, fun day => ?_⟩
        rw [h2, mem_setAdd]
        simp only [activeDayKeys, List.filterMap_cons, hlast, List.filter_cons, hwindow,
          decide_True, if_true, List.map_cons, List.mem_cons]
        tauto
      · obtain ⟨h1, h2⟩ := ih activeDays h
        refine ⟨h1, fun day => ?_⟩
        rw [h2]
        simp only [activeDayKeys, List.filterMap_cons, hlast, List.filter_cons, hwindow,
          decide_False]
        simp

/-- The streak is the number of distinct days among the updates not earlier than
`thirtyDaysAgo`. -/
theorem calculateLearningStreak_eq (calendar : LocalCalendar) (now : Nat)
    (paths : List PathRecord) :
    calculateLearningStreak calendar now paths =
      (activeDayKeys calendar (calendar.minusDays now 30) paths).toFinset.card := by
  obtain ⟨h1, h2⟩ := streakLoop_spec calendar (calendar.minusDays now 30) paths []
    List.nodup_nil
  unfold calculateLearningStreak
  rw [← List.toFinset_card_of_nodup h1]
  congr 1
  ext day
  simp [h2]

/-- There are no more updates in the window than paths with a `lastUpdated`. -/
theorem length_activeDayKeys_le (calendar : LocalCalendar) (thirtyDaysAgo : Int)
    (paths : List PathRecord) :
    (activeDayKeys calendar thirtyDaysAgo paths).length ≤
      paths.countP (fun path => path.lastUpdated.isSome) := by
  unfold activeDayKeys
  rw [List.length_map]
  refine le_trans (List.length_filter_le _ _) ?_
  induction paths with
  | nil => simp
  | cons path rest ih =>
    cases hlast : path.lastUpdated with
    | none => simpa [List.filterMap_cons, List.countP_cons, hlast] using ih
    | some updateDate => simpa [List.filterMap_cons, List.countP_cons, hlast] using ih
/-- A day is active exactly when some path was updated on it, not earlier than
`thirtyDaysAgo`. -/
theorem mem_activeDayKeys (calendar : LocalCalendar) (thirtyDaysAgo : Int)
    (paths : List PathRecord) (day : String) :
    day ∈ activeDayKeys calendar thirtyDaysAgo paths ↔
      ∃ path ∈ paths, ∃ updateDate, path.lastUpdated = some updateDate ∧
        thirtyDaysAgo ≤ (updateDate : Int) ∧ calendar.toDateString updateDate = day := by
  simp only [activeDayKeys, List.mem_map, List.mem_filter, List.mem_filterMap,
    decide_eq_true_eq]
  constructor
  · rintro ⟨updateDate, ⟨⟨path, hpath, hlast⟩, hwindow⟩, hday⟩
    exact ⟨path, hpath, updateDate, hlast, hwindow, hday⟩
  · rintro ⟨path, hpath, updateDate, hlast, hwindow, hday⟩
    exact ⟨updateDate, ⟨⟨path, hpath, hlast⟩, hwindow⟩, hday⟩

/-- The day keys of two lists of paths, one after the other. -/
theorem activeDayKeys_append (calendar : LocalCalendar) (thirtyDaysAgo : Int)
    (paths others : List PathRecord) :
    activeDayKeys calendar thirtyDaysAgo (paths ++ others) =
      activeDayKeys calendar thirtyDaysAgo paths ++
        activeDayKeys calendar thirtyDaysAgo others := by
  simp [activeDayKeys, List.filterMap_append, List.filter_append]

/-- Paths that were all updated on one calendar day, not earlier than `thirtyDaysAgo`, give
that day once each. -/
theorem activeDayKeys_same_day (calendar : LocalCalendar) (thirtyDaysAgo : Int)
    (group : List PathRecord) (day : String)
    (h : ∀ path ∈ group, ∃ updateDate, path.lastUpdated = some updateDate ∧
      thirtyDaysAgo ≤ (updateDate : Int) ∧ calendar.toDateString updateDate = day) :
    activeDayKeys calendar thirtyDaysAgo group = List.replicate group.length day := by
  induction group with
  | nil => rfl
  | cons path rest ih =>
    obtain ⟨updateDate, hlast, hwindow, hday⟩ := h path (List.mem_cons_self path rest)
    have hrest := ih (fun other hother => h other (List.mem_cons_of_mem path hother))
    simp only [activeDayKeys, List.filterMap_cons, hlast, List.filter_cons, hwindow,
      decide_True, if_true, List.map_cons, hday, List.length_cons, List.replicate_succ,
      List.cons.injEq, true_and]
    exact hrest

/-- In a runtime on UTC an update is not earlier than `thirtyDaysAgo` exactly when it is
at most 30 days of 24 hours before now. -/
theorem utcCalendar_window (now updateDate : Nat) :
    utcCalendar.minusDays now 30 ≤ (updateDate : Int) ↔ now ≤ updateDate + 30 * msPerDay := by
  simp only [utcCalendar]
  push_cast
  omega

/-- Claim C15: `learningStreak` counts distinct calendar days, not update events.  It is
the number of distinct days among the updates of the window (not earlier than
`thirtyDaysAgo`, the date 30 calendar days before now), and it never exceeds the number
of paths that have a `lastUpdated`.  Any number of paths whose updates fall on the same
calendar day of the window contribute exactly one: added to a snapshot they raise the
streak by one when the day is new and leave it when the day is there already, and when
they are the only updates the streak is 1.  In a runtime on UTC the window starts 30
days of 24 hours before now. -/
theorem C15_learningStreak_counts_distinct_days (calendar : LocalCalendar) (now : Nat)
    (paths : List PathRecord) :
    calculateLearningStreak calendar now paths =
        (activeDayKeys calendar (calendar.minusDays now 30) paths).dedup.length ∧
      calculateLearningStreak calendar now paths ≤
        paths.countP (fun path => path.lastUpdated.isSome) ∧
      (∀ day, day ∈ activeDayKeys calendar (calendar.minusDays now 30) paths →
        (∀ other ∈ activeDayKeys calendar (calendar.minusDays now 30) paths, other = day) →
        calculateLearningStreak calendar now paths = 1) ∧
      (∀ (group : List PathRecord) (day : String), group ≠ [] →
        (∀ path ∈ group, ∃ updateDate, path.lastUpdated = some updateDate ∧
          calendar.minusDays now 30 ≤ (updateDate : Int) ∧
          calendar.toDateString updateDate = day) →
        calculateLearningStreak calendar now (paths ++ group) =
          calculateLearningStreak calendar now paths +
            (if day ∈ activeDayKeys calendar (calendar.minusDays now 30) paths then 0
              else 1)) ∧
      (∀ day, day ∈ activeDayKeys utcCalendar (utcCalendar.minusDays now 30) paths ↔
        ∃ path ∈ paths, ∃ updateDate, path.lastUpdated = some updateDate ∧
          now ≤ updateDate + 30 * msPerDay ∧ toString (updateDate / msPerDay) = day) := by
  have hcard := calculateLearningStreak_eq calendar now paths
  refine ⟨by rw [hcard, List.card_toFinset], ?_, ?_, ?_, ?_⟩
  · rw [hcard]
    exact le_trans (List.toFinset_card_le _) (length_activeDayKeys_le _ _ _)
  · intro day hday hall
    rw [hcard, Finset.card_eq_one]
    refine ⟨day, ?_⟩
    ext other
    simp only [List.mem_toFinset, Finset.mem_singleton]
    exact ⟨fun h => hall other h, fun h => h ▸ hday⟩
  · intro group day hne hgroup
    have hlen : group.length ≠ 0 := by
      intro h0
      exact hne (List.length_eq_zero.1 h0)
    rw [calculateLearningStreak_eq, hcard, activeDayKeys_append,
      activeDayKeys_same_day calendar _ group day hgroup, List.toFinset_append,
      List.toFinset_replicate_of_ne_zero hlen, Finset.union_comm, ← Finset.insert_eq]
    split_ifs with hmem
    · rw [Finset.card_insert_of_mem (List.mem_toFinset.2 hmem)]
      rfl
    · rw [Finset.card_insert_of_not_mem (by simpa using hmem)]
  · intro day
    rw [mem_activeDayKeys]
    simp only [utcCalendar_window]
    rfl

/-- Claim C15 at a concrete input: two paths updated on the same calendar day, three days
before the clock reading, give a streak of 1; a third path updated on that day leaves it
at 1, and a path updated a day later raises it to 2. -/
theorem C15_learningStreak_counts_distinct_days_witness :
    utcCalendar.toDateString (97 * msPerDay + 1000) =
        utcCalendar.toDateString (97 * msPerDay + 5000) ∧
      calculateLearningStreak utcCalendar day100
        [updatedAt "first" (97 * msPerDay + 1000), updatedAt "second" (97 * msPerDay + 5000)] =
          1 ∧
      calculateLearningStreak utcCalendar day100
        [updatedAt "first" (97 * msPerDay + 1000), updatedAt "second" (97 * msPerDay + 5000),
          updatedAt "third" (97 * msPerDay + 9000)] = 1 ∧
      calculateLearningStreak utcCalendar day100
        [updatedAt "first" (97 * msPerDay + 1000), updatedAt "second" (97 * msPerDay + 5000),
          updatedAt "next" (98 * msPerDay)] = 2 :=
  ⟨by decide,
    (C15_learningStreak_counts_distinct_days utcCalendar day100
      [updatedAt "first" (97 * msPerDay + 1000),
        updatedAt "second" (97 * msPerDay + 5000)]).2.2.1 "97" (by decide) (by decide),
    by decide, by decide⟩

/-- Claim C16: what `calculateLearningStreak` computes.  `learningStreak` is the number of
distinct calendar days on which some path's `lastUpdated` falls that is not earlier than
`thirtyDaysAgo`, the date 30 calendar days before now (in a runtime on UTC, 30 days of 24
hours before now).  A `lastUpdated` earlier than that contributes nothing.  The update is
never compared with now: a `lastUpdated` later than now counts. -/
theorem C16_learningStreak_lower_bound_only (calendar : LocalCalendar) (now : Nat)
    (paths : List PathRecord) :
    (∃ days : Finset String, calculateLearningStreak calendar now paths = days.card ∧
        ∀ day, day ∈ days ↔ ∃ path ∈ paths, ∃ updateDate,
          path.lastUpdated = some updateDate ∧
          calendar.minusDays now 30 ≤ (updateDate : Int) ∧
          calendar.toDateString updateDate = day) ∧
      (∀ (before after : List PathRecord) (path : PathRecord) (updateDate : Nat),
        path.lastUpdated = some updateDate →
        (updateDate : Int) < calendar.minusDays now 30 →
        calculateLearningStreak calendar now (before ++ path :: after) =
          calculateLearningStreak calendar now (before ++ after)) ∧
      (∃ days : Finset String, calculateLearningStreak utcCalendar now paths = days.card ∧
        ∀ day, day ∈ days ↔ ∃ path ∈ paths, ∃ updateDate,
          path.lastUpdated = some updateDate ∧
          now ≤ updateDate + 30 * msPerDay ∧
          toString (updateDate / msPerDay) = day) ∧
      (∀ (updateDate : Nat) (skill : String), now < updateDate →
        calculateLearningStreak utcCalendar now [updatedAt skill updateDate] = 1) := by
  have general : ∀ zone : LocalCalendar,
      ∃ days : Finset String, calculateLearningStreak zone now paths = days.card ∧
        ∀ day, day ∈ days ↔ ∃ path ∈ paths, ∃ updateDate,
          path.lastUpdated = some updateDate ∧
          zone.minusDays now 30 ≤ (updateDate : Int) ∧
          zone.toDateString updateDate = day := by
    intro zone
    refine ⟨(activeDayKeys zone (zone.minusDays now 30) paths).toFinset,
      calculateLearningStreak_eq zone now paths, fun day => ?_⟩
    rw [List.mem_toFinset, mem_activeDayKeys]
  refine ⟨general calendar, ?_, ?_, ?_⟩
  · intro before after path updateDate hlast hearly
    rw [calculateLearningStreak_eq, calculateLearningStreak_eq]
    have hnot : ¬ calendar.minusDays now 30 ≤ (updateDate : Int) := by omega
    have : activeDayKeys calendar (calendar.minusDays now 30) (before ++ path :: after) =
        activeDayKeys calendar (calendar.minusDays now 30) (before ++ after) := by
      simp [activeDayKeys, List.filterMap_append, List.filterMap_cons, hlast, List.filter_cons,
        hnot]
    rw [this]
  · obtain ⟨days, hcard, hmem⟩ := general utcCalendar
    refine ⟨days, hcard, fun day => ?_⟩
    rw [hmem]
    simp only [utcCalendar_window]
    rfl
  · intro updateDate skill hlater
    have hwindow : utcCalendar.minusDays now 30 ≤ (updateDate : Int) :=
      (utcCalendar_window now updateDate).2 (by omega)
    rw [calculateLearningStreak_eq]
    simp [activeDayKeys, updatedAt, hwindow]

/-- Claim C16 at concrete inputs, in a runtime on UTC at the start of day 100: an update
exactly 30 days old counts, one a millisecond older does not, and an update dated one day
after now counts. -/
theorem C16_learningStreak_lower_bound_only_witness :
    calculateLearningStreak utcCalendar day100 [updatedAt "edge" (day100 - 30 * msPerDay)] = 1 ∧
      calculateLearningStreak utcCalendar day100
        [updatedAt "older" (day100 - 30 * msPerDay - 1)] = 0 ∧
      calculateLearningStreak utcCalendar day100 [updatedAt "ahead" (day100 + msPerDay)] = 1 :=
  ⟨by decide, by decide,
    (C16_learningStreak_lower_bound_only utcCalendar day100 []).2.2.2
      (day100 + msPerDay) "ahead" (by decide)⟩

/-- Claim C16, failing input: a path whose `lastUpdated` is one day later than now lies
outside the trailing window, which holds no update at all, and `learningStreak` is 1. -/
theorem C16_update_after_now_counterexample :
    day100 < day100 + msPerDay ∧
      trailingWindowDayKeys utcCalendar day100 [updatedAt "ahead" (day100 + msPerDay)] = [] ∧
      calculateLearningStreak utcCalendar day100 [updatedAt "ahead" (day100 + msPerDay)] = 1 := by
  decide

/-! ## Generating a learning path -/

/-- C19: when no API credential is configured (the variable is not defined or is empty),
`generateLearningPath` fails with the configuration error, for all parameter values
with `learningStyle` a list, and passes no request to `fetch`. -/
theorem C19_missing_key_fails_before_fetch (skill proficiency : String)
    (learningStyle : List String)
    (timePerWeek targetCompletion difficultyLevel learningPreference : String)
    (apiKey : Option String) (fetch : Request → FetchOutcome)
    (jsonParse : String → Option Json) (hkey : apiKey = none ∨ apiKey = some "") :
    (generateLearningPath skill proficiency learningStyle timePerWeek targetCompletion
        difficultyLevel learningPreference apiKey fetch jsonParse).result =
        Except.error (GenerationError.error configMessage) ∧
      (generateLearningPath skill proficiency learningStyle timePerWeek targetCompletion
        difficultyLevel learningPreference apiKey fetch jsonParse).requests = [] := by
  rcases hkey with h | h <;> subst h <;> simp [generateLearningPath]

/-- C19 at a concrete input: a call without key and without learning styles. -/
theorem C19_missing_key_fails_before_fetch_witness :
    ((none : Option String) = none ∨ (none : Option String) = some "") ∧
      (generateLearningPath "Lean" "Beginner" [] "4-6" "3-months" "moderate" "hands-on" none
        fetchUnreachable jsonParseSample).result =
        Except.error (GenerationError.error configMessage) ∧
      (generateLearningPath "Lean" "Beginner" [] "4-6" "3-months" "moderate" "hands-on" none
        fetchUnreachable jsonParseSample).requests = [] :=
  ⟨Or.inl rfl,
    C19_missing_key_fails_before_fetch "Lean" "Beginner" [] "4-6" "3-months" "moderate"
      "hands-on" none fetchUnreachable jsonParseSample (Or.inl rfl)⟩

/-- C20 (as amended): for a successful response whose first candidate has a first part
with a text, `generateLearningPath` fails with the parse error of `JSON.parse` when the
text is not valid JSON, and returns the parsed value when it is valid JSON, whatever
its shape: the value is not compared with the shape of a module list. -/
theorem C20_parse_error_for_invalid_json_only (skill proficiency : String)
    (learningStyle : List String)
    (timePerWeek targetCompletion difficultyLevel learningPreference : String)
    (key : String) (fetch : Request → FetchOutcome) (jsonParse : String → Option Json)
    (status : Nat) (body : ResponseBody) (candidate : Candidate) (candidates : List Candidate)
    (content : Content) (part : Part) (parts : List Part) (jsonText : String)
    (hkey : key ≠ "")
    (hfetch : ∀ request, fetch request = FetchOutcome.response true status (some body))
    (hcandidates : body.candidates = some (candidate :: candidates))
    (hcontent : candidate.content = some content)
    (hparts : content.parts = some (part :: parts))
    (htext : part.text = some jsonText) :
    (jsonParse jsonText = none →
        (generateLearningPath skill proficiency learningStyle timePerWeek targetCompletion
          difficultyLevel learningPreference (some key) fetch jsonParse).result =
          Except.error GenerationError.syntaxError) ∧
      ∀ value, jsonParse jsonText = some value →
        (generateLearningPath skill proficiency learningStyle timePerWeek targetCompletion
          difficultyLevel learningPreference (some key) fetch jsonParse).result =
          Except.ok value := by
  constructor
  · intro hparse
    simp [generateLearningPath, hkey, hfetch, hcandidates, hcontent, hparts, htext, hparse]
  · intro value hparse
    simp [generateLearningPath, hkey, hfetch, hcandidates, hcontent, hparts, htext, hparse]

/-- C20 at a concrete input: the answer `not json` makes the call fail with the parse
error. -/
theorem C20_parse_error_for_invalid_json_only_witness :
    "key" ≠ "" ∧ jsonParseSample "not json" = none ∧
      (generateLearningPath "Lean" "Beginner" [] "4-6" "3-months" "moderate" "hands-on"
        (some "key") (fetchAnswers "not json") jsonParseSample).result =
        Except.error GenerationError.syntaxError :=
  ⟨by decide, rfl,
    (C20_parse_error_for_invalid_json_only "Lean" "Beginner" [] "4-6" "3-months" "moderate"
      "hands-on" "key" (fetchAnswers "not json") jsonParseSample 200 _ _ _ _ _ _ "not json"
      (by decide) (fun _ => rfl) rfl rfl rfl rfl).1 rfl⟩

/-- C20 as stated fails: the answers `{}` and `42` are valid JSON that is not a module
list, and the call returns the parsed values instead of failing. -/
theorem C20_wrong_shape_is_returned_counterexample :
    (Json.obj []).isModuleList = false ∧ (Json.num 42).isModuleList = false ∧
      (generateLearningPath "Lean" "Beginner" [] "4-6" "3-months" "moderate" "hands-on"
        (some "key") (fetchAnswers "{}") jsonParseSample).result = Except.ok (Json.obj []) ∧
      (generateLearningPath "Lean" "Beginner" [] "4-6" "3-months" "moderate" "hands-on"
        (some "key") (fetchAnswers "42") jsonParseSample).result = Except.ok (Json.num 42) :=
  ⟨rfl, rfl, rfl, rfl⟩

/-! ## The thresholds of the first and of the last milestone -/

/-- Equal fractions of completed steps give the same rounded percentage. -/
theorem roundedPercent_congr (c₁ t₁ c₂ t₂ : Nat) (h₁ : 0 < t₁) (h₂ : 0 < t₂)
    (h : c₁ * t₂ = c₂ * t₁) : roundedPercent c₁ t₁ = roundedPercent c₂ t₂ := by
  rw [roundedPercent_eq c₁ t₁ h₁, roundedPercent_eq c₂ t₂ h₂]
  have q := roundToDouble_congr c₁ t₁ c₂ t₂ h₁ h₂ h
  have hx₁ := roundToDouble_den_pos c₁ t₁
  have hx₂ := roundToDouble_den_pos c₂ t₂
  generalize roundToDouble c₁ t₁ = x₁ at q hx₁ ⊢
  generalize roundToDouble c₂ t₂ = x₂ at q hx₂ ⊢
  have r := roundToDouble_congr (x₁.1 * 100) x₁.2 (x₂.1 * 100) x₂.2 hx₁ hx₂
    (by rw [Nat.mul_right_comm, q, Nat.mul_right_comm])
  have hy₁ := roundToDouble_den_pos (x₁.1 * 100) x₁.2
  have hy₂ := roundToDouble_den_pos (x₂.1 * 100) x₂.2
  generalize roundToDouble (x₁.1 * 100) x₁.2 = y₁ at r hy₁ ⊢
  generalize roundToDouble (x₂.1 * 100) x₂.2 = y₂ at r hy₂ ⊢
  congr 1
  exact le_antisymm (roundHalfUp_mono _ _ _ _ hy₁ hy₂ r.le) (roundHalfUp_mono _ _ _ _ hy₂ hy₁ r.ge)

/-- The rounded percentage reaches 1 exactly from one completed step in 200 on. -/
theorem roundedPercent_geNat_one (c t : Nat) (ht : 0 < t) (hc : c ≤ t) (hsmall : t ≤ 2 ^ 44) :
    (roundedPercent c t).geNat 1 = decide (t ≤ 200 * c) := by
  obtain ⟨hexact, hnear⟩ := roundedPercent_accurate c t ht hc hsmall
  have hdm := Nat.div_add_mod (200 * c + t) (2 * t)
  have hml := Nat.mod_lt (200 * c + t) (show 0 < 2 * t by omega)
  rcases Nat.lt_trichotomy (200 * c) t with hlt | heq | hgt
  · have h0 : exactPercent c t = 0 := by
      unfold exactPercent
      exact Nat.div_eq_of_lt (by omega)
    rw [h0] at hnear
    have : roundedPercent c t = JsNumber.ofNat 0 := by
      rcases hnear with h | h <;> exact h
    rw [this]
    simp [JsNumber.ofNat, JsNumber.geNat]
    omega
  · have hcpos : 0 < c := by omega
    have one : roundedPercent 1 200 = JsNumber.ofNat 1 := by decide
    rw [roundedPercent_congr c t 1 200 ht (by norm_num) (by omega), one]
    simp [JsNumber.ofNat, JsNumber.geNat]
    omega
  · have hlow : 1 ≤ exactPercent c t := by
      unfold exactPercent
      rw [Nat.le_div_iff_mul_le (by omega)]
      omega
    unfold exactPercent at hexact hnear hlow
    have hR : (200 * c + t) % (2 * t) = 0 → 2 ≤ (200 * c + t) / (2 * t) := by
      intro hrest
      by_contra hcon
      have hR1 : (200 * c + t) / (2 * t) = 1 := by omega
      rw [hR1, hrest] at hdm
      omega
    generalize (200 * c + t) / (2 * t) = R at *
    have : ∃ a, roundedPercent c t = JsNumber.ofNat a ∧ 1 ≤ a := by
      by_cases hrest : (200 * c + t) % (2 * t) = 0
      · rcases hnear with h | h
        · exact ⟨R, h, hlow⟩
        · exact ⟨R - 1, h, by have := hR hrest; omega⟩
      · exact ⟨R, hexact hrest, hlow⟩
    obtain ⟨a, ha, h1⟩ := this
    rw [ha]
    simp [JsNumber.ofNat, JsNumber.geNat]
    omega

/-- The rounded percentage is 100 exactly from 199 completed steps in 200 on. -/
theorem roundedPercent_eqNat_hundred (c t : Nat) (ht : 0 < t) (hc : c ≤ t)
    (hsmall : t ≤ 2 ^ 44) :
    (roundedPercent c t).eqNat 100 = decide (199 * t ≤ 200 * c) := by
  obtain ⟨hexact, hnear⟩ := roundedPercent_accurate c t ht hc hsmall
  have hdm := Nat.div_add_mod (200 * c + t) (2 * t)
  have hml := Nat.mod_lt (200 * c + t) (show 0 < 2 * t by omega)
  have hhigh : exactPercent c t ≤ 100 := by
    have : exactPercent c t < 101 := by
      unfold exactPercent
      rw [Nat.div_lt_iff_lt_mul (by omega)]
      omega
    omega
  rcases Nat.lt_trichotomy (200 * c) (199 * t) with hlt | heq | hgt
  · have h99 : exactPercent c t ≤ 99 := by
      have : exactPercent c t < 100 := by
        unfold exactPercent
        rw [Nat.div_lt_iff_lt_mul (by omega)]
        omega
      omega
    have : ∃ a, roundedPercent c t = JsNumber.ofNat a ∧ a ≤ 99 := by
      rcases hnear with h | h
      · exact ⟨_, h, h99⟩
      · exact ⟨_, h, by omega⟩
    obtain ⟨a, ha, hle⟩ := this
    rw [ha]
    simp [JsNumber.ofNat, JsNumber.eqNat]
    omega
  · have hundred : roundedPercent 199 200 = JsNumber.ofNat 100 := by decide
    rw [roundedPercent_congr c t 199 200 ht (by norm_num) (by omega), hundred]
    simp [JsNumber.ofNat, JsNumber.eqNat]
    omega
  · have hlow : 100 ≤ exactPercent c t := by
      unfold exactPercent
      rw [Nat.le_div_iff_mul_le (by omega)]
      omega
    have hval : exactPercent c t = 100 := by omega
    have hrest : (200 * c + t) % (2 * t) ≠ 0 := by
      intro hrest
      unfold exactPercent at hval
      rw [hval, hrest] at hdm
      omega
    rw [hexact hrest, hval]
    simp [JsNumber.ofNat, JsNumber.eqNat]
    omega

/-- All steps are completed exactly when the completed steps are as many as the subtopics. -/
theorem completedSubtopics_eq_total (modules : List Module) (progress : Progress) :
    completedSubtopics modules progress = totalSubtopics modules ↔
      ∀ step ∈ validSteps modules, stepDone progress step = true := by
  unfold completedSubtopics
  rw [← length_stepsFrom modules 0, ← validSteps, List.countP_eq_length]

/-- A completed valid step makes the number of completed steps positive. -/
theorem completedSubtopics_pos (modules : List Module) (progress : Progress) :
    0 < completedSubtopics modules progress ↔
      ∃ step ∈ validSteps modules, stepDone progress step = true := by
  unfold completedSubtopics
  rw [List.countP_pos_iff]

/-- An id is among the ids after an evaluation exactly when it was there before or its
milestone unlocks. -/
theorem mem_checkAchievements_ids (learningPath : Option (List Module))
    (achievements : List Achievement) (currentProgress : Progress) (clock : Nat → Nat)
    (id : String) :
    id ∈ (checkAchievements learningPath achievements currentProgress clock).map
        Achievement.id ↔
      id ∈ achievements.map Achievement.id ∨
        ∃ milestone ∈ milestones, milestone.id = id ∧
          unlocks (calculateProgressWithData learningPath currentProgress) achievements
            milestone = true := by
  obtain ⟨earned, hlist, hearned⟩ :=
    checkAchievements_eq learningPath achievements currentProgress clock
  have hids : earned.map Achievement.id =
      (milestones.filter (unlocks (calculateProgressWithData learningPath currentProgress)
        achievements)).map Milestone.id := by
    rw [← hearned, List.map_map]
    rfl
  rw [hlist, List.map_append, List.mem_append, hids]
  simp only [List.mem_map, List.mem_filter]
  constructor
  · rintro (h | ⟨m, ⟨hm, hu⟩, rfl⟩)
    · exact Or.inl h
    · exact Or.inr ⟨m, hm, rfl, hu⟩
  · rintro (h | ⟨m, hm, rfl, hu⟩)
    · exact Or.inl h
    · exact Or.inr ⟨m, ⟨hm, hu⟩, rfl⟩

/-- Claim C26, amended: for a module list of at most `2 ^ 44` subtopics, the list that
`checkAchievements` leaves contains `first_step` exactly when it was earned before or
the completed valid steps are at least one in 200 of the subtopics (the rounded
percentage is then at least 1).  In particular it contains `first_step` when the list
has at most 200 subtopics and at least one valid step is completed. -/
theorem C26_first_step_from_one_in_200 (modules : List Module)
    (achievements : List Achievement) (progress : Progress) (clock : Nat → Nat)
    (hsmall : totalSubtopics modules ≤ 2 ^ 44) :
    ("first_step" ∈ (checkAchievements (some modules) achievements progress clock).map
          Achievement.id ↔
        "first_step" ∈ achievements.map Achievement.id ∨
          (0 < completedSubtopics modules progress ∧
            totalSubtopics modules ≤ 200 * completedSubtopics modules progress)) ∧
      (totalSubtopics modules ≤ 200 →
        (∃ step ∈ validSteps modules, stepDone progress step = true) →
        "first_step" ∈ (checkAchievements (some modules) achievements progress clock).map
          Achievement.id) := by
  have hle := completedSubtopics_le modules progress
  have key : "first_step" ∈ (checkAchievements (some modules) achievements progress clock).map
        Achievement.id ↔
      "first_step" ∈ achievements.map Achievement.id ∨
        (0 < completedSubtopics modules progress ∧
          totalSubtopics modules ≤ 200 * completedSubtopics modules progress) := by
    rw [mem_checkAchievements_ids]
    by_cases hin : "first_step" ∈ achievements.map Achievement.id
    · simp only [hin, true_or]
    · simp only [hin, false_or]
      have hge : (calculateProgressWithData (some modules) progress).geNat 1 =
          decide (0 < completedSubtopics modules progress ∧
            totalSubtopics modules ≤ 200 * completedSubtopics modules progress) := by
        rw [calculateProgressWithData_eq]
        by_cases hT : 0 < totalSubtopics modules
        · rw [if_pos hT, roundedPercent_geNat_one _ _ hT hle hsmall]
          by_cases h200 : totalSubtopics modules ≤ 200 * completedSubtopics modules progress
          · have : 0 < completedSubtopics modules progress := by omega
            simp [h200, this]
          · simp [h200]
        · have h0 : completedSubtopics modules progress = 0 := by omega
          simp [hT, h0, JsNumber.ofNat, JsNumber.geNat]
      obtain ⟨a, ha, _⟩ := calculateProgressWithData_le (some modules) progress
      rw [ha] at hge ⊢
      have hone : 1 ≤ a ↔ (0 < completedSubtopics modules progress ∧
          totalSubtopics modules ≤ 200 * completedSubtopics modules progress) := by
        simp only [JsNumber.geNat, Nat.one_mul] at hge
        rw [← decide_eq_decide]
        exact hge
      rw [← hone]
      constructor
      · rintro ⟨m, hm, hid, hu⟩
        have hm1 : m.threshold = 1 := by
          simp only [milestones, List.mem_cons, List.mem_singleton, List.not_mem_nil,
            or_false] at hm
          rcases hm with rfl | rfl | rfl | rfl | rfl <;> simp_all
        have := ((unlocks_iff a achievements m).1 hu).1
        omega
      · intro h
        refine ⟨⟨"first_step", "First Step", "Complete your first learning step", 1, "🎯"⟩,
          by simp [milestones], rfl, ?_⟩
        exact (unlocks_iff a achievements _).2 ⟨h, hin⟩
  refine ⟨key, fun h200 hdone => key.2 (Or.inr ?_)⟩
  have hpos := (completedSubtopics_pos modules progress).2 hdone
  exact ⟨hpos, by omega⟩

/-- Claim C26, witness: one step of three completed, nothing earned before. -/
theorem C26_first_step_from_one_in_200_witness :
    totalSubtopics [threeTopics] ≤ 2 ^ 44 ∧ totalSubtopics [threeTopics] ≤ 200 ∧
      (∃ step ∈ validSteps [threeTopics], stepDone (only "0-0") step = true) ∧
      "first_step" ∈ (checkAchievements (some [threeTopics]) [] (only "0-0")
        (fun i => 1000 + i)).map Achievement.id :=
  ⟨by decide, by decide, ⟨(0, 0), by decide, by decide⟩,
    (C26_first_step_from_one_in_200 [threeTopics] [] (only "0-0") (fun i => 1000 + i)
      (by decide)).2 (by decide) ⟨(0, 0), by decide, by decide⟩⟩

set_option maxRecDepth 100000 in
/-- Claim C26, counterexample: on a path of one module with 201 subtopics the first step
is completed, the percentage is `Math.round((1 / 201) * 100) = 0`, and the evaluation
unlocks nothing. -/
theorem C26_one_step_of_201_counterexample :
    (0, 0) ∈ validSteps [manyTopics 201] ∧ stepDone (only "0-0") (0, 0) = true ∧
      calculateProgressWithData (some [manyTopics 201]) (only "0-0") = JsNumber.ofNat 0 ∧
      checkAchievements (some [manyTopics 201]) [] (only "0-0") (fun i => 1000 + i) = [] := by
  decide

/-- Claim C27, amended: for a module list of at most `2 ^ 44` subtopics the overall
percentage is 100 exactly when the list has subtopics and at least 199 in 200 of them
are completed; `SavedPaths` shows the same value for a record of the list and the map.
For a list of fewer than 200 subtopics the percentage is 100 only if every subtopic of
every module is completed. -/
theorem C27_hundred_percent_from_199_in_200 (modules : List Module) (progress : Progress)
    (skill : Option String) (achievements : Option (List Achievement))
    (lastUpdated : Option Nat) (hsmall : totalSubtopics modules ≤ 2 ^ 44) :
    ((calculateProgressWithData (some modules) progress).eqNat 100 = true ↔
        0 < totalSubtopics modules ∧
          199 * totalSubtopics modules ≤ 200 * completedSubtopics modules progress) ∧
      SavedPaths.calculateProgress ⟨skill, some modules, some progress, achievements,
          lastUpdated⟩ = calculateProgressWithData (some modules) progress ∧
      (totalSubtopics modules < 200 →
        (calculateProgressWithData (some modules) progress).eqNat 100 = true →
        ∀ step ∈ validSteps modules, stepDone progress step = true) := by
  have hle := completedSubtopics_le modules progress
  have key : (calculateProgressWithData (some modules) progress).eqNat 100 = true ↔
      0 < totalSubtopics modules ∧
        199 * totalSubtopics modules ≤ 200 * completedSubtopics modules progress := by
    rw [calculateProgressWithData_eq]
    by_cases hT : 0 < totalSubtopics modules
    · rw [if_pos hT, roundedPercent_eqNat_hundred _ _ hT hle hsmall]
      simp [hT]
    · simp [hT, JsNumber.ofNat, JsNumber.eqNat]
  refine ⟨key, ?_, fun h200 h100 => ?_⟩
  · rw [SavedPaths.calculateProgress_eq, calculateProgressWithData_eq]
    rfl
  · obtain ⟨_, h199⟩ := key.1 h100
    exact (completedSubtopics_eq_total modules progress).1 (by omega)

/-- Claim C27, witness: three subtopics, all completed. -/
theorem C27_hundred_percent_from_199_in_200_witness :
    totalSubtopics [threeTopics] ≤ 2 ^ 44 ∧
      calculateProgressWithData (some [threeTopics]) (allBut "1-0") = JsNumber.ofNat 100 ∧
      ∀ step ∈ validSteps [threeTopics], stepDone (allBut "1-0") step = true :=
  ⟨by decide, by decide,
    (C27_hundred_percent_from_199_in_200 [threeTopics] (allBut "1-0") none none none
      (by decide)).2.2 (by decide) (by decide)⟩

set_option maxRecDepth 100000 in
/-- Claim C27, counterexample: on a path of one module with 200 subtopics of which the
last is not completed, the tracker and the list of saved paths compute
`Math.round((199 / 200) * 100) = 100`, and the evaluation unlocks `completion_champion`. -/
theorem C27_199_of_200_counterexample :
    (0, 199) ∈ validSteps [manyTopics 200] ∧ stepDone (allBut "0-199") (0, 199) = false ∧
      calculateProgressWithData (some [manyTopics 200]) (allBut "0-199") = JsNumber.ofNat 100 ∧
      calculateProgress (some [manyTopics 200]) (allBut "0-199") = JsNumber.ofNat 100 ∧
      shownCompleted nearlyDone = true ∧
      "completion_champion" ∈ (checkAchievements (some [manyTopics 200]) []
        (allBut "0-199") (fun i => 1000 + i)).map Achievement.id := by
  decide

/-- Claim C28: for every module list and every progress map, `calculateProgress` and
`calculateProgressWithData` of the tracker, `calculateProgress` of `SavedPaths` on a
record of the list and the map, and `averageProgress` of a snapshot holding just that
record return the same value; a record without a `progress` object gives what the
tracker gives for the empty map, and without a module list all four give 0. -/
theorem C28_progress_calculators_agree (modules : List Module) (progress : Progress)
    (skill : Option String) (achievements : Option (List Achievement))
    (lastUpdated : Option Nat) :
    calculateProgress (some modules) progress =
        calculateProgressWithData (some modules) progress ∧
      SavedPaths.calculateProgress ⟨skill, some modules, some progress, achievements,
          lastUpdated⟩ = calculateProgressWithData (some modules) progress ∧
      averageProgress [⟨skill, some modules, some progress, achievements, lastUpdated⟩] =
        calculateProgressWithData (some modules) progress ∧
      SavedPaths.calculateProgress ⟨skill, some modules, none, achievements, lastUpdated⟩ =
        calculateProgressWithData (some modules) emptyProgress ∧
      averageProgress [⟨skill, some modules, none, achievements, lastUpdated⟩] =
        calculateProgressWithData (some modules) emptyProgress ∧
      calculateProgress none progress = JsNumber.ofNat 0 ∧
      calculateProgressWithData none progress = JsNumber.ofNat 0 ∧
      SavedPaths.calculateProgress ⟨skill, none, some progress, achievements, lastUpdated⟩ =
        JsNumber.ofNat 0 ∧
      averageProgress [⟨skill, none, some progress, achievements, lastUpdated⟩] =
        JsNumber.ofNat 0 := by
  have average : ∀ path : PathRecord, averageProgress [path] =
      if 0 < pathTotal path then roundedPercent (pathCompleted path) (pathTotal path)
      else JsNumber.ofNat 0 := by
    intro path
    obtain ⟨h1, h2⟩ := analyticsCounters_steps [path]
    simp only [List.map_cons, List.map_nil, List.sum_cons, List.sum_nil, Nat.add_zero] at h1 h2
    simp only [averageProgress, h1, h2, gt_iff_lt]
  refine ⟨calculateProgress_eq_withData _ _, ?_, ?_, ?_, ?_, rfl, rfl, rfl, ?_⟩
  · rw [SavedPaths.calculateProgress_eq, calculateProgressWithData_eq]
    rfl
  · rw [average, calculateProgressWithData_eq]
    rfl
  · rw [SavedPaths.calculateProgress_eq, calculateProgressWithData_eq]
    have : completedSubtopics modules emptyProgress = 0 := by
      simp [completedSubtopics, stepDone, emptyProgress, JsVal.truthy]
    simp [pathTotal, pathCompleted, recordStepDone, this]
  · rw [average, calculateProgressWithData_eq]
    have : completedSubtopics modules emptyProgress = 0 := by
      simp [completedSubtopics, stepDone, emptyProgress, JsVal.truthy]
    simp [pathTotal, pathCompleted, recordStepDone, this]
  · rw [average]
    rfl

/-- Claim C29: after a toggle whose write succeeds, the value handed to the
`onProgressUpdate` callback is `calculateProgress()` of the render the handler was
created in, the overall percentage of the progress map before the toggle; the map that
was persisted is the toggled one. -/
theorem C29_callback_receives_percentage_before_toggle (learningPath : Option (List Module))
    (s : TrackerState) (doc : PathDoc) (moduleIndex topicIndex : Nat) (env : ToggleEnv)
    (callback : JsNumber → Bool) (hok : env.progressWriteOk = true)
    (hcallback : env.onProgressUpdate = some callback) :
    (toggleStepCompletion learningPath s doc moduleIndex topicIndex env).reported =
        some (calculateProgress learningPath s.progress) ∧
      (toggleStepCompletion learningPath s doc moduleIndex topicIndex env).doc.progress =
        toggledProgress s.progress moduleIndex topicIndex := by
  refine ⟨?_, toggle_doc_progress learningPath s doc moduleIndex topicIndex env hok⟩
  simp only [toggleStepCompletion, hok, if_true, hcallback]
  split_ifs <;> rfl

/-- Claim C29, witness and failing input: on a path with a single step, checking the
step persists a map whose overall percentage is 100, and the callback receives 0. -/
theorem C29_callback_receives_percentage_before_toggle_witness :
    (reportsBack 1000).progressWriteOk = true ∧
      (reportsBack 1000).onProgressUpdate = some (fun _ => true) ∧
      (toggleStepCompletion (some [oneTopic]) freshState freshDoc 0 0
        (reportsBack 1000)).reported = some (JsNumber.ofNat 0) ∧
      calculateProgress (some [oneTopic])
        (toggleStepCompletion (some [oneTopic]) freshState freshDoc 0 0
          (reportsBack 1000)).doc.progress = JsNumber.ofNat 100 :=
  ⟨rfl, rfl,
    (C29_callback_receives_percentage_before_toggle (some [oneTopic]) freshState freshDoc 0 0
      (reportsBack 1000) (fun _ => true) rfl rfl).1,
    by decide⟩

/-! ## Exporting a path: file names -/

/-- A letter or digit of the class is a lower-case letter or a digit after lower-casing. -/
theorem toLower_of_isAlphanumeric (c : Char) (h : isAlphanumeric c = true) :
    (48 ≤ c.toLower.toNat ∧ c.toLower.toNat ≤ 57) ∨
      (97 ≤ c.toLower.toNat ∧ c.toLower.toNat ≤ 122) := by
  simp only [isAlphanumeric, decide_eq_true_eq] at h
  by_cases hu : 65 ≤ c.toNat ∧ c.toNat ≤ 90
  · have hc : c = Char.ofNat c.toNat := (Char.ofNat_toNat c).symm
    obtain ⟨h1, h2⟩ := hu
    generalize c.toNat = n at hc h1 h2
    subst hc
    interval_cases n <;> decide
  · have : c.toLower = c := by
      simp only [Char.toLower, ge_iff_le, hu, if_false]
    rw [this]
    omega

/-- The characters of the file-name stem: letters and digits lower-cased, an underscore
for every other code unit. -/
theorem fileStem_data (skill : String) :
    (toLowerCase (replaceNonAlphanumeric skill)).data =
      skill.data.flatMap (fun c =>
        if isAlphanumeric c then [c.toLower] else List.replicate (utf16Units c) '_') := by
  simp only [toLowerCase, replaceNonAlphanumeric]
  induction skill.data with
  | nil => rfl
  | cons c rest ih =>
    simp only [List.flatMap_cons, List.map_append, ih]
    congr 1
    split_ifs
    · rfl
    · simp only [List.map_replicate]
      rfl

/-- Claim C23, amended: the file names are the skill name with every ASCII letter
lower-cased, every digit kept and every other UTF-16 code unit replaced by an underscore,
followed by `_learning_path.pdf` and `_learning_schedule.ics`.  Nothing is removed: the
stem has the `length` of the skill, and for a skill of characters of the basic plane it
is the skill with each character lower-cased or replaced. -/
theorem C23_file_names_replace_by_underscores (skill : String) :
    (pdfFileName skill).data =
        skill.data.flatMap (fun c =>
          if isAlphanumeric c then [c.toLower] else List.replicate (utf16Units c) '_') ++
          "_learning_path.pdf".data ∧
      (calendarFileName skill).data =
        skill.data.flatMap (fun c =>
          if isAlphanumeric c then [c.toLower] else List.replicate (utf16Units c) '_') ++
          "_learning_schedule.ics".data ∧
      (toLowerCase (replaceNonAlphanumeric skill)).length = jsLength skill ∧
      (∀ c ∈ (toLowerCase (replaceNonAlphanumeric skill)).data,
        c = '_' ∨ (48 ≤ c.toNat ∧ c.toNat ≤ 57) ∨ (97 ≤ c.toNat ∧ c.toNat ≤ 122)) ∧
      ((∀ c ∈ skill.data, c.toNat < 65536) →
        (toLowerCase (replaceNonAlphanumeric skill)).data =
          skill.data.map (fun c => if isAlphanumeric c then c.toLower else '_')) := by
  have stem := fileStem_data skill
  refine ⟨?_, ?_, ?_, ?_, ?_⟩
  · simp only [pdfFileName, String.data_append, stem]
  · simp only [calendarFileName, String.data_append, stem]
  · rw [String.length, stem, jsLength]
    induction skill.data with
    | nil => rfl
    | cons c rest ih =>
      simp only [List.flatMap_cons, List.length_append, List.map_cons, List.sum_cons, ih]
      congr 1
      split_ifs with h
      · simp only [isAlphanumeric, decide_eq_true_eq] at h
        have : c.toNat < 65536 := by omega
        simp [utf16Units, this]
      · simp
  · intro c hc
    rw [stem, List.mem_flatMap] at hc
    obtain ⟨a, _, ha⟩ := hc
    split_ifs at ha with h
    · rw [List.mem_singleton] at ha
      subst ha
      exact Or.inr (toLower_of_isAlphanumeric a h)
    · exact Or.inl (List.eq_of_mem_replicate ha)
  · intro hbmp
    rw [stem]
    generalize skill.data = chars at hbmp
    induction chars with
    | nil => rfl
    | cons c rest ih =>
      have hc : c.toNat < 65536 := hbmp c (List.mem_cons_self c rest)
      rw [List.flatMap_cons, List.map_cons,
        ih (fun a ha => hbmp a (List.mem_cons_of_mem c ha))]
      split_ifs <;> simp [utf16Units, hc]

/-- Claim C23, counterexample: for the skill "Data Science" the blank is replaced, not
removed; the files are `data_science_learning_path.pdf` and
`data_science_learning_schedule.ics`. -/
theorem C23_data_science_counterexample :
    pdfFileName "Data Science" = "data_science_learning_path.pdf" ∧
      pdfFileName "Data Science" ≠ "datascience_learning_path.pdf" ∧
      calendarFileName "Data Science" = "data_science_learning_schedule.ics" ∧
      pdfFileName "C++ & Rust 2024" = "c_____rust_2024_learning_path.pdf" := by
  decide

/-! ## The sign-in form -/

/-- The `length` of a string of characters of the basic plane is its number of
characters. -/
theorem jsLength_eq_length (text : String) (h : ∀ c ∈ text.data, c.toNat < 65536) :
    jsLength text = text.length := by
  rw [jsLength, String.length]
  generalize text.data = chars at h
  induction chars with
  | nil => rfl
  | cons c rest ih =>
    have hc : c.toNat < 65536 := h c (List.mem_cons_self c rest)
    simp only [List.map_cons, List.sum_cons, List.length_cons,
      ih (fun a ha => h a (List.mem_cons_of_mem c ha)), utf16Units, hc, if_true]
    omega

/-- Claim C25, amended: for every mode and every form state, `validateForm` returns
false exactly when the email or the password is empty or, in account-creation mode, the
display name is empty, the password differs from its confirmation or the password has a
`length` below 6; it then sets a message and `handleSubmit` calls neither `signIn` nor
`signUp`.  In every other state `validateForm` returns true, sets no message, and
`handleSubmit` makes the one call of its mode.  The `length` is the number of UTF-16 code
units, which is the number of characters for a password of characters of the basic
plane. -/
theorem C25_validateForm_rejects_before_any_call (isLogin : Bool) (formData : FormData) :
    ((validateForm isLogin formData).1 = false ↔
        (formData.email = "" ∨ formData.password = "" ∨
          (isLogin = false ∧ (formData.displayName = "" ∨
            formData.password ≠ formData.confirmPassword ∨
            jsLength formData.password < 6)))) ∧
      ((validateForm isLogin formData).1 = false →
        handleSubmit isLogin formData = [] ∧ (validateForm isLogin formData).2 ≠ none) ∧
      ((validateForm isLogin formData).1 = true →
        (validateForm isLogin formData).2 = none ∧
        handleSubmit isLogin formData =
          if isLogin then [AuthCall.signIn formData.email formData.password]
          else [AuthCall.signUp formData.email formData.password formData.displayName]) ∧
      ((∀ c ∈ formData.password.data, c.toNat < 65536) →
        jsLength formData.password = formData.password.length) := by
  refine ⟨?_, ?_, ?_, jsLength_eq_length _⟩
  · unfold validateForm
    cases isLogin <;> split_ifs
    all_goals first
      | (simp_all; done)
      | (simp_all; tauto)
  · intro h
    constructor
    · simp [handleSubmit, h]
    · revert h
      unfold validateForm
      cases isLogin <;> split_ifs <;> simp_all
  · intro h
    constructor
    · revert h
      unfold validateForm
      cases isLogin <;> split_ifs <;> simp_all
    · simp [handleSubmit, h]

/-- Claim C25, counterexample: in account-creation mode, a form whose password is three
characters outside the basic plane (three emoji, confirmed alike) passes `validateForm`,
because its `length` is 6, and `handleSubmit` calls `signUp`. -/
theorem C25_three_character_password_counterexample :
    ("😀😀😀" : String).length = 3 ∧ jsLength "😀😀😀" = 6 ∧
      validateForm false ⟨"ann@example.org", "😀😀😀", "Ann", "😀😀😀"⟩ = (true, none) ∧
      handleSubmit false ⟨"ann@example.org", "😀😀😀", "Ann", "😀😀😀"⟩ =
        [AuthCall.signUp "ann@example.org" "😀😀😀" "Ann"] := by
  decide

/-! ## Exporting a path: the calendar -/

/-- A whole number below `2 ^ 53` is a double: rounding leaves it as it is. -/
theorem roundToDouble_nat (k : Nat) (hk : k < 2 ^ 53) :
    (roundToDouble k 1).1 / (roundToDouble k 1).2 = k := by
  by_cases h0 : k = 0
  · subst h0
    rfl
  · have hpos : 0 < k := Nat.pos_of_ne_zero h0
    have hfuel : k < 2 ^ 53 * 1 * 2 ^ k := by
      have : 1 ≤ 2 ^ k := Nat.one_le_two_pow
      calc k < 2 ^ 53 := hk
        _ = 2 ^ 53 * 1 * 1 := by ring
        _ ≤ 2 ^ 53 * 1 * 2 ^ k := Nat.mul_le_mul_left _ this
    have hdown : scaleDown k k 1 = 0 :=
      (scaleDown_spec k k 1 Nat.one_pos hfuel).2.2 (by omega)
    simp only [roundToDouble, if_neg h0, hdown, pow_zero, Nat.mul_one]
    have := roundHalfEven_mul (k * 2 ^ scaleUp (1 + 52) k 1) 1 Nat.one_pos
    rw [Nat.mul_one] at this
    rw [this]
    exact Nat.mul_div_cancel _ (by positivity)

/-- In a runtime on UTC, a module whose `estimatedHours || 2` is a whole number of hours
gets an event that starts `index * 7 + 1` days after the start of the export and ends
that many hours later, as long as the end is in the range of `Date`. -/
theorem moduleEvent_utc (startDate uidTime : Nat) (skill : String) (module : ExportModule)
    (index hours : Nat) (hhours : hoursOrTwo module = JsNumber.ofNat hours)
    (hrange : startDate + (index * 7 + 1) * msPerDay + hours * msPerHour ≤ maxTime) :
    moduleEvent utcTime startDate uidTime skill module index =
      some ⟨toString uidTime ++ "-" ++ toString index ++ "@learningpath.com",
        startDate + (index * 7 + 1) * msPerDay,
        startDate + (index * 7 + 1) * msPerDay + hours * msPerHour,
        module.moduleTitle ++ " - " ++ skill, eventDescription module⟩ := by
  have hstart : startDate + (index * 7 + 1) * msPerDay ≤ maxTime := by omega
  generalize hS : startDate + (index * 7 + 1) * msPerDay = S at hrange hstart
  have hsmall : S / msPerHour % 24 + hours < 2 ^ 53 := by
    have h24 : S / msPerHour % 24 < 24 := Nat.mod_lt _ (by norm_num)
    simp only [msPerHour, maxTime] at hrange
    norm_num at hrange ⊢
    omega
  have hsum := roundToDouble_nat (S / msPerHour % 24 + hours) hsmall
  have hend : S / msPerDay * msPerDay + (S / msPerHour % 24 + hours) * msPerHour +
      S % msPerHour = S + hours * msPerHour := by
    simp only [msPerDay, msPerHour]
    norm_num
    omega
  simp only [moduleEvent, getWeeklyDate, utcTime, timeClip, hS, hstart, if_true, hhours,
    JsNumber.ofNat, JsNumber.natAdd, JsNumber.toInteger, Nat.mul_one, hsum, hend, hrange]

/-- The loop pushes one event per module, in the order of the modules; the event of the
module at position `i` of the rest is that of round `index + i`. -/
theorem eventsLoop_spec (time : LocalTime) (clock : Nat → Nat) (skill : String)
    (modules : List ExportModule) (index : Nat) (pushed events : List CalendarEvent)
    (h : eventsLoop time clock skill modules index pushed = some events) :
    ∃ added, events = pushed ++ added ∧ added.length = modules.length ∧
      ∀ i module, modules[i]? = some module →
        ∃ event, added[i]? = some event ∧
          moduleEvent time (clock 0) (clock (index + i + 1)) skill module (index + i) =
            some event := by
  induction modules generalizing index pushed with
  | nil =>
    simp only [eventsLoop, Option.some.injEq] at h
    exact ⟨[], by simp [h], rfl, by simp⟩
  | cons module rest ih =>
    rw [eventsLoop] at h
    cases hev : moduleEvent time (clock 0) (clock (index + 1)) skill module index with
    | none => simp [hev] at h
    | some event =>
      simp only [hev] at h
      obtain ⟨added, hevents, hlen, hrest⟩ := ih (index + 1) (pushed ++ [event]) h
      refine ⟨event :: added, by simp [hevents], by simp [hlen], ?_⟩
      intro i m hm
      cases i with
      | zero =>
        simp only [List.getElem?_cons_zero, Option.some.injEq] at hm
        subst hm
        exact ⟨event, by simp, by simpa using hev⟩
      | succ j =>
        simp only [List.getElem?_cons_succ] at hm
        obtain ⟨e, he, hme⟩ := hrest j m hm
        refine ⟨e, by simpa using he, ?_⟩
        have e1 : index + (j + 1) = index + 1 + j := by omega
        rw [e1]
        exact hme

/-- In a runtime on UTC the loop ends normally when every module has a whole number of
hours, at most `limit`, and the last end is in the range of `Date`. -/
theorem eventsLoop_utc (clock : Nat → Nat) (skill : String) (modules : List ExportModule)
    (index limit : Nat) (pushed : List CalendarEvent)
    (hhours : ∀ module ∈ modules, ∃ hours, hoursOrTwo module = JsNumber.ofNat hours ∧
      hours ≤ limit)
    (hrange : clock 0 + ((index + modules.length) * 7 + 1) * msPerDay + limit * msPerHour ≤
      maxTime) :
    ∃ events, eventsLoop utcTime clock skill modules index pushed = some events := by
  induction modules generalizing index pushed with
  | nil => exact ⟨pushed, rfl⟩
  | cons module rest ih =>
    obtain ⟨hours, hh, hle⟩ := hhours module (List.mem_cons_self module rest)
    have hr : clock 0 + (index * 7 + 1) * msPerDay + hours * msPerHour ≤ maxTime := by
      simp only [List.length_cons, msPerDay, msPerHour] at hrange ⊢
      norm_num at hrange ⊢
      omega
    rw [eventsLoop, moduleEvent_utc (clock 0) (clock (index + 1)) skill module index hours hh hr]
    apply ih
    · exact fun m hm => hhours m (List.mem_cons_of_mem module hm)
    · simp only [List.length_cons] at hrange
      have e : index + 1 + rest.length = index + (rest.length + 1) := by omega
      rw [e]
      exact hrange

/-- A line that starts with another letter than `B` is not the line `BEGIN:VEVENT`. -/
theorem tagged_ne_begin (first : Char) (tag rest : String) (h : first ≠ 'B') :
    (String.mk (first :: tag.data) ++ rest == "BEGIN:VEVENT") = false := by
  rw [beq_eq_false_iff_ne]
  intro heq
  have hd := congrArg String.data heq
  rw [String.data_append] at hd
  have : first = 'B' := by
    have h2 := congrArg List.head? hd
    simpa using h2
  exact h this

/-- The lines of an event hold the line `BEGIN:VEVENT` once. -/
theorem count_eventLines (toISOString : Nat → String) (event : CalendarEvent) :
    (eventLines toISOString event).count "BEGIN:VEVENT" = 1 := by
  have uid := tagged_ne_begin 'U' "ID:" event.uid (by decide)
  have dtStart := tagged_ne_begin 'D' "TSTART:" (formatDate toISOString event.dtStart)
    (by decide)
  have dtEnd := tagged_ne_begin 'D' "TEND:" (formatDate toISOString event.dtEnd) (by decide)
  have summary := tagged_ne_begin 'S' "UMMARY:" event.summary (by decide)
  have description := tagged_ne_begin 'D' "ESCRIPTION:" event.description (by decide)
  have e1 : String.mk ('U' :: "ID:".data) = "UID:" := by decide
  have e2 : String.mk ('D' :: "TSTART:".data) = "DTSTART:" := by decide
  have e3 : String.mk ('D' :: "TEND:".data) = "DTEND:" := by decide
  have e4 : String.mk ('S' :: "UMMARY:".data) = "SUMMARY:" := by decide
  have e5 : String.mk ('D' :: "ESCRIPTION:".data) = "DESCRIPTION:" := by decide
  rw [e1] at uid
  rw [e2] at dtStart
  rw [e3] at dtEnd
  rw [e4] at summary
  rw [e5] at description
  have l : ("LOCATION:Online Learning" == "BEGIN:VEVENT") = false := by decide
  have s : ("STATUS:CONFIRMED" == "BEGIN:VEVENT") = false := by decide
  have e : ("END:VEVENT" == "BEGIN:VEVENT") = false := by decide
  simp only [eventLines, List.count_cons, List.count_nil, uid, dtStart, dtEnd, summary,
    description, l, s, e, beq_self_eq_true, if_true, Bool.false_eq_true, if_false]

/-- The array `icsContent` holds the line `BEGIN:VEVENT` once per event. -/
theorem count_icsContent (toISOString : Nat → String) (events : List CalendarEvent) :
    (icsContent toISOString events).count "BEGIN:VEVENT" = events.length := by
  have hbody : ∀ list : List CalendarEvent,
      (list.flatMap (eventLines toISOString)).count "BEGIN:VEVENT" = list.length := by
    intro list
    induction list with
    | nil => rfl
    | cons event rest ih =>
      rw [List.flatMap_cons, List.count_append, ih, count_eventLines, List.length_cons]
      omega
  have hhead : (["BEGIN:VCALENDAR", "VERSION:2.0",
      "PRODID:-//Personal Learning Path Generator//EN", "CALSCALE:GREGORIAN",
      "METHOD:PUBLISH"] : List String).count "BEGIN:VEVENT" = 0 := by decide
  have htail : (["END:VCALENDAR"] : List String).count "BEGIN:VEVENT" = 0 := by decide
  rw [icsContent, List.count_append, List.count_append, hbody, hhead, htail]
  omega

/-- Claim C21, amended: when the export ends normally it has one event per module, in
module order, and the event of the module at index `i` starts `i * 7 + 1` calendar days
after the time the export was started, at the same local time of day: the first event
starts one day after the export, not at its time.  The file then holds the lines of
these events, with one line `BEGIN:VEVENT` per module.  In a runtime on UTC the export
ends normally when every module has a whole number of hours and the dates stay in the
range of `Date`; event `i` then starts exactly `(i * 7 + 1)` days of 24 hours after the
export, and consecutive events start exactly 7 days apart. -/
theorem C21_events_weekly_from_the_next_day (time : LocalTime) (clock : Nat → Nat)
    (skill : String) (modules : List ExportModule) :
    (∀ events, calendarEvents time clock skill modules = some events →
        events.length = modules.length ∧
        ∀ index module, modules[index]? = some module →
          ∃ event, events[index]? = some event ∧
            event.summary = module.moduleTitle ++ " - " ++ skill ∧
            time.plusDays (clock 0) (index * 7 + 1) = some event.dtStart) ∧
      (∀ events (toISOString : Nat → String) (pathData : PathData),
        calendarEvents time clock skill modules = some events →
        pathData.skill = some (FieldValue.text skill) →
        exportToCalendar time toISOString clock (some (FieldValue.modules modules)) pathData =
            some ⟨calendarFileName skill,
              "\r\n".intercalate (icsContent toISOString events)⟩ ∧
          (icsContent toISOString events).count "BEGIN:VEVENT" = modules.length) ∧
      (∀ limit,
        (∀ module ∈ modules, ∃ hours, hoursOrTwo module = JsNumber.ofNat hours ∧
          hours ≤ limit) →
        clock 0 + (modules.length * 7 + 1) * msPerDay + limit * msPerHour ≤ maxTime →
        ∃ events, calendarEvents utcTime clock skill modules = some events ∧
          events.length = modules.length ∧
          (∀ index event, events[index]? = some event →
            event.dtStart = clock 0 + (index * 7 + 1) * msPerDay) ∧
          (∀ index a b, events[index]? = some a → events[index + 1]? = some b →
            b.dtStart = a.dtStart + 7 * msPerDay)) := by
  have general : ∀ (zone : LocalTime) (events : List CalendarEvent),
      calendarEvents zone clock skill modules = some events →
        events.length = modules.length ∧
        ∀ index module, modules[index]? = some module →
          ∃ event, events[index]? = some event ∧
            event.summary = module.moduleTitle ++ " - " ++ skill ∧
            zone.plusDays (clock 0) (index * 7 + 1) = some event.dtStart := by
    intro zone events h
    obtain ⟨added, hevents, hlen, hrest⟩ := eventsLoop_spec zone clock skill modules 0 [] events h
    simp only [List.nil_append] at hevents
    subst hevents
    refine ⟨hlen, fun index module hm => ?_⟩
    obtain ⟨event, he, hme⟩ := hrest index module hm
    refine ⟨event, he, ?_⟩
    simp only [Nat.zero_add, moduleEvent, getWeeklyDate] at hme
    cases hstart : zone.plusDays (clock 0) (index * 7 + 1) with
    | none => simp [hstart] at hme
    | some moduleStartDate =>
      simp only [hstart] at hme
      cases hint : (JsNumber.natAdd (zone.getHours moduleStartDate)
          (hoursOrTwo module)).toInteger with
      | none => simp [hint] at hme
      | some hours =>
        simp only [hint] at hme
        cases hset : zone.setHours moduleStartDate hours with
        | none => simp [hset] at hme
        | some moduleEndDate =>
          simp only [hset, Option.some.injEq] at hme
          subst hme
          exact ⟨rfl, rfl⟩
  refine ⟨general time, fun events toISOString pathData h hskill => ?_,
    fun limit hhours hrange => ?_⟩
  · refine ⟨?_, by rw [count_icsContent, (general time events h).1]⟩
    simp only [exportToCalendar, h, hskill]
  obtain ⟨events, hev⟩ := eventsLoop_utc clock skill modules 0 limit [] hhours
    (by simpa using hrange)
  obtain ⟨hlen, hall⟩ := general utcTime events hev
  have hstart : ∀ index event, events[index]? = some event →
      event.dtStart = clock 0 + (index * 7 + 1) * msPerDay := by
    intro index event he
    have hlt : index < modules.length := by
      rw [← hlen]
      exact (List.getElem?_eq_some.1 he).1
    obtain ⟨e, he', _, hplus⟩ := hall index modules[index] (List.getElem?_eq_getElem hlt)
    rw [he] at he'
    cases he'
    simp only [utcTime, timeClip] at hplus
    split_ifs at hplus
    simp only [Option.some.injEq] at hplus
    exact hplus.symm
  refine ⟨events, hev, hlen, hstart, fun index a b ha hb => ?_⟩
  rw [hstart index a ha, hstart (index + 1) b hb]
  ring

/-- Claim C21, witness: two modules exported at the start of day 100, in a runtime on
UTC: the events start on day 101 and on day 108. -/
theorem C21_events_weekly_from_the_next_day_witness :
    ∃ events, calendarEvents utcTime (countingClock day100) "Lean" [basics, tactics] =
        some events ∧
      events.map (fun event => (event.summary, event.dtStart)) =
        [("Basics - Lean", 101 * msPerDay), ("Tactics - Lean", 108 * msPerDay)] := by
  obtain ⟨events, hev, -, -, -⟩ :=
    (C21_events_weekly_from_the_next_day utcTime (countingClock day100) "Lean"
      [basics, tactics]).2.2 3
      (by
        intro module hm
        simp only [List.mem_cons, List.mem_singleton, List.not_mem_nil, or_false] at hm
        rcases hm with rfl | rfl
        · exact ⟨2, by decide, by decide⟩
        · exact ⟨3, by decide, by decide⟩)
      (by decide)
  refine ⟨events, hev, ?_⟩
  have : calendarEvents utcTime (countingClock day100) "Lean" [basics, tactics] =
      some [⟨"8640000001-0@learningpath.com", 101 * msPerDay,
          101 * msPerDay + 2 * msPerHour, "Basics - Lean",
          "Terms and types\n\nTopics: terms, types\n\nResource: Book"⟩,
        ⟨"8640000002-1@learningpath.com", 108 * msPerDay,
          108 * msPerDay + 3 * msPerHour, "Tactics - Lean",
          "Proving with tactics\n\nTopics: rw, simp\n\nResource: Course\n\nRecommended Books:\n• Theorem Proving in Lean by Avigad"⟩] := by
    decide
  rw [this] at hev
  cases hev
  decide

/-- Claim C21, counterexample: a single module exported at the start of day 100, in a
runtime on UTC: its event starts at the start of day 101, one day after the export. -/
theorem C21_first_event_next_day_counterexample :
    (calendarEvents utcTime (countingClock day100) "Lean" [basics]).map
        (fun events => events.map CalendarEvent.dtStart) = some [day100 + msPerDay] ∧
      countingClock day100 0 = day100 ∧ day100 + msPerDay ≠ day100 := by
  decide

/-- A whole number below `2 ^ 53` is a double: rounding gives the same value. -/
theorem roundToDouble_nat_exact (k : Nat) (hk : k < 2 ^ 53) :
    (roundToDouble k 1).1 = k * (roundToDouble k 1).2 := by
  by_cases h0 : k = 0
  · subst h0
    rfl
  · have hfuel : k < 2 ^ 53 * 1 * 2 ^ k := by
      have : 1 ≤ 2 ^ k := Nat.one_le_two_pow
      calc k < 2 ^ 53 := hk
        _ = 2 ^ 53 * 1 * 1 := by ring
        _ ≤ 2 ^ 53 * 1 * 2 ^ k := Nat.mul_le_mul_left _ this
    have hdown : scaleDown k k 1 = 0 :=
      (scaleDown_spec k k 1 Nat.one_pos hfuel).2.2 (by omega)
    simp only [roundToDouble, if_neg h0, hdown, pow_zero, Nat.mul_one]
    have := roundHalfEven_mul (k * 2 ^ scaleUp (1 + 52) k 1) 1 Nat.one_pos
    rw [Nat.mul_one] at this
    rw [this]

/-- The double nearest to `H + n / d` lies between the whole numbers around it, so its
integer part is `H + ⌊n / d⌋` or one more. -/
theorem toInteger_natAdd (H n d : Nat) (hd : 0 < d) (hsmall : H + n / d + 1 < 2 ^ 53) :
    H + n / d ≤ (roundToDouble (H * d + n) d).1 / (roundToDouble (H * d + n) d).2 ∧
      (roundToDouble (H * d + n) d).1 / (roundToDouble (H * d + n) d).2 ≤ H + n / d + 1 := by
  have hdm := Nat.div_add_mod n d
  have hml := Nat.mod_lt n hd
  have hr := roundToDouble_den_pos (H * d + n) d
  have ha := roundToDouble_nat_exact (H + n / d) (by omega)
  have ha2 := roundToDouble_den_pos (H + n / d) 1
  have hb := roundToDouble_nat_exact (H + n / d + 1) hsmall
  have hb2 := roundToDouble_den_pos (H + n / d + 1) 1
  have hlow : (H + n / d) * d ≤ (H * d + n) * 1 := by
    have : (H + n / d) * d = H * d + d * (n / d) := by ring
    rw [this]
    omega
  have hhigh : (H * d + n) * 1 ≤ (H + n / d + 1) * d := by
    have : (H + n / d + 1) * d = H * d + d * (n / d) + d := by ring
    rw [this]
    omega
  have m1 := roundToDouble_mono (H + n / d) 1 (H * d + n) d Nat.one_pos hd hlow
  have m2 := roundToDouble_mono (H * d + n) d (H + n / d + 1) 1 hd Nat.one_pos hhigh
  rw [ha] at m1
  rw [hb] at m2
  generalize roundToDouble (H * d + n) d = r at hr m1 m2 ⊢
  generalize (roundToDouble (H + n / d) 1).2 = a at ha2 m1
  generalize (roundToDouble (H + n / d + 1) 1).2 = b at hb2 m2
  constructor
  · rw [Nat.le_div_iff_mul_le hr]
    have : (H + n / d) * r.2 * a ≤ r.1 * a := by
      calc (H + n / d) * r.2 * a = (H + n / d) * a * r.2 := by ring
        _ ≤ r.1 * a := m1
    exact Nat.le_of_mul_le_mul_right this ha2
  · apply Nat.div_le_of_le_mul
    have : r.1 * b ≤ r.2 * (H + n / d + 1) * b := by
      calc r.1 * b ≤ (H + n / d + 1) * b * r.2 := m2
        _ = r.2 * (H + n / d + 1) * b := by ring
    exact Nat.le_of_mul_le_mul_right this hb2

/-- In a runtime on UTC, a module with a finite positive `estimatedHours` of value
`n / d` gets an event whose length is a whole number of hours: `⌊n / d⌋` or one more. -/
theorem moduleEvent_utc_fraction (startDate uidTime : Nat) (skill : String)
    (module : ExportModule) (index n d : Nat) (hn : 0 < n) (hd : 0 < d)
    (hhours : module.estimatedHours = some (JsNumber.fin n d))
    (hrange : startDate + (index * 7 + 1) * msPerDay + (n / d + 1) * msPerHour ≤ maxTime) :
    ∃ event hours, moduleEvent utcTime startDate uidTime skill module index = some event ∧
      event.dtStart = startDate + (index * 7 + 1) * msPerDay ∧
      event.dtEnd = event.dtStart + hours * msPerHour ∧
      n / d ≤ hours ∧ hours ≤ n / d + 1 := by
  have hstart : startDate + (index * 7 + 1) * msPerDay ≤ maxTime := by omega
  generalize hS : startDate + (index * 7 + 1) * msPerDay = S at hrange hstart
  generalize hq : n / d = q at hrange ⊢
  have hm : msPerHour = 3600000 := by norm_num [msPerHour]
  have hmax : maxTime = 8640000000000000 := rfl
  have h24 : S / msPerHour % 24 < 24 := Nat.mod_lt _ (by norm_num)
  have hday : S / msPerDay * msPerDay + S / msPerHour % 24 * msPerHour + S % msPerHour = S := by
    simp only [msPerDay, msPerHour]
    norm_num
    omega
  have hsmall : S / msPerHour % 24 + q + 1 < 2 ^ 53 := by
    generalize S / msPerHour % 24 = H at h24
    rw [hm, hmax] at hrange
    norm_num
    omega
  obtain ⟨hlow, hhigh⟩ := toInteger_natAdd (S / msPerHour % 24) n d hd
    (by rw [hq]; exact hsmall)
  rw [hq] at hlow hhigh
  have htruthy : (JsNumber.fin n d).truthy = true := by
    simp only [JsNumber.truthy, bne_iff_ne, ne_eq]
    omega
  generalize htotal : (roundToDouble (S / msPerHour % 24 * d + n) d).1 /
    (roundToDouble (S / msPerHour % 24 * d + n) d).2 = total at hlow hhigh
  have hend : S / msPerDay * msPerDay + total * msPerHour + S % msPerHour =
      S + (total - S / msPerHour % 24) * msPerHour := by
    generalize S / msPerHour % 24 = H at hlow hday ⊢
    generalize S / msPerDay * msPerDay = A at hday ⊢
    generalize S % msPerHour = M at hday ⊢
    rw [hm] at hday ⊢
    omega
  have hclip : S + (total - S / msPerHour % 24) * msPerHour ≤ maxTime := by
    generalize S / msPerHour % 24 = H at hhigh ⊢
    rw [hm] at hrange ⊢
    omega
  have hlow2 : q ≤ total - S / msPerHour % 24 := by omega
  have hhigh2 : total - S / msPerHour % 24 ≤ q + 1 := by omega
  refine ⟨⟨toString uidTime ++ "-" ++ toString index ++ "@learningpath.com", S,
    S + (total - S / msPerHour % 24) * msPerHour, module.moduleTitle ++ " - " ++ skill,
    eventDescription module⟩, total - S / msPerHour % 24, ?_, rfl, rfl, hlow2, hhigh2⟩
  simp only [moduleEvent, getWeeklyDate, utcTime, timeClip, hS, hstart, if_true, hoursOrTwo,
    hhours, htruthy, JsNumber.natAdd, JsNumber.toInteger, htotal, hend, hclip]

/-- Claim C22: what the event lasts, in a runtime on UTC and as long as its end stays in
the range of `Date`.  The event ends exactly 2 hours after its start when
`estimatedHours` is absent or falsy (0 or `NaN`), and exactly `estimatedHours` hours after
its start when that is a positive whole number.  For every other finite positive value
`n / d` the event lasts a whole number of hours, `⌊n / d⌋` or one more, and so never
`estimatedHours` hours. -/
theorem C22_event_lasts_whole_hours (startDate uidTime : Nat) (skill : String)
    (module : ExportModule) (index : Nat) :
    (∀ hours,
        ((module.estimatedHours = none ∧ hours = 2) ∨
          ((∃ x, module.estimatedHours = some x ∧ x.truthy = false) ∧ hours = 2) ∨
          (module.estimatedHours = some (JsNumber.ofNat hours) ∧ 0 < hours)) →
        startDate + (index * 7 + 1) * msPerDay + hours * msPerHour ≤ maxTime →
        ∃ event, moduleEvent utcTime startDate uidTime skill module index = some event ∧
          event.dtEnd = event.dtStart + hours * msPerHour ∧
          event.dtEnd - event.dtStart = hours * msPerHour) ∧
      (∀ n d, 0 < n → 0 < d → module.estimatedHours = some (JsNumber.fin n d) →
        startDate + (index * 7 + 1) * msPerDay + (n / d + 1) * msPerHour ≤ maxTime →
        ∃ event hours, moduleEvent utcTime startDate uidTime skill module index = some event ∧
          event.dtEnd = event.dtStart + hours * msPerHour ∧
          event.dtEnd - event.dtStart = hours * msPerHour ∧
          n / d ≤ hours ∧ hours ≤ n / d + 1 ∧ (n % d ≠ 0 → hours * d ≠ n)) := by
  constructor
  · intro hours hhours hrange
    have hh : hoursOrTwo module = JsNumber.ofNat hours := by
      rcases hhours with ⟨h, rfl⟩ | ⟨⟨x, h, hx⟩, rfl⟩ | ⟨h, hpos⟩
      · simp [hoursOrTwo, h]
      · simp [hoursOrTwo, h, hx]
      · have : (JsNumber.ofNat hours).truthy = true := by
          simp only [JsNumber.ofNat, JsNumber.truthy, bne_iff_ne, ne_eq]
          omega
        simp [hoursOrTwo, h, this]
    exact ⟨_, moduleEvent_utc startDate uidTime skill module index hours hh hrange, rfl,
      by simp⟩
  · intro n d hn hd hhours hrange
    obtain ⟨event, hours, hev, _, hend, hlow, hhigh⟩ :=
      moduleEvent_utc_fraction startDate uidTime skill module index n d hn hd hhours hrange
    refine ⟨event, hours, hev, hend, by rw [hend]; simp, hlow, hhigh, fun hrest heq => ?_⟩
    apply hrest
    rw [← heq]
    exact Nat.mul_mod_left hours d

/-- Claim C22 at concrete inputs, export at the start of day 100: a module with three
estimated hours gets an event of 3 hours, a module without `estimatedHours` one of 2
hours, and a module with `estimatedHours: 1.5` one of 1 hour. -/
theorem C22_event_lasts_whole_hours_witness :
    (∃ event, moduleEvent utcTime day100 (day100 + 2) "Lean" tactics 1 = some event ∧
        event.dtEnd = event.dtStart + 3 * msPerHour ∧
        event.dtEnd - event.dtStart = 3 * msPerHour) ∧
      (moduleEvent utcTime day100 (day100 + 1) "Lean" basics 0).map
        (fun event => event.dtEnd - event.dtStart) = some (2 * msPerHour) ∧
      (∃ event hours, moduleEvent utcTime day100 (day100 + 1) "Lean" oneAndAHalfHours 0 =
          some event ∧
        event.dtEnd = event.dtStart + hours * msPerHour ∧
        event.dtEnd - event.dtStart = hours * msPerHour ∧
        3 / 2 ≤ hours ∧ hours ≤ 3 / 2 + 1 ∧ (3 % 2 ≠ 0 → hours * 2 ≠ 3)) ∧
      (moduleEvent utcTime day100 (day100 + 1) "Lean" oneAndAHalfHours 0).map
        (fun event => event.dtEnd - event.dtStart) = some (1 * msPerHour) :=
  ⟨(C22_event_lasts_whole_hours day100 (day100 + 2) "Lean" tactics 1).1 3
      (Or.inr (Or.inr ⟨rfl, by decide⟩)) (by decide),
    by decide,
    (C22_event_lasts_whole_hours day100 (day100 + 1) "Lean" oneAndAHalfHours 0).2 3 2
      (by decide) (by decide) rfl (by decide),
    by decide⟩

/-- Claim C22, failing inputs, in a runtime on UTC: a module with `estimatedHours: 1.5`
gets an event of 1 hour (`setHours` cuts the fraction), a module with
`estimatedHours: 0` one of 2 hours, and a module with
`estimatedHours: 1.9999999999999998` one of 1 hour when it starts at 00:00 and one of 2
hours when it starts at 23:00 (the sum `23 + 1.9999999999999998` is the double 25). -/
theorem C22_zero_and_fractional_hours_counterexample :
    zeroHours.estimatedHours = some (JsNumber.ofNat 0) ∧
      (moduleEvent utcTime day100 (day100 + 1) "Lean" zeroHours 0).map
        (fun event => event.dtEnd - event.dtStart) = some (2 * msPerHour) ∧
      oneAndAHalfHours.estimatedHours = some (JsNumber.fin 3 2) ∧
      (moduleEvent utcTime day100 (day100 + 1) "Lean" oneAndAHalfHours 0).map
        (fun event => event.dtEnd - event.dtStart) = some (1 * msPerHour) ∧
      2 * msPerHour ≠ 0 * msPerHour ∧ 2 * (1 * msPerHour) ≠ 3 * msPerHour ∧
      (moduleEvent utcTime day100 (day100 + 1) "Lean" almostTwoHours 0).map
        (fun event => event.dtEnd - event.dtStart) = some (1 * msPerHour) ∧
      (moduleEvent utcTime (day100 + 23 * msPerHour) (day100 + 1) "Lean" almostTwoHours 0).map
        (fun event => (event.dtStart, event.dtEnd - event.dtStart)) =
          some (101 * msPerDay + 23 * msPerHour, 2 * msPerHour) := by
  decide

/-! ## Saving a path and opening its export dialog -/

/-- Claim C24: for a signed-in user whose write succeeds, `savePath` called with an
empty module list stores a record whose `path` is the empty list, clears the error and
returns true; called without a generated path it stores nothing, sets the error and
returns false, whatever the surroundings. -/
theorem C24_savePath_stores_an_empty_list (skill proficiency : String)
    (learningStyle : List String) (timePerWeek targetCompletion difficultyLevel : String)
    (learningPreference : List String) (env : SaveEnv) (userId : String)
    (hdb : env.db = true) (huser : env.userId = some userId) (hid : userId ≠ "")
    (hok : env.addDocOk = true) :
    savePath skill proficiency learningStyle timePerWeek targetCompletion
          difficultyLevel learningPreference (some []) env =
        ⟨some [ ("skill", FieldValue.text skill),
            ("proficiency", FieldValue.text proficiency),
            ("learningStyle", FieldValue.tags learningStyle),
            ("timePerWeek", FieldValue.text timePerWeek),
            ("targetCompletion", FieldValue.text targetCompletion),
            ("difficultyLevel", FieldValue.text difficultyLevel),
            ("learningPreference", FieldValue.tags learningPreference),
            ("path", FieldValue.modules []),
            ("createdAt", FieldValue.timestamp env.serverTime),
            ("lastUpdated", FieldValue.timestamp env.serverTime) ], "", true⟩ ∧
      ∀ other : SaveEnv, savePath skill proficiency learningStyle timePerWeek targetCompletion
          difficultyLevel learningPreference none other =
        ⟨none, "Cannot save an empty or invalid path, or user not authenticated.", false⟩ := by
  refine ⟨?_, fun other => rfl⟩
  simp only [savePath, hdb, huser, hok, if_true]
  rw [if_neg]
  simp [hid]

/-- Claim C24, witness and failing input: a signed-in user saves the empty list. -/
theorem C24_savePath_stores_an_empty_list_witness :
    signedIn.db = true ∧ signedIn.userId = some "user-1" ∧ signedIn.addDocOk = true ∧
      (savePath "Lean" "Beginner" [] "4-6" "3-months" "moderate" ["hands-on"] (some [])
        signedIn).result = true ∧
      (savePath "Lean" "Beginner" [] "4-6" "3-months" "moderate" ["hands-on"] (some [])
        signedIn).pathError = "" ∧
      ((savePath "Lean" "Beginner" [] "4-6" "3-months" "moderate" ["hands-on"] (some [])
        signedIn).written.bind (fun record => record.lookup "path")) =
          some (FieldValue.modules []) := by
  have h := (C24_savePath_stores_an_empty_list "Lean" "Beginner" [] "4-6" "3-months"
    "moderate" ["hands-on"] signedIn "user-1" rfl rfl (by decide) rfl).1
  refine ⟨rfl, rfl, rfl, ?_, ?_, ?_⟩
  · rw [h]
  · rw [h]
  · rw [h]
    decide

/-- Claim C30: a record that `savePath` stores keeps the module list under the key
`path` and has no key `generatedPath`; the export dialog opened from `SavedPaths` for
the record reads `selectedPath.generatedPath`, so it receives `undefined` as its
`learningPath`, and `exportToCalendar` throws on `learningPath.forEach`, shows its
alert and offers no file: no event is emitted, whatever the module list. -/
theorem C30_export_dialog_receives_undefined (skill proficiency : String)
    (learningStyle : List String) (timePerWeek targetCompletion difficultyLevel : String)
    (learningPreference : List String) (modules : List ExportModule) (env : SaveEnv)
    (id : String) (record : Document)
    (hsaved : (savePath skill proficiency learningStyle timePerWeek targetCompletion
      difficultyLevel learningPreference (some modules) env).written = some record) :
    record.lookup "path" = some (FieldValue.modules modules) ∧
      (exportDialogProps (snapshotEntry id record)).learningPath = none ∧
      (exportDialogProps (snapshotEntry id record)).pathData.skill =
        some (FieldValue.text skill) ∧
      ∀ (time : LocalTime) (toISOString : Nat → String) (clock : Nat → Nat),
        exportToCalendar time toISOString clock
          (exportDialogProps (snapshotEntry id record)).learningPath
          (exportDialogProps (snapshotEntry id record)).pathData = none := by
  have hrecord : record =
      [ ("skill", FieldValue.text skill),
        ("proficiency", FieldValue.text proficiency),
        ("learningStyle", FieldValue.tags learningStyle),
        ("timePerWeek", FieldValue.text timePerWeek),
        ("targetCompletion", FieldValue.text targetCompletion),
        ("difficultyLevel", FieldValue.text difficultyLevel),
        ("learningPreference", FieldValue.tags learningPreference),
        ("path", FieldValue.modules modules),
        ("createdAt", FieldValue.timestamp env.serverTime),
        ("lastUpdated", FieldValue.timestamp env.serverTime) ] := by
    simp only [savePath] at hsaved
    split_ifs at hsaved
    simp only [Option.some.injEq] at hsaved
    exact hsaved.symm
  subst hrecord
  have hnone : (exportDialogProps (snapshotEntry id
      [ ("skill", FieldValue.text skill),
        ("proficiency", FieldValue.text proficiency),
        ("learningStyle", FieldValue.tags learningStyle),
        ("timePerWeek", FieldValue.text timePerWeek),
        ("targetCompletion", FieldValue.text targetCompletion),
        ("difficultyLevel", FieldValue.text difficultyLevel),
        ("learningPreference", FieldValue.tags learningPreference),
        ("path", FieldValue.modules modules),
        ("createdAt", FieldValue.timestamp env.serverTime),
        ("lastUpdated", FieldValue.timestamp env.serverTime) ])).learningPath = none := by
    simp [exportDialogProps, snapshotEntry, List.lookup]
  refine ⟨by simp [List.lookup], hnone, by simp [exportDialogProps, snapshotEntry, List.lookup],
    fun time toISOString clock => ?_⟩
  rw [hnone]
  rfl

/-- Claim C30, witness and failing input: a signed-in user saves a path of two modules
and opens the export dialog for the record.  The dialog gets no module list and the
calendar export offers no file; on the list stored under `path` the same export gives a
file with the two events. -/
theorem C30_export_dialog_receives_undefined_witness :
    ∃ record, (savePath "Lean" "Beginner" [] "4-6" "3-months" "moderate" ["hands-on"]
          (some [basics, tactics]) signedIn).written = some record ∧
      record.lookup "path" = some (FieldValue.modules [basics, tactics]) ∧
      (exportDialogProps (snapshotEntry "doc-1" record)).learningPath = none ∧
      (∀ toISOString : Nat → String,
        exportToCalendar utcTime toISOString (countingClock day100)
          (exportDialogProps (snapshotEntry "doc-1" record)).learningPath
          (exportDialogProps (snapshotEntry "doc-1" record)).pathData = none) ∧
      (∀ toISOString : Nat → String,
        (exportToCalendar utcTime toISOString (countingClock day100) (record.lookup "path")
          (exportDialogProps (snapshotEntry "doc-1" record)).pathData).isSome = true) ∧
      (calendarEvents utcTime (countingClock day100) "Lean" [basics, tactics]).map
        List.length = some 2 := by
  refine ⟨_, rfl, ?_⟩
  have h := C30_export_dialog_receives_undefined "Lean" "Beginner" [] "4-6" "3-months"
    "moderate" ["hands-on"] [basics, tactics] signedIn "doc-1" _ rfl
  exact ⟨h.1, h.2.1, fun toISOString => h.2.2.2 utcTime toISOString (countingClock day100),
    fun _ => rfl, by decide⟩

end LearningPath
